import Mathlib

/-!
Verification of the core of a stack-based array language: the data model,
the monadic array algorithms (`src/algorithm/monadic.rs`), the static
signature checker (`src/check.rs`) and the parser's binding rules
(`src/parse.rs`), shallowly embedded in Lean, with theorems about the
specified properties.

`f64` scalars are embedded as rationals (all the operations the theorems
touch are exact on the values they are applied to), `u8`/`usize` as `Nat`.
Types that live in files outside the given sources (`Signature`,
`Function`, the `Array`/`Value` structs) are modelled from the spec; each
such definition says so in its doc comment.
-/

set_option linter.unusedVariables false

namespace Uiua

/-- Rectangular array value: a shape and flat row-major data.  Modelled from
the spec (`array.rs` is not among the sources): §3 defines an array as a
shape together with flat data, with intended invariant
`data.length = shape.prod`; the theorems carry that invariant as a
hypothesis. -/
structure Arr (T : Type) where
  shape : List Nat
  data : List T
deriving DecidableEq

/-- Rank of an array: the length of its shape (spec §3). -/
def Arr.rank (a : Arr T) : Nat := a.shape.length

/-- Row count: the leading dimension, `0` for rank-0 (spec §3). -/
def Arr.rowCount (a : Arr T) : Nat := a.shape.headD 0

/-- Row length: the product of the trailing dimensions (spec §3). -/
def Arr.rowLen (a : Arr T) : Nat := (a.shape.drop 1).prod

/-- Number of scalar elements held by the array. -/
def Arr.elementCount (a : Arr T) : Nat := a.data.length

/-- Scalar extraction: the single element of a rank-0 array.  Modelled from
the spec: rank-0 arrays hold exactly one element. -/
def Arr.asScalar (a : Arr T) : Option T :=
  if a.shape.isEmpty then a.data.head? else none

/-- Value: tagged union over number, byte, character and boxed arrays
(spec §3).  Modelled from the spec (`value.rs` is not among the sources);
the boxed variant carries its shape and boxed values inline. -/
inductive Value where
  | num (a : Arr Rat)
  | byte (a : Arr Nat)
  | char (a : Arr Char)
  | box (shape : List Nat) (data : List Value)

/-- Rank of a value: the rank of the underlying array. -/
def Value.rank : Value → Nat
  | .num a => a.shape.length
  | .byte a => a.shape.length
  | .char a => a.shape.length
  | .box shape _ => shape.length

/-- Truncation of a rational toward zero, the behavior of Rust `f64` to
integer casts and of `f64::fract`. -/
def ratTrunc (q : Rat) : Int :=
  if q < 0 then -((-q).floor) else q.floor

/-- Fractional part in the Rust sense: `x - trunc(x)`. -/
def ratFract (q : Rat) : Rat := q - (ratTrunc q : Rat)

/-! ## Signature checker (`src/check.rs`) -/

namespace Check

/-- Function signature: stack arguments consumed and outputs produced.
Modelled from the spec (the struct lives in `function.rs`, outside the
sources): a pair of non-negative integers (spec §3). -/
structure Signature where
  args : Nat
  outputs : Nat
deriving DecidableEq

/-- Modelled from the spec §4.3: two signatures are compatible iff they have
the same net stack delta. -/
def Signature.isCompatibleWith (a b : Signature) : Bool :=
  ((a.outputs : Int) - a.args) == ((b.outputs : Int) - b.args)

/-- Modelled from the spec §4.3: element-wise maximum of args and outputs. -/
def Signature.maxWith (a b : Signature) : Signature :=
  ⟨max a.args b.args, max a.outputs b.outputs⟩

/-- Modelled from the spec §4.3: `is_subset_of` means both components `≤`
and equal net delta. -/
def Signature.isSubsetOf (a b : Signature) : Bool :=
  decide (a.args ≤ b.args) && decide (a.outputs ≤ b.outputs) &&
    (((a.outputs : Int) - a.args) == ((b.outputs : Int) - b.args))

/-- The primitives that the signature checker (`check.rs`) handles
explicitly, plus the ordinary data primitives used by its tests and the
parser's style rules. -/
inductive Prim where
  | Reduce | Scan | Each | Rows | Distribute | Tribute
  | Table | Cross | Group | Partition | Spawn | Repeat
  | Bind | Both | Fork | Bracket | If | Level | Fold | Combinate
  | Try | Invert | Under | Fill | Pack
  | Dup | Flip | Pop | Over | Dip | Gap | Oust | Join | Dump
  | Break | Identity | Add | Pow | Not | Eq | Ne | Lt | Le | Gt | Ge
deriving DecidableEq

/-- Modelled from the spec: the primitive arity table lives in
`primitive.rs`, outside the sources.  The stack shufflers get the arities
the spec states (`dup`, `over` push one, `pop` removes one, …), the data
primitives their argument counts from the spec's concrete scenarios, and
the modifier primitives report indeterminate args so that the
single-instruction shortcut of `instrs_signature` does not apply to them
(they are handled explicitly by the virtual environment). -/
def Prim.args : Prim → Option Nat
  | .Dup => some 1 | .Flip => some 2 | .Pop => some 1 | .Over => some 2
  | .Join => some 2 | .Identity => some 1 | .Add => some 2 | .Pow => some 2
  | .Not => some 1 | .Eq => some 2 | .Ne => some 2
  | .Lt => some 2 | .Le => some 2 | .Gt => some 2 | .Ge => some 2
  | _ => none

/-- Modelled from the spec; see `Prim.args`. -/
def Prim.outputs : Prim → Option Nat
  | .Dup => some 2 | .Flip => some 2 | .Pop => some 0 | .Over => some 3
  | .Join => some 1 | .Identity => some 1 | .Add => some 1 | .Pow => some 1
  | .Not => some 1 | .Eq => some 1 | .Ne => some 1
  | .Lt => some 1 | .Le => some 1 | .Gt => some 1 | .Ge => some 1
  | _ => none

/-- Modelled from the spec; none of the primitives above both carries a
determinate data arity and consumes functions. -/
def Prim.modifierArgs : Prim → Option Nat
  | _ => none

mutual

/-- Compiled instructions (spec §3); the variants mirror `Instr` as used by
`check.rs`.  `Dynamic` carries only the signature the checker reads, and
`ImplPrim` carries the arity triple its (out-of-source) implementation
primitive would report. -/
inductive Instr where
  | Push (v : Value)
  | BeginArray
  | EndArray
  | Call
  | PushTempInline (count : Nat)
  | PushTempUnder (count : Nat)
  | PushTempFunctions (n : Nat)
  | PopTempFunctions (n : Nat)
  | GetTempFunction (sig : Signature)
  | PopTempInline (count : Nat)
  | PopTempUnder (count : Nat)
  | CopyTempInline (count : Nat)
  | DropTempInline (count : Nat)
  | PushFunc (f : Function)
  | Switch (count : Nat)
  | Dynamic (sig : Signature)
  | Prim (p : Prim)
  | ImplPrim (args outputs modArgs : Nat)

/-- Function value: instruction list and declared signature (spec §3 and
§6).  Modelled from the spec for the parts outside the sources: the checker
reads `signature()`, `inverse()` and `under(..)` only through their
signatures, so the inverse and the under rewrite are carried as optional
signatures. -/
inductive Function where
  | mk (instrs : List Instr) (sig : Signature)
      (invSig : Option Signature) (underSigs : Option (Signature × Signature))

end

/-- Instruction list of a function. -/
def Function.instrs : Function → List Instr
  | .mk instrs _ _ _ => instrs

/-- Declared signature of a function. -/
def Function.sig : Function → Signature
  | .mk _ sig _ _ => sig

/-- Signature of the function's inverse, when one exists. -/
def Function.invSig : Function → Option Signature
  | .mk _ _ inv _ => inv

/-- Signatures of the function's under rewrite `(before, after)`, when one
exists. -/
def Function.underSigs : Function → Option (Signature × Signature)
  | .mk _ _ _ u => u

mutual

/-- Whether an instruction is, or transitively contains, a `break`
(`instrs_contain_break` in `check.rs`). -/
def instrIsBreak : Instr → Bool
  | .Prim .Break => true
  | .PushFunc f => funcContainsBreak f
  | _ => false

/-- See `instrIsBreak`. -/
def funcContainsBreak : Function → Bool
  | .mk instrs _ _ _ => instrsContainBreak instrs

/-- See `instrIsBreak`. -/
def instrsContainBreak : List Instr → Bool
  | [] => false
  | i :: rest => instrIsBreak i || instrsContainBreak rest

end

/-- Symbolic stack values of the virtual environment (`BasicValue` in
`check.rs`). -/
inductive BasicValue where
  | num (n : Rat)
  | arr (vs : List BasicValue)
  | other
  | unknown

/-- Abstraction of a pushed value (`BasicValue::from_val`): scalar numbers
and bytes become known numbers, rank-1 arrays become known arrays, anything
else is `other`. -/
def BasicValue.fromVal (v : Value) : BasicValue :=
  match (match v with | .num a => a.asScalar | _ => none) with
  | some n => .num n
  | none =>
    match (match v with | .byte a => a.asScalar | _ => none) with
    | some b => .num (b : Rat)
    | none =>
      if v.rank = 1 then
        .arr (match v with
          | .num a => a.data.map BasicValue.num
          | .byte a => a.data.map (fun b => BasicValue.num (b : Rat))
          | .char a => a.data.map (fun _ => BasicValue.other)
          | .box _ d => d.map (fun _ => BasicValue.other))
      else .other

/-- The virtual environment of the checker (`VirtualEnv` in `check.rs`):
symbolic data stack (head is the top), function stack, array-builder stack
of recorded heights, and the running minimum height. -/
structure VEnv where
  stack : List BasicValue
  functionStack : List Function
  arrayStack : List Nat
  minHeight : Nat

/-- Initial stack height of the checker (`START_HEIGHT`). -/
def startHeight : Nat := 16

/-- Initial virtual environment. -/
def initEnv : VEnv :=
  ⟨List.replicate startHeight .unknown, [], [], startHeight⟩

/-- Pop a symbolic value (`VirtualEnv::pop`); an empty stack means the
function is too complex. -/
def VEnv.pop : VEnv → Except String (BasicValue × VEnv)
  | ⟨[], _, _, _⟩ => .error ("function is too complex")
  | ⟨v :: rest, fs, bs, mh⟩ => .ok (v, ⟨rest, fs, bs, mh⟩)

/-- Pop a function (`VirtualEnv::pop_func`). -/
def VEnv.popFunc : VEnv → Except String (Function × VEnv)
  | ⟨_, [], _, _⟩ => .error ("expected function. This is an interpreter bug")
  | ⟨st, f :: fs, bs, mh⟩ => .ok (f, ⟨st, fs, bs, mh⟩)

/-- Record the current height as a potential minimum and cap the innermost
array-builder bottom (`VirtualEnv::set_min_height`). -/
def VEnv.setMinHeight (e : VEnv) : VEnv :=
  { e with
    minHeight := min e.minHeight e.stack.length
    arrayStack :=
      match e.arrayStack with
      | [] => []
      | h :: t => min h e.stack.length :: t }

/-- Pop `n` symbolic values, failing as `pop` does. -/
def VEnv.popN : Nat → VEnv → Except String VEnv
  | 0, e => .ok e
  | n + 1, e =>
    match e.pop with
    | .error s => .error s
    | .ok (_, e') => VEnv.popN n e'

/-- Push `n` opaque outputs. -/
def VEnv.pushOthers (n : Nat) (e : VEnv) : VEnv :=
  { e with stack := List.replicate n .other ++ e.stack }

/-- Pop `args` values, record the minimum, push `outputs` opaque values
(`VirtualEnv::handle_args_outputs`). -/
def VEnv.handleArgsOutputs (args outputs : Nat) (e : VEnv) : Except String VEnv :=
  match e.popN args with
  | .error s => .error s
  | .ok e' => .ok (e'.setMinHeight.pushOthers outputs)

/-- Apply a signature to the stack (`VirtualEnv::handle_sig`). -/
def VEnv.handleSig (sig : Signature) (e : VEnv) : Except String VEnv :=
  e.handleArgsOutputs sig.args sig.outputs

/-- Pop `count` functions for a switch, first-popped first. -/
def VEnv.popFuncs : Nat → VEnv → Except String (List Function × VEnv)
  | 0, e => .ok ([], e)
  | n + 1, e =>
    match e.popFunc with
    | .error s => .error s
    | .ok (f, e') =>
      match VEnv.popFuncs n e' with
      | .error s => .error s
      | .ok (fs, e'') => .ok (f :: fs, e'')

/-- Adjacent-pair compatibility check used by `Switch`
(`funcs.windows(2).find(..)` in `check.rs`); returns `true` when some
adjacent pair is incompatible. -/
def anyIncompatible : List Function → Bool
  | f :: g :: rest =>
    !(f.sig.isCompatibleWith g.sig) || anyIncompatible (g :: rest)
  | _ => false

/-- Abstract effect of one instruction on the virtual environment
(`VirtualEnv::instr`). -/
def step (instr : Instr) (e : VEnv) : Except String VEnv :=
  match instr with
  | .Push v => .ok { e with stack := BasicValue.fromVal v :: e.stack }
  | .BeginArray => .ok { e with arrayStack := e.stack.length :: e.arrayStack }
  | .EndArray =>
    match e.arrayStack with
    | [] => .error ("EndArray without BeginArray")
    | bottom :: rest =>
      -- `stack.drain(bottom..)`; a bottom beyond the stack aborts in the
      -- source (cannot happen in the runs considered here) and is modelled
      -- as an error.
      if bottom ≤ e.stack.length then
        .ok { e with
              stack := .arr (e.stack.take (e.stack.length - bottom)) ::
                e.stack.drop (e.stack.length - bottom)
              arrayStack := rest }
      else .error ("EndArray bottom out of bounds")
  | .Call =>
    match e.popFunc with
    | .error s => .error s
    | .ok (f, e') => e'.handleSig f.sig
  | .PushTempInline count => e.handleArgsOutputs count 0
  | .PushTempUnder count => e.handleArgsOutputs count 0
  | .PushTempFunctions _ => .ok e
  | .PopTempFunctions _ => .ok e
  | .GetTempFunction sig =>
    .ok { e with functionStack := Function.mk [] sig none none :: e.functionStack }
  | .PopTempInline count => e.handleArgsOutputs 0 count
  | .PopTempUnder count => e.handleArgsOutputs 0 count
  | .CopyTempInline count => e.handleArgsOutputs 0 count
  | .DropTempInline _ => .ok e
  | .PushFunc f => .ok { e with functionStack := f :: e.functionStack }
  | .Switch count =>
    match e.popFuncs count with
    | .error s => .error s
    | .ok (funcs, e') =>
      match e'.pop with
      | .error s => .error s
      | .ok (i, e'') =>
        match i with
        | .num i =>
          if 0 ≤ i ∧ ratFract i = 0 ∧ (ratTrunc i).toNat < count then
            e''.handleSig ((funcs.getD (ratTrunc i).toNat (Function.mk [] ⟨0, 0⟩ none none)).sig)
          else
            if anyIncompatible funcs then
              .error ("switch's functions have incompatible signatures")
            else
              e''.handleSig ((funcs.map Function.sig).foldl Signature.maxWith ⟨0, 0⟩)
        | _ =>
          if anyIncompatible funcs then
            .error ("switch's functions have incompatible signatures")
          else
            e''.handleSig ((funcs.map Function.sig).foldl Signature.maxWith ⟨0, 0⟩)
  | .Dynamic sig => e.handleSig sig
  | .ImplPrim args outputs modArgs =>
    match popFuncsDiscard modArgs e with
    | .error s => .error s
    | .ok e' => e'.handleArgsOutputs args outputs
  | .Prim p =>
    match p with
    | .Reduce | .Scan =>
      match e.popFunc with
      | .error s => .error s
      | .ok (f, e') =>
        let sig := f.sig
        match sig.args, sig.outputs with
        | 0, _ => .error ("the function has no args")
        | 1, 0 => e'.handleArgsOutputs 1 0
        | 1, _ => .error ("bad signature for reduce or scan")
        | 2, 1 => e'.handleArgsOutputs 1 1
        | _, _ => .error ("bad signature for reduce or scan")
    | .Each | .Rows | .Distribute | .Tribute =>
      match e.popFunc with
      | .error s => .error s
      | .ok (f, e') =>
        if f.sig.outputs ≠ 1 then .error ("the function must have 1 output")
        else e'.handleSig f.sig
    | .Table | .Cross =>
      match e.popFunc with
      | .error s => .error s
      | .ok (f, e') =>
        if f.sig ≠ ⟨2, 1⟩ then .error ("the function's signature must be |2.1")
        else e'.handleArgsOutputs 2 1
    | .Group | .Partition =>
      match e.popFunc with
      | .error s => .error s
      | .ok (f, e') =>
        match f.sig.args with
        | 0 => e'.handleArgsOutputs 2 0
        | 1 => e'.handleArgsOutputs 2 1
        | 2 => e'.handleArgsOutputs 3 1
        | _ => .error ("the function must take at most 2 arguments")
    | .Spawn =>
      match e.popFunc with
      | .error s => .error s
      | .ok (f, e') => e'.handleArgsOutputs f.sig.args 1
    | .Repeat =>
      match e.popFunc with
      | .error s => .error s
      | .ok (f, e') =>
        match e'.pop with
        | .error s => .error s
        | .ok (n, e'') =>
          if funcContainsBreak f then .error ("break present")
          else
            match n with
            | .num n =>
              if ratFract n = 0 ∧ 0 ≤ n then
                let nn := (ratTrunc n).toNat
                if nn > 0 then
                  let sig := f.sig
                  let ao : Nat × Nat :=
                    match compare sig.args sig.outputs with
                    | .eq => (sig.args, sig.outputs)
                    | .lt => (sig.args, nn * (sig.outputs - sig.args) + sig.args)
                    | .gt => ((nn - 1) * (sig.args - sig.outputs) + sig.args, sig.outputs)
                  match e''.popN ao.1 with
                  | .error s => .error s
                  | .ok e₃ => .ok (e₃.setMinHeight.pushOthers ao.2)
                else .ok e''
              else .error ("repeat without a natural number")
            | _ =>
              if f.sig.isCompatibleWith ⟨1, 1⟩ then
                match e''.popN f.sig.args with
                | .error s => .error s
                | .ok e₃ => .ok (e₃.setMinHeight.pushOthers f.sig.outputs)
              else
                if f.sig.args < f.sig.outputs ∧ ¬e''.arrayStack.isEmpty then
                  e''.handleSig f.sig
                else .error ("repeat with no number and an incompatible function")
    | .Bind =>
      match e.popFunc with
      | .error s => .error s
      | .ok (f, e') =>
        match e'.popFunc with
        | .error s => .error s
        | .ok (g, e'') =>
          match e''.popN g.sig.args with
          | .error s => .error s
          | .ok e₃ =>
            let e₄ := (e₃.setMinHeight).pushOthers g.sig.outputs
            match e₄.popN f.sig.args with
            | .error s => .error s
            | .ok e₅ => .ok ((e₅.setMinHeight).pushOthers f.sig.outputs)
    | .Both =>
      match e.popFunc with
      | .error s => .error s
      | .ok (f, e') => e'.handleArgsOutputs (f.sig.args * 2) (f.sig.outputs * 2)
    | .Fork =>
      match e.popFunc with
      | .error s => .error s
      | .ok (f, e') =>
        match e'.popFunc with
        | .error s => .error s
        | .ok (g, e'') =>
          e''.handleArgsOutputs (max f.sig.args g.sig.args) (f.sig.outputs + g.sig.outputs)
    | .Bracket =>
      match e.popFunc with
      | .error s => .error s
      | .ok (f, e') =>
        match e'.popFunc with
        | .error s => .error s
        | .ok (g, e'') =>
          e''.handleArgsOutputs (f.sig.args + g.sig.args) (f.sig.outputs + g.sig.outputs)
    | .If =>
      match e.popFunc with
      | .error s => .error s
      | .ok (ifTrue, e') =>
        match e'.popFunc with
        | .error s => .error s
        | .ok (ifFalse, e'') =>
          match e''.pop with
          | .error s => .error s
          | .ok (_, e₃) =>
            if ifTrue.sig.outputs = ifFalse.sig.outputs then
              e₃.handleArgsOutputs (max ifTrue.sig.args ifFalse.sig.args) ifTrue.sig.outputs
            else if ifTrue.sig.isCompatibleWith ifFalse.sig then
              e₃.handleSig (ifTrue.sig.maxWith ifFalse.sig)
            else .error ("if's branches are not compatible")
    | .Level | .Fold | .Combinate =>
      match e.popFunc with
      | .error s => .error s
      | .ok (ranks, e') =>
        if ranks.sig.outputs ≠ 1 then .error ("the rank list function must have 1 output")
        else if ranks.sig.args > 1 then
          .error ("the rank list function must have 0 or 1 arguments")
        else
          match e'.popFunc with
          | .error s => .error s
          | .ok (f, e'') => e''.handleSig f.sig
    | .Try =>
      match e.popFunc with
      | .error s => .error s
      | .ok (f, e') =>
        match e'.popFunc with
        | .error s => .error s
        | .ok (handler, e'') =>
          if !(handler.sig.isSubsetOf ⟨f.sig.args + 1, f.sig.outputs⟩) then
            .error ("the error handler should take one more argument than the function")
          else e''.handleSig f.sig
    | .Invert =>
      match e.popFunc with
      | .error s => .error s
      | .ok (f, e') =>
        match f.invSig with
        | some sig =>
          match e'.popN sig.args with
          | .error s => .error s
          | .ok e'' => .ok ((e''.setMinHeight).pushOthers sig.outputs)
        | none => .ok e'
    | .Under =>
      match e.popFunc with
      | .error s => .error s
      | .ok (f, e') =>
        match e'.popFunc with
        | .error s => .error s
        | .ok (g, e'') =>
          let e₃ := e''.setMinHeight
          match f.underSigs with
          | some (beforeSig, afterSig) =>
            match e₃.handleSig beforeSig with
            | .error s => .error s
            | .ok e₄ =>
              match e₄.handleSig g.sig with
              | .error s => .error s
              | .ok e₅ => e₅.handleSig afterSig
          | none => .ok e₃
    | .Fill =>
      match e.popFunc with
      | .error s => .error s
      | .ok (fill, e') =>
        match e'.handleSig fill.sig with
        | .error s => .error s
        | .ok e'' =>
          match e''.pop with
          | .error s => .error s
          | .ok (_, e₃) =>
            match e₃.popFunc with
            | .error s => .error s
            | .ok (f, e₄) => e₄.handleSig f.sig
    | .Pack =>
      match e.popFunc with
      | .error s => .error s
      | .ok (f, e') => e'.handleSig f.sig
    | .Dup =>
      match e.pop with
      | .error s => .error s
      | .ok (v, e') =>
        let e'' := e'.setMinHeight
        .ok { e'' with stack := v :: v :: e''.stack }
    | .Flip =>
      match e.pop with
      | .error s => .error s
      | .ok (a, e') =>
        match e'.pop with
        | .error s => .error s
        | .ok (b, e'') =>
          let e₃ := e''.setMinHeight
          -- the source pushes `a` then `b`, leaving `b` on top
          .ok { e₃ with stack := b :: a :: e₃.stack }
    | .Pop =>
      match e.pop with
      | .error s => .error s
      | .ok (_, e') => .ok e'.setMinHeight
    | .Over =>
      match e.pop with
      | .error s => .error s
      | .ok (a, e') =>
        match e'.pop with
        | .error s => .error s
        | .ok (b, e'') =>
          let e₃ := e''.setMinHeight
          -- pushes `b`, `a`, `b`, leaving `b` on top
          .ok { e₃ with stack := b :: a :: b :: e₃.stack }
    | .Dip =>
      match e.popFunc with
      | .error s => .error s
      | .ok (f, e') =>
        match e'.pop with
        | .error s => .error s
        | .ok (x, e'') =>
          match (e''.setMinHeight).handleSig f.sig with
          | .error s => .error s
          | .ok e₃ => .ok { e₃ with stack := x :: e₃.stack }
    | .Gap =>
      match e.popFunc with
      | .error s => .error s
      | .ok (f, e') =>
        match e'.pop with
        | .error s => .error s
        | .ok (_, e'') => (e''.setMinHeight).handleSig f.sig
    | .Oust =>
      match e.popFunc with
      | .error s => .error s
      | .ok (f, e') =>
        match e'.pop with
        | .error s => .error s
        | .ok (x, e'') =>
          match e''.pop with
          | .error s => .error s
          | .ok (_, e₃) =>
            let e₄ := e₃.setMinHeight
            ({ e₄ with stack := x :: e₄.stack } : VEnv).handleSig f.sig
    | .Join =>
      match e.pop with
      | .error s => .error s
      | .ok (a, e') =>
        match e'.pop with
        | .error s => .error s
        | .ok (b, e'') =>
          let e₃ := e''.setMinHeight
          let joined :=
            match a, b with
            | .arr a, .arr b => BasicValue.arr (a ++ b)
            | .arr a, b => BasicValue.arr (a ++ [b])
            | a, .arr b => BasicValue.arr (a :: b)
            | a, b => BasicValue.arr [a, b]
          .ok { e₃ with stack := joined :: e₃.stack }
    | .Dump =>
      match e.popFunc with
      | .error s => .error s
      | .ok (_, e') => .ok e'
    | _ =>
      -- generic primitive: `modifier_args` functions, `args` data values,
      -- `outputs` opaque results; indeterminate arity is an error
      match p.args with
      | none => .error ("the primitive has indeterminate args")
      | some args =>
        match popFuncsDiscard (p.modifierArgs.getD 0) e with
        | .error s => .error s
        | .ok e' =>
          match e'.popN args with
          | .error s => .error s
          | .ok e'' =>
            let e₃ := e''.setMinHeight
            match p.outputs with
            | none => .error ("the primitive has indeterminate outputs")
            | some outputs => .ok (e₃.pushOthers outputs)
where
  /-- Pop and discard `n` functions. -/
  popFuncsDiscard : Nat → VEnv → Except String VEnv
    | 0, e => .ok e
    | n + 1, e =>
      match e.popFunc with
      | .error s => .error s
      | .ok (_, e') => popFuncsDiscard n e'

/-- Run a list of instructions (`VirtualEnv::instrs`). -/
def runInstrs : List Instr → VEnv → Except String VEnv
  | [], e => .ok e
  | i :: rest, e =>
    match step i e with
    | .error s => .error s
    | .ok e' => runInstrs rest e'

/-- Signature computed by the virtual environment: `args` is the saturating
distance from the start height down to the minimum, `outputs` the final
height above the minimum (`instrs_signature`, general path). -/
def instrsSignatureVirtual (instrs : List Instr) : Except String Signature :=
  match runInstrs instrs initEnv with
  | .error s => .error s
  | .ok e => .ok ⟨startHeight - e.minHeight, e.stack.length - e.minHeight⟩

/-- Count the arguments and stack delta of an instruction list
(`instrs_signature` in `check.rs`), including the single-primitive
shortcut. -/
def instrsSignature (instrs : List Instr) : Except String Signature :=
  match instrs with
  | [.Prim p] =>
    match p.args, p.outputs with
    | some args, some outputs =>
      .ok ⟨args + (p.modifierArgs.getD 0), outputs⟩
    | _, _ => instrsSignatureVirtual [.Prim p]
  | _ => instrsSignatureVirtual instrs

/-- Instructions whose abstract effect inspects a popped value: the claim
composition law is stated away from them. -/
def isSwitchOrRepeat : Instr → Bool
  | .Switch _ => true
  | .Prim .Repeat => true
  | _ => false

/-- No instruction of the list is a `Switch` or a `repeat`. -/
def noSwitchRepeat (instrs : List Instr) : Bool :=
  instrs.all fun i => !isSwitchOrRepeat i

/-- Single-run well-formedness of a virtual environment: the running
minimum is at most the stack height, at most the start height, and at
most every recorded array bottom. -/
def InvP (e : VEnv) : Prop :=
  e.minHeight ≤ e.stack.length ∧ e.minHeight ≤ startHeight ∧
    ∀ b ∈ e.arrayStack, e.minHeight ≤ b

/-- Height-translation simulation between a solo run of a suffix and the
same suffix run after a prefix that left `len1` values, minimum `m1` and
function stack `fbase`. -/
def SimRel (len1 m1 : Nat) (fbase : List Function) (s c : VEnv) : Prop :=
  c.stack.length + startHeight = s.stack.length + len1 ∧
  c.minHeight + startHeight = min (m1 + startHeight) (s.minHeight + len1) ∧
  c.functionStack = s.functionStack ++ fbase ∧
  ∃ front base, c.arrayStack = front ++ base ∧
    List.Forall₂ (fun bs bc => bc + startHeight = bs + len1) s.arrayStack front

/-- Cap of the innermost array bottom, as `set_min_height` performs it. -/
def capList (bs : List Nat) (n : Nat) : List Nat :=
  match bs with
  | [] => []
  | h :: tl => min h n :: tl

end Check

/-! ## Monadic array algorithms (`src/algorithm/monadic.rs`) -/

/-- Runtime array errors; `filled` marks an error decorated with `.fill()`
(the empty-no-fill rephrase request). -/
inductive UErr where
  | plain (msg : String)
  | filled (msg : String)
deriving DecidableEq

/-- Get the first row of the array (`Array::first`): scalars fail, a
leading-zero shape is answered with a row of fill values when the ambient
context supplies a fill and fails otherwise, and any other shape keeps
only the leading row.  The ambient fill of the invoking context is passed
as an `Option`. -/
def Arr.first (a : Arr T) (fill : Option T) : Except UErr (Arr T) :=
  match a.shape with
  | [] => .error (.plain ("Cannot take first of a scalar"))
  | 0 :: rest =>
    match fill with
    | some f => .ok ⟨rest, a.data ++ List.replicate a.rowLen f⟩
    | none => .error (.filled ("Cannot take first of an empty array"))
  | _ :: rest => .ok ⟨rest, a.data.take a.rowLen⟩

/-- Get the last row of the array (`Array::last`); see `Arr.first`. -/
def Arr.last (a : Arr T) (fill : Option T) : Except UErr (Arr T) :=
  match a.shape with
  | [] => .error (.plain ("Cannot take last of a scalar"))
  | 0 :: rest =>
    match fill with
    | some f => .ok ⟨rest, a.data ++ List.replicate a.rowLen f⟩
    | none => .error (.filled ("Cannot take last of an empty array"))
  | _ :: rest => .ok ⟨rest, a.data.drop (a.data.length - a.rowLen)⟩

/-- Functional semantics of `ptr::swap_nonoverlapping` on a flat buffer:
positions in `[l, l+n)` read from the block at `r`, positions in
`[r, r+n)` read from the block at `l`, all others are unchanged. -/
def swapRegion [Inhabited T] (d : List T) (l r n : Nat) : List T :=
  (List.range d.length).map fun p =>
    if l ≤ p ∧ p < l + n then d.getD (r + (p - l)) default
    else if r ≤ p ∧ p < r + n then d.getD (l + (p - r)) default
    else d.getD p default

/-- The swap loop of `Array::reverse`: iteration `i` swaps row `i` with row
`rowCount - i - 1`; `reverseLoop rc rl k` performs iterations
`0, …, k-1`. -/
def reverseLoop [Inhabited T] (rc rl : Nat) : Nat → List T → List T
  | 0, d => d
  | k + 1, d => swapRegion (reverseLoop rc rl k d) (k * rl) ((rc - k - 1) * rl) rl

/-- Reverse the rows of the array (`Array::reverse`): scalars and empty
arrays are untouched; otherwise rows are swapped pairwise in place. -/
def Arr.reverse [Inhabited T] (a : Arr T) : Arr T :=
  if a.shape.isEmpty ∨ a.elementCount = 0 then a
  else { a with data := reverseLoop a.rowCount a.rowLen (a.rowCount / 2) a.data }

/-- Transpose the array (`Array::transpose`): rank below 2 is a no-op; a
leading zero dimension only rotates the shape; otherwise the data is
rebuilt by the double loop `for j in 0..row_len { for i in 0..row_count }`
pushing `data[i * row_len + j]`, so the `q`-th pushed element reads from
`(q % row_count) * row_len + q / row_count`; the shape rotates left. -/
def Arr.transpose [Inhabited T] (a : Arr T) : Arr T :=
  if a.shape.length < 2 then a
  else if a.shape.headD 0 = 0 then { a with shape := a.shape.rotate 1 }
  else
    { shape := a.shape.rotate 1
      data := (List.range (a.rowLen * a.rowCount)).map fun q =>
        a.data.getD ((q % a.rowCount) * a.rowLen + q / a.rowCount) default }

/-- Inverse transpose (`Array::inv_transpose`): same structure with
`col_len` the trailing dimension and `col_count` the product of the rest;
the shape rotates right. -/
def Arr.invTranspose [Inhabited T] (a : Arr T) : Arr T :=
  if a.shape.length < 2 then a
  else if a.shape.headD 0 = 0 then
    { a with shape := a.shape.rotate (a.shape.length - 1) }
  else
    { shape := a.shape.rotate (a.shape.length - 1)
      data := (List.range (a.shape.getLastD 0 * a.shape.dropLast.prod)).map fun q =>
        a.data.getD ((q % a.shape.dropLast.prod) * a.shape.getLastD 0 +
          q / a.shape.dropLast.prod) default }

/-- Flat position of element `p` after the rows are reversed: its row
`p / rowLen` is replaced by the opposite row, the offset in the row is
kept. -/
def mirrorIdx (rc rl p : Nat) : Nat := (rc - 1 - p / rl) * rl + p % rl

/-- Row-major flat index of a multi-index in a shape (spec §3). -/
def flatIdx : List Nat → List Nat → Nat
  | d :: ds, i :: is => i * ds.prod + flatIdx ds is
  | _, _ => 0

/-- A multi-index is valid for a shape when it is bounded dimension-wise
(and has the same length). -/
def validIdx (s ix : List Nat) : Prop := List.Forall₂ (fun d i => i < d) s ix

/-- Flat slice of row `i`: `data[i*row_len .. (i+1)*row_len]`
(`Array::row_slice`). -/
def Arr.rowSlice (a : Arr T) (i : Nat) : List T :=
  (a.data.drop (i * a.rowLen)).take a.rowLen

/-- Row `i` of an array as the spec describes it: the shape drops the
leading dimension and the data is the `i`-th row slice.  This is the
specification-side notion against which `first` and `last` are checked. -/
def Arr.rowAt (a : Arr T) (i : Nat) : Arr T :=
  ⟨a.shape.drop 1, a.rowSlice i⟩

/-- Row comparison as performed by `rise`/`fall`: zip the two flat rows,
compare element-wise, and take the first non-equal result (`Ordering.eq`
when the zipped prefix is entirely equal). -/
def rowCmp [LinearOrder T] : List T → List T → Ordering
  | x :: xs, y :: ys =>
    match compare x y with
    | .eq => rowCmp xs ys
    | o => o
  | _, _ => .eq

/-- Get the `rise` of the array (`Array::rise`): scalars fail, arrays
without elements sort nothing, and otherwise the row indices
`0..row_count` are sorted stably by the row comparison.  The stable sort
of the source (`par_sort_by`) is modelled by `mergeSort`. -/
def Arr.rise [LinearOrder T] (a : Arr T) : Except UErr (List Nat) :=
  if a.rank = 0 then .error (.plain ("Cannot rise a scalar"))
  else if a.elementCount = 0 then .ok []
  else .ok (((List.finRange a.rowCount).mergeSort fun i j =>
      rowCmp (a.rowSlice i) (a.rowSlice j) != .gt).map Fin.val)

/-- Get the `fall` of the array (`Array::fall`): as `rise` with the
element-wise comparison reversed. -/
def Arr.fall [LinearOrder T] (a : Arr T) : Except UErr (List Nat) :=
  if a.rank = 0 then .error (.plain ("Cannot fall a scalar"))
  else if a.elementCount = 0 then .ok []
  else .ok (((List.finRange a.rowCount).mergeSort fun i j =>
      rowCmp (a.rowSlice j) (a.rowSlice i) != .gt).map Fin.val)

/-- Saturating cast of an `f64` to `u128` (Rust `as`): truncate toward
zero, clamp negative values to `0` and values at or above `2^128` to
`2^128 - 1`. -/
def ratToU128 (q : Rat) : Nat :=
  min (2 ^ 128 - 1) (ratTrunc q).toNat

/-- Iteration-bounded form of the bit-length loop; the bound is spent one
step per halving, so a bound of `m` itself always suffices. -/
def bitsLenGo : Nat → Nat → Nat
  | 0, _ => 0
  | fuel + 1, m => if m = 0 then 0 else bitsLenGo fuel (m / 2) + 1

/-- Number of bits of the maximum (`while max != 0 { max_bits += 1; max >>= 1 }`
in `Array::bits`). -/
def bitsLen (m : Nat) : Nat := bitsLenGo m m

/-- Encode the bits of the array (`Array::<f64>::bits`): every element must
have zero fractional part (this is the only domain check the source
performs), elements are cast to `u128`, the bit width of the maximum is
appended to the shape, and each element expands little-endian. -/
def Arr.bits (a : Arr Rat) : Except UErr (Arr Nat) :=
  if a.data.all (fun q => ratFract q == 0) then
    let nats := a.data.map ratToU128
    match nats.max? with
    | none => .ok ⟨a.shape ++ [0], []⟩
    | some mx =>
      let maxBits := bitsLen mx
      .ok ⟨a.shape ++ [maxBits],
        nats.flatMap fun n =>
          (List.range maxBits).map fun i => if n &&& (1 <<< i) != 0 then 1 else 0⟩
  else .error (.plain ("Array must be a list of naturals"))

/-- Iteration-bounded form of `chunks_exact`; each step removes at least
one element, so a bound of the list length always suffices. -/
def chunksExactGo (k : Nat) : Nat → List T → List (List T)
  | 0, _ => []
  | fuel + 1, l =>
    if k = 0 ∨ l.length < k then []
    else l.take k :: chunksExactGo k fuel (l.drop k)

/-- Split a list into consecutive chunks of exactly `k` elements, dropping
the remainder (`chunks_exact`).  A chunk size of `0` aborts in the source;
it is modelled as producing no chunks (unreachable under the shape
invariant). -/
def chunksExact (k : Nat) (l : List T) : List (List T) :=
  chunksExactGo k l.length l

/-- Little-endian bit decoding (`for (i, b) in bits.iter().enumerate()`
with `n |= 1 << i`; `overflowing_shl` wraps the shift amount modulo 128). -/
def decodeBits (bs : List Bool) : Nat :=
  bs.enum.foldl (fun n p => if p.2 then n ||| (1 <<< (p.1 % 128)) else n) 0

/-- Decode the bits of the array (`Array::<u8>::inverse_bits`): every
element must be 0 or 1; an empty data buffer returns scalar `0` for a
scalar shape and otherwise zeroes the leading dimension; a rank-0 array
returns its boolean as a number; otherwise the trailing dimension is the
bit-string length and each chunk is decoded little-endian. -/
def Arr.inverseBits (a : Arr Nat) : Except UErr (Arr Rat) :=
  if a.data.all (fun b => b ≤ 1) then
    let bools := a.data.map fun b => b != 0
    if bools.isEmpty then
      if a.shape.isEmpty then .ok ⟨[], [0]⟩
      else .ok ⟨a.shape.set 0 0, []⟩
    else if a.rank = 0 then
      .ok ⟨[], [if bools.headD false then 1 else 0]⟩
    else
      let bitStringLen := a.shape.getLastD 0
      .ok ⟨a.shape.dropLast,
        (chunksExact bitStringLen bools).map fun bs => ((decodeBits bs : Nat) : Rat)⟩
  else .error (.plain ("Array must be a list of booleans"))

/-- Scan of the number case of `Value::first_where`: each element is
domain-checked in turn (natural number), and the first non-zero element
ends the scan with its index; an exhausted list falls back to the ambient
fill. -/
def firstWhereNum (fill : Option Rat) : Nat → List Rat → Except UErr Rat
  | i, [] =>
    match fill with
    | some f => .ok f
    | none => .error (.plain ("Cannot take first of an empty array"))
  | i, q :: rest =>
    if ratFract q ≠ 0 ∨ q < 0 then
      .error (.plain ("Argument to where must be a list of naturals"))
    else if q ≠ 0 then .ok (i : Rat)
    else firstWhereNum fill (i + 1) rest

/-- Scan of the byte case of `Value::first_where`: no domain check at
all. -/
def firstWhereByte (fill : Option Rat) : Nat → List Nat → Except UErr Rat
  | i, [] =>
    match fill with
    | some f => .ok f
    | none => .error (.plain ("Cannot take first of an empty array"))
  | i, b :: rest =>
    if b ≠ 0 then .ok (i : Rat)
    else firstWhereByte fill (i + 1) rest

/-- Get the first index where the value is non-zero (`Value::first_where`).
Inputs of rank above 1 and non-numeric types are rejected; the ambient
`f64` fill of the context is passed as an `Option`. -/
def Value.firstWhere (v : Value) (fill : Option Rat) : Except UErr Rat :=
  if 1 < v.rank then
    .error (.plain ("Argument to where must be a list of naturals, but it is of a higher rank"))
  else
    match v with
    | .num a => firstWhereNum fill 0 a.data
    | .byte a => firstWhereByte fill 0 a.data
    | _ => .error (.plain ("Argument to where must be a list of naturals, but it is of another type"))

/-- Decidable equality for `Except` results, used to evaluate the
operations at concrete inputs. -/
instance {ε α : Type} [DecidableEq ε] [DecidableEq α] : DecidableEq (Except ε α)
  | .ok a, .ok b => decidable_of_iff (a = b) (by simp)
  | .ok _, .error _ => .isFalse (by simp)
  | .error _, .ok _ => .isFalse (by simp)
  | .error a, .error b => decidable_of_iff (a = b) (by simp)

/-! ## Parser (`src/parse.rs`) -/

namespace Parse

open Check (Prim Signature)

/-- Source span.  The lexer is elided (spec §1), so spans are modelled as
plain start/stop offsets; their contents are never load-bearing. -/
structure CodeSpan where
  start : Nat
  stop : Nat
deriving DecidableEq

/-- Merge of two spans. -/
def CodeSpan.merge (a b : CodeSpan) : CodeSpan :=
  ⟨min a.start b.start, max a.stop b.stop⟩

/-- A value paired with its span (`Sp<T>`). -/
structure Sp (α : Type) where
  span : CodeSpan
  value : α
deriving DecidableEq

/-- Attach a span to a value (`span.sp(value)`). -/
def CodeSpan.sp (span : CodeSpan) (v : α) : Sp α := ⟨span, v⟩

/-- Map over a spanned value. -/
def Sp.map (f : α → β) (s : Sp α) : Sp β := ⟨s.span, f s.value⟩

/-- The ASCII tokens the parser matches on. -/
inductive AsciiToken where
  | Equal | Bar | Caret | Underscore
  | OpenParen | CloseParen | OpenBracket | CloseBracket
  | OpenCurly | CloseCurly | TripleMinus
deriving DecidableEq

/-- Tokens.  The lexer is elided, so tokens carry their source text
directly (the source recovers it from the span). -/
inductive Token where
  | Simple (t : AsciiToken)
  | Ident (s : String)
  | Number (s : String)
  | CharTok (c : Char)
  | StrTok (s : String)
  | FormatStr (frags : List String)
  | MultilineStr (s : String)
  | Glyph (p : Prim)
  | LeftArrow
  | Newline
  | Spaces
  | Comment (s : String)
deriving DecidableEq

/-- Modelled from the spec: whether a primitive is a modifier (a
higher-order primitive consuming functions); exactly the primitives the
checker pops functions for. -/
def primIsModifier : Prim → Bool
  | .Reduce | .Scan | .Each | .Rows | .Distribute | .Tribute
  | .Table | .Cross | .Group | .Partition | .Spawn | .Repeat
  | .Bind | .Both | .Fork | .Bracket | .If | .Level | .Fold | .Combinate
  | .Try | .Invert | .Under | .Fill | .Pack
  | .Dip | .Gap | .Oust | .Dump => true
  | _ => false

/-- Modelled from the spec: how many function operands a modifier
primitive takes in the surface syntax, matching the number of functions
the checker pops for it. -/
def primModifierArgCount : Prim → Nat
  | .Bind | .Fork | .Bracket | .If | .Level | .Fold | .Combinate
  | .Try | .Under | .Fill => 2
  | _ => 1

/-- Modelled from the spec: the ocean primitives are not among the
embedded primitives, so no primitive is an ocean here. -/
def primIsOcean : Prim → Bool := fun _ => false

/-- All embedded primitives, in the order `Primitive::all()` is iterated. -/
def allPrims : List Prim :=
  [.Reduce, .Scan, .Each, .Rows, .Distribute, .Tribute,
   .Table, .Cross, .Group, .Partition, .Spawn, .Repeat,
   .Bind, .Both, .Fork, .Bracket, .If, .Level, .Fold, .Combinate,
   .Try, .Invert, .Under, .Fill, .Pack,
   .Dup, .Flip, .Pop, .Over, .Dip, .Gap, .Oust, .Join, .Dump,
   .Break, .Identity, .Add, .Pow, .Not, .Eq, .Ne, .Lt, .Le, .Gt, .Ge]

/-- Short display name of a primitive, used inside diagnostic messages
(the source formats the primitive's glyph). -/
def primShow : Prim → String
  | .Reduce => "reduce" | .Scan => "scan" | .Each => "each" | .Rows => "rows"
  | .Distribute => "distribute" | .Tribute => "tribute"
  | .Table => "table" | .Cross => "cross" | .Group => "group"
  | .Partition => "partition" | .Spawn => "spawn" | .Repeat => "repeat"
  | .Bind => "bind" | .Both => "both" | .Fork => "fork" | .Bracket => "bracket"
  | .If => "if" | .Level => "level" | .Fold => "fold" | .Combinate => "combinate"
  | .Try => "try" | .Invert => "invert" | .Under => "under" | .Fill => "fill"
  | .Pack => "pack" | .Dup => "dup" | .Flip => "flip" | .Pop => "pop"
  | .Over => "over" | .Dip => "dip" | .Gap => "gap" | .Oust => "oust"
  | .Join => "join" | .Dump => "dump" | .Break => "break"
  | .Identity => "identity" | .Add => "add" | .Pow => "pow" | .Not => "not"
  | .Eq => "eq" | .Ne => "ne" | .Lt => "lt" | .Le => "le" | .Gt => "gt"
  | .Ge => "ge"

/-- Count of trailing `!` characters of an identifier, saturating at 255
(`ident_modifier_args`). -/
def identModifierArgs (s : String) : Nat :=
  min 255 ((s.toList.reverse.takeWhile (· = '!')).length)

/-- Function ids (modelled from the spec; only the anonymous form is
constructed by the parser). -/
inductive FunctionId where
  | Anonymous (span : CodeSpan)
deriving DecidableEq

mutual

/-- Words of the AST (spec §3).  The number word keeps its source string
and parsed value. -/
inductive Word where
  | Comment (s : String)
  | Number (s : String) (n : Rat)
  | CharW (c : Char)
  | StringW (s : String)
  | FormatString (frags : List String)
  | MultilineString (lines : List (Sp String))
  | Ident (s : String)
  | Strand (items : List (Sp Word))
  | ArrayW (lines : List (List (Sp Word))) (constant : Bool)
  | Func (f : Fnc)
  | SwitchW (branches : List (Sp Fnc))
  | Primitive (p : Prim)
  | Modified (modifier : Sp Modifier) (operands : List (Sp Word))
  | Placeholder (sig : Signature)
  | OceanW (prims : List (Sp Prim))
  | Spaces

/-- Function literal of the AST. -/
inductive Fnc where
  | mk (id : FunctionId) (signature : Option (Sp Signature))
      (lines : List (List (Sp Word)))

/-- Modifier of a modified word: primitive or `!`-suffixed identifier. -/
inductive Modifier where
  | Primitive (p : Prim)
  | Ident (s : String)

end

/-- Lines of a function literal. -/
def Fnc.lines : Fnc → List (List (Sp Word))
  | .mk _ _ lines => lines

/-- Declared signature of a function literal. -/
def Fnc.signature : Fnc → Option (Sp Signature)
  | .mk _ sig _ => sig

/-- Operand count of a modifier (`Modifier::args`). -/
def Modifier.args : Modifier → Nat
  | .Primitive p => primModifierArgCount p
  | .Ident s => identModifierArgs s

/-- A binding item. -/
structure Binding where
  name : Sp String
  arrowSpan : CodeSpan
  words : List (Sp Word)
  signature : Option (Sp Signature)

/-- Top-level items. -/
inductive Item where
  | TestScope (items : List Item)
  | Words (words : List (Sp Word))
  | Binding (b : Binding)
  | ExtraNewlines (span : CodeSpan)

/-- Expectations recorded by `Expected` errors. -/
inductive Expectation where
  | Term
  | ArgOutCount
  | Simple (t : AsciiToken)
deriving DecidableEq

/-- Parse errors (all recorded, never thrown). -/
inductive ParseError where
  | Expected (exps : List Expectation) (found : Option (Sp Token))
  | InvalidNumber (s : String)
  | Unexpected (t : Token)
  | InvalidArgCount (s : String)
  | InvalidOutCount (s : String)
  | AmpersandBindingName
  | FunctionNotAllowed
deriving DecidableEq

/-- Diagnostic kinds (only style and advice are produced here). -/
inductive DiagnosticKind where
  | Warning | Advice | Style
deriving DecidableEq

/-- A style/advice diagnostic. -/
structure Diagnostic where
  message : String
  span : CodeSpan
  kind : DiagnosticKind
deriving DecidableEq

/-- Parser state: token stream, cursor, recorded errors and diagnostics. -/
structure PState where
  tokens : List (Sp Token)
  index : Nat
  errors : List (Sp ParseError)
  diagnostics : List Diagnostic

/-- Token under the cursor. -/
def PState.cur (p : PState) : Option (Sp Token) := p.tokens.get? p.index

/-- Advance the cursor by one token. -/
def PState.advance (p : PState) : PState := { p with index := p.index + 1 }

/-- Record an error. -/
def PState.pushErr (p : PState) (e : Sp ParseError) : PState :=
  { p with errors := p.errors ++ [e] }

/-- Record a diagnostic. -/
def PState.pushDiag (p : PState) (d : Diagnostic) : PState :=
  { p with diagnostics := p.diagnostics ++ [d] }

/-- Consume the next token when it equals the given one (`try_exact`). -/
def tryExact (t : Token) (p : PState) : Option CodeSpan × PState :=
  match p.cur with
  | some st => if st.value = t then (some st.span, p.advance) else (none, p)
  | none => (none, p)

/-- Span of the token before the cursor (`prev_span`); an empty token list
aborts in the source and is modelled by a zero span. -/
def prevSpan (p : PState) : CodeSpan :=
  match p.tokens.get? (p.index - 1) with
  | some t => t.span
  | none =>
    match p.tokens.getLast? with
    | some t => t.span
    | none => ⟨0, 0⟩

/-- Build an `Expected` error at the previous span (`expected`). -/
def expectedErr (p : PState) (exps : List Expectation) : Sp ParseError :=
  (prevSpan p).sp (ParseError.Expected exps (p.tokens.get? (p.index - 1)))

/-- Consume an identifier token (`try_ident`). -/
def tryIdent (p : PState) : Option (Sp String) × PState :=
  match p.cur with
  | some ⟨span, .Ident s⟩ => (some ⟨span, s⟩, p.advance)
  | _ => (none, p)

/-- Consume a comment token (`comment`), stripping the leading `#`. -/
def tryComment (p : PState) : Option (Sp String) × PState :=
  match p.cur with
  | some ⟨span, .Comment s⟩ =>
    (some ⟨span, if s.startsWith ("#") then s.drop 1 else s⟩, p.advance)
  | _ => (none, p)

/-- Consume a spaces token (`try_spaces`). -/
def trySpaces (p : PState) : Option (Sp Word) × PState :=
  match tryExact .Spaces p with
  | (some span, p') => (some (span.sp Word.Spaces), p')
  | (none, p') => (none, p')

/-- Parse a natural number literal (for the `|a.o` signature parts). -/
def parseNat (s : String) : Option Nat :=
  if s.isEmpty ∨ ¬s.toList.all Char.isDigit then none
  else some (s.toList.foldl (fun n c => n * 10 + (c.toNat - 48)) 0)

/-- Modelled from the spec: the numeric literal grammar (lexing is elided).
Digits with an optional leading minus and an optional fractional part. -/
def parseNumber (s : String) : Option Rat :=
  let (neg, body) := if s.startsWith ("-") then (true, s.drop 1) else (false, s)
  match body.splitOn "." with
  | [intPart] =>
    (parseNat intPart).map fun n => if neg then -(n : Rat) else (n : Rat)
  | [intPart, fracPart] =>
    match parseNat intPart, parseNat fracPart with
    | some n, some f =>
      let q : Rat := (n : Rat) + (f : Rat) / ((10 : Rat) ^ fracPart.length)
      some (if neg then -q else q)
    | _, _ => none
  | _ => none

/-- Consume a number token (`try_num`): negative signs are normalised to
`-` and an unparsable literal records `InvalidNumber` and yields zero. -/
def tryNum (p : PState) : Option (Sp (String × Rat)) × PState :=
  match p.cur with
  | some ⟨span, .Number s⟩ =>
    let parseable := String.mk (s.toList.map fun c =>
      if c = '`' ∨ c = '¯' then '-' else c)
    let p := p.advance
    match parseNumber parseable with
    | some n => (some ⟨span, (s, n)⟩, p)
    | none =>
      (some ⟨span, (s, 0)⟩, p.pushErr ((prevSpan p).sp (ParseError.InvalidNumber s)))
  | _ => (none, p)

/-- Inner part of a signature literal (`sig_inner`): `a.o`, or `a` with a
default output count of 1, with invalid counts recorded and defaulted. -/
def sigInner (p : PState) : (Nat × Nat) × PState :=
  match tryNum p with
  | (some sn, p) =>
    let s := sn.value.1
    if s.toList.contains '.' then
      let parts := s.splitOn "."
      let aStr := parts.headD ""
      let oStr := (parts.drop 1).headD ""
      let (a, p) :=
        match parseNat aStr with
        | some a => (a, p)
        | none => (1, p.pushErr ((prevSpan p).sp (ParseError.InvalidArgCount aStr)))
      let (o, p) :=
        match parseNat oStr with
        | some o => (o, p)
        | none => (1, p.pushErr ((prevSpan p).sp (ParseError.InvalidOutCount oStr)))
      ((a, o), p)
    else
      match parseNat s with
      | some a => ((a, 1), p)
      | none => ((1, 1), p.pushErr ((prevSpan p).sp (ParseError.InvalidArgCount s)))
  | (none, p) => ((1, 1), p.pushErr (expectedErr p [Expectation.ArgOutCount]))

/-- Parse a signature literal after its initial token (`try_signature`). -/
def trySignature (initial : AsciiToken) (p : PState) :
    Option (Sp Signature) × PState :=
  match tryExact (.Simple initial) p with
  | (none, p) => (none, p)
  | (some start, p) =>
    let (_, p) := trySpaces p
    let ((args, outs), p) := sigInner p
    let endSpan := prevSpan p
    let (_, p) := trySpaces p
    (some ((start.merge endSpan).sp (⟨args, outs⟩ : Signature)), p)

/-- Find the first primitive of the list whose token is under the cursor
(the `Primitive::all()` scans; ASCII aliases of primitives are elided). -/
def findPrimToken (prims : List Prim) (p : PState) : Option (Sp Prim) × PState :=
  match prims with
  | [] => (none, p)
  | prim :: rest =>
    match tryExact (.Glyph prim) p with
    | (some span, p') => (some ⟨span, prim⟩, p')
    | (none, _) => findPrimToken rest p

/-- Consume a primitive token (`try_prim`). -/
def tryPrim (p : PState) : Option (Sp Prim) × PState :=
  findPrimToken allPrims p

/-- Consume an ocean primitive token (`try_ocean`). -/
def tryOcean (p : PState) : Option (Sp Prim) × PState :=
  findPrimToken (allPrims.filter primIsOcean) p

/-- Consume a modifier identifier (`try_modifier_ident`): an identifier
with at least one trailing `!`. -/
def tryModifierIdent (p : PState) : Option (Sp String) × PState :=
  match tryIdent p with
  | (none, p) => (none, p)
  | (some ident, p') =>
    if identModifierArgs ident.value = 0 then (none, p) else (some ident, p')

/-- Close an opening bracket (`expect_close`): the closing token, or an
`Expected` error at the previous span. -/
def expectClose (ascii : AsciiToken) (p : PState) : CodeSpan × PState :=
  match tryExact (.Simple ascii) p with
  | (some span, p) => (span, p)
  | (none, p) =>
    (prevSpan p, p.pushErr (expectedErr p [Expectation.Term, Expectation.Simple ascii]))

/-- Consume a placeholder word `^sig` (`try_placeholder`). -/
def tryPlaceholder (p : PState) : Option (Sp Word) × PState :=
  match trySignature .Caret p with
  | (some sig, p) => (some (sig.map Word.Placeholder), p)
  | (none, p) => (none, p)

/-- Style diagnostics issued between two adjacent words of `try_words`:
`flip over` and the negated comparisons. -/
def wordPairDiagnostics (prev word : Sp Word) (p : PState) : PState :=
  match prev.value, word.value with
  | .Primitive a, .Primitive b =>
    let span := prev.span.merge word.span
    match a, b with
    | .Flip, .Over =>
      p.pushDiag ⟨"Prefer `dip dup` over `flip over` for clarity", span, .Style⟩
    | .Not, prim =>
      let step1 :=
        if prim = Prim.Eq then
          p.pushDiag ⟨"Prefer `ne` over `not eq` for clarity", span, .Style⟩
        else if prim = Prim.Ne then
          p.pushDiag ⟨"Prefer `eq` over `not ne` for clarity", span, .Style⟩
        else p
      let step2 :=
        if prim = Prim.Lt then
          step1.pushDiag ⟨"Prefer `ge` over `not lt` for clarity", span, .Style⟩
        else if prim = Prim.Ge then
          step1.pushDiag ⟨"Prefer `lt` over `not ge` for clarity", span, .Style⟩
        else step1
      if prim = Prim.Gt then
        step2.pushDiag ⟨"Prefer `le` over `not gt` for clarity", span, .Style⟩
      else if prim = Prim.Le then
        step2.pushDiag ⟨"Prefer `gt` over `not le` for clarity", span, .Style⟩
      else step2
    | _, _ => p
  | _, _ => p

/-- Style diagnostics of `try_modified` for `bind` and `oust` applied to
modified operands. -/
def modifierDiagnostics (modifier : Modifier) (modSpan : CodeSpan)
    (args : List (Sp Word)) (p : PState) : PState :=
  match modifier with
  | .Primitive .Bind =>
    args.foldl (fun p arg =>
      match arg.value with
      | .Modified m _ =>
        match m.value with
        | .Primitive .Bind =>
          p.pushDiag ⟨"Do not chain `bind bind`", modSpan.merge m.span, .Style⟩
        | _ =>
          if 1 < m.value.args then
            p.pushDiag ⟨"Do not use non-monadic modifiers inside `bind bind`",
              modSpan.merge m.span, .Style⟩
          else p
      | _ => p) p
  | .Primitive .Oust =>
    args.foldl (fun p arg =>
      match arg.value with
      | .Modified m _ =>
        match m.value with
        | .Primitive .Dip =>
          p.pushDiag ⟨"oust dip is either unclear or not what you want", modSpan.merge m.span, .Style⟩
        | .Primitive .Gap =>
          p.pushDiag ⟨"oust gap is either unclear or not what you want", modSpan.merge m.span, .Style⟩
        | _ => p
      | _ => p) p
  | _ => p

mutual

/-- Parse a maximal run of words (`try_words`), issuing the pairwise style
diagnostics. -/
def tryWords (fuel : Nat) (p : PState) : Option (List (Sp Word)) × PState :=
  match fuel with
  | 0 => (none, p)
  | fuel + 1 =>
    match wordsLoop fuel p [] with
    | ([], p) => (none, p)
    | (words, p) => (some words, p)
  termination_by structural fuel

/-- Word collection loop of `try_words`. -/
def wordsLoop (fuel : Nat) (p : PState) (acc : List (Sp Word)) :
    List (Sp Word) × PState :=
  match fuel with
  | 0 => (acc, p)
  | fuel + 1 =>
    match tryWord fuel p with
    | (none, p) => (acc, p)
    | (some word, p) =>
      let p :=
        match acc.getLast? with
        | some prev => wordPairDiagnostics prev word p
        | none => p
      wordsLoop fuel p (acc ++ [word])
  termination_by structural fuel

/-- Parse one word (`try_word`): comment, strand or placeholder. -/
def tryWord (fuel : Nat) (p : PState) : Option (Sp Word) × PState :=
  match fuel with
  | 0 => (none, p)
  | fuel + 1 =>
    match tryComment p with
    | (some c, p) => (some (c.map Word.Comment), p)
    | (none, p) =>
      match tryStrand fuel p with
      | (some w, p) => (some w, p)
      | (none, p) => tryPlaceholder p
  termination_by structural fuel

/-- Parse a strand (`try_strand`): a modified word, optionally followed by
underscore-joined items. -/
def tryStrand (fuel : Nat) (p : PState) : Option (Sp Word) × PState :=
  match fuel with
  | 0 => (none, p)
  | fuel + 1 =>
    match tryModified fuel p with
    | (none, p) => (none, p)
    | (some word, p) =>
      match word.value with
      | .Spaces => (some word, p)
      | _ =>
        let (items, singleton, p) := strandLoop fuel p []
        if items.isEmpty ∧ ¬singleton then (some word, p)
        else
          let items := word :: items
          let span := items.headD word |>.span |>.merge ((items.getLastD word).span)
          (some (span.sp (Word.Strand items)), p)
  termination_by structural fuel

/-- Item collection loop of `try_strand`; the boolean reports a singleton
strand. -/
def strandLoop (fuel : Nat) (p : PState) (items : List (Sp Word)) :
    List (Sp Word) × Bool × PState :=
  match fuel with
  | 0 => (items, false, p)
  | fuel + 1 =>
    match tryExact (.Simple .Underscore) p with
    | (none, p) => (items, false, p)
    | (some _, p) =>
      match tryModified fuel p with
      | (some item, p) =>
        match item.value with
        | .Spaces =>
          if items.isEmpty then (items, true, p)
          else
            let p := p.pushErr (expectedErr p [Expectation.Term])
            match tryModified fuel p with
            | (some item, p) => strandLoop fuel p (items ++ [item])
            | (none, p) => (items, false, p.pushErr (expectedErr p [Expectation.Term]))
        | _ => strandLoop fuel p (items ++ [item])
      | (none, p) =>
        if items.isEmpty then (items, true, p)
        else (items, false, p.pushErr (expectedErr p [Expectation.Term]))
  termination_by structural fuel

/-- Parse a modifier application or a plain term (`try_modified`). -/
def tryModified (fuel : Nat) (p : PState) : Option (Sp Word) × PState :=
  match fuel with
  | 0 => (none, p)
  | fuel + 1 =>
    let (found, p) :=
      match findPrimToken (allPrims.filter primIsModifier) p with
      | (some prim, p') => (some (Modifier.Primitive prim.value, prim.span), p')
      | (none, p') =>
        match tryModifierIdent p' with
        | (some ident, p'') => (some (Modifier.Ident ident.value, ident.span), p'')
        | (none, p'') => (none, p'')
    match found with
    | none => tryTerm fuel p
    | some (modifier, modSpan) =>
      let (_, p) := trySpaces p
      let (args, argCount, p) := modifierArgsLoop fuel modifier.args p [] 0
      let p :=
        if argCount ≠ modifier.args then p.pushErr (expectedErr p [Expectation.Term])
        else p
      let p := modifierDiagnostics modifier modSpan args p
      if args.isEmpty then
        (some (modSpan.sp (match modifier with
          | .Primitive prim => Word.Primitive prim
          | .Ident ident => Word.Ident ident)), p)
      else
        let args := args.map fun arg =>
          match arg.value with
          | .Func f =>
            if f.lines.isEmpty ∧ f.signature.isNone then
              { arg with value := Word.Primitive .Identity }
            else arg
          | _ => arg
        let span := modSpan.merge ((args.getLastD ⟨modSpan, Word.Spaces⟩).span)
        (some (span.sp (Word.Modified (modSpan.sp modifier) args)), p)
  termination_by structural fuel

/-- Operand collection loop of `try_modified`: up to `remaining` operands,
keeping the spaces between them. -/
def modifierArgsLoop (fuel : Nat) (remaining : Nat) (p : PState)
    (args : List (Sp Word)) (count : Nat) : List (Sp Word) × Nat × PState :=
  match fuel with
  | 0 => (args, count, p)
  | fuel + 1 =>
    match remaining with
    | 0 => (args, count, p)
    | remaining + 1 =>
      let (sp, p) := trySpaces p
      let args := args ++ sp.toList
      match tryFunc fuel p with
      | (some arg, p) => modifierArgsLoop fuel remaining p (args ++ [arg]) (count + 1)
      | (none, p) =>
        match tryStrand fuel p with
        | (some arg, p) => modifierArgsLoop fuel remaining p (args ++ [arg]) (count + 1)
        | (none, p) =>
          match tryPlaceholder p with
          | (some arg, p) => modifierArgsLoop fuel remaining p (args ++ [arg]) (count + 1)
          | (none, p) => (args, count, p)
  termination_by structural fuel

/-- Parse a term (`try_term`). -/
def tryTerm (fuel : Nat) (p : PState) : Option (Sp Word) × PState :=
  match fuel with
  | 0 => (none, p)
  | fuel + 1 =>
    match tryPrim p with
    | (some prim, p) =>
      if primIsOcean prim.value then
        let (parts, p) := oceanLoop fuel p []
        if parts.isEmpty then (some (prim.map Word.Primitive), p)
        else
          let span := prim.span.merge ((parts.getLastD prim).span)
          (some (span.sp (Word.OceanW (prim :: parts))), p)
      else (some (prim.map Word.Primitive), p)
    | (none, p) =>
      match tryIdent p with
      | (some ident, p) => (some (ident.map Word.Ident), p)
      | (none, p) =>
        match tryNum p with
        | (some sn, p) => (some (sn.map fun sv => Word.Number sv.1 sv.2), p)
        | (none, p) =>
          match p.cur with
          | some ⟨span, .CharTok c⟩ => (some (span.sp (Word.CharW c)), p.advance)
          | some ⟨span, .StrTok s⟩ => (some (span.sp (Word.StringW s)), p.advance)
          | some ⟨span, .FormatStr frags⟩ =>
            (some (span.sp (Word.FormatString frags)), p.advance)
          | some ⟨span, .MultilineStr s⟩ =>
            let (lines, endSpan, p) := multilineStringLoop fuel p.advance [⟨span, s⟩] span
            (some ((span.merge endSpan).sp (Word.MultilineString lines)), p)
          | _ =>
            match tryExact (.Simple .OpenBracket) p with
            | (some start, p) =>
              let (items, p) := multilineWords fuel p
              let (endSpan, p) := expectClose .CloseBracket p
              (some ((start.merge endSpan).sp (Word.ArrayW items false)), p)
            | (none, p) =>
              match tryExact (.Simple .OpenCurly) p with
              | (some start, p) =>
                let (items, p) := multilineWords fuel p
                let (endSpan, p) := expectClose .CloseCurly p
                (some ((start.merge endSpan).sp (Word.ArrayW items true)), p)
              | (none, p) =>
                match trySpaces p with
                | (some spaces, p) => (some spaces, p)
                | (none, p) =>
                  match tryFunc fuel p with
                  | (some word, p) =>
                    match word.value with
                    | .Func f =>
                      if f.lines.isEmpty ∧ f.signature.isNone then
                        (some { word with value := Word.Primitive .Identity }, p)
                      else (some word, p)
                    | _ => (some word, p)
                  | (none, p) => (none, p)
  termination_by structural fuel

/-- Collection loop for consecutive multiline string tokens. -/
def multilineStringLoop (fuel : Nat) (p : PState) (lines : List (Sp String))
    (endSpan : CodeSpan) : List (Sp String) × CodeSpan × PState :=
  match fuel with
  | 0 => (lines, endSpan, p)
  | fuel + 1 =>
    match p.cur with
    | some ⟨span, .MultilineStr s⟩ =>
      multilineStringLoop fuel p.advance (lines ++ [⟨span, s⟩]) span
    | _ => (lines, endSpan, p)
  termination_by structural fuel

/-- Collection loop for ocean primitives trailing a term. -/
def oceanLoop (fuel : Nat) (p : PState) (parts : List (Sp Prim)) :
    List (Sp Prim) × PState :=
  match fuel with
  | 0 => (parts, p)
  | fuel + 1 =>
    match tryOcean p with
    | (some part, p) => oceanLoop fuel p (parts ++ [part])
    | (none, p) => (parts, p)
  termination_by structural fuel

/-- Parse a function literal or a switch (`try_func`). -/
def tryFunc (fuel : Nat) (p : PState) : Option (Sp Word) × PState :=
  match fuel with
  | 0 => (none, p)
  | fuel + 1 =>
    match tryExact (.Simple .OpenParen) p with
    | (none, p) => (none, p)
    | (some start, p) =>
      let (first, p) := funcContents fuel p
      let (branches, p) := switchBranchesLoop fuel p []
      let (endSpan, p) := expectClose .CloseParen p
      let (signature, lines, firstSpan) := first
      let outerSpan := start.merge endSpan
      if branches.isEmpty then
        (some (outerSpan.sp (Word.Func (.mk (.Anonymous outerSpan) signature lines))), p)
      else
        let span := firstSpan.getD start
        let firstFunc : Sp Fnc := span.sp (.mk (.Anonymous span) signature lines)
        (some (outerSpan.sp (Word.SwitchW (firstFunc :: branches))), p)
  termination_by structural fuel

/-- Collection loop for pipe-separated switch branches. -/
def switchBranchesLoop (fuel : Nat) (p : PState) (branches : List (Sp Fnc)) :
    List (Sp Fnc) × PState :=
  match fuel with
  | 0 => (branches, p)
  | fuel + 1 =>
    match tryExact (.Simple .Bar) p with
    | (none, p) => (branches, p)
    | (some start, p) =>
      let ((signature, lines, span), p) := funcContents fuel p
      let span := match span with
        | some s => start.merge s
        | none => start
      switchBranchesLoop fuel p
        (branches ++ [span.sp (.mk (.Anonymous span) signature lines)])
  termination_by structural fuel

/-- Contents of a function body (`func_contents`): optional signature,
lines of words, and the covered span. -/
def funcContents (fuel : Nat) (p : PState) :
    (Option (Sp Signature) × List (List (Sp Word)) × Option CodeSpan) × PState :=
  match fuel with
  | 0 => ((none, [], none), p)
  | fuel + 1 =>
    let p := skipNewlinesAndSpaces fuel p
    let (signature, p) := trySignature .Bar p
    let (lines, p) := multilineWords fuel p
    let startSpan :=
      (signature.map Sp.span).orElse fun _ =>
        (lines.foldr (· ++ ·) []).head?.map Sp.span
    let endSpan :=
      ((lines.foldr (· ++ ·) []).getLast?.map Sp.span).orElse fun _ =>
        signature.map Sp.span
    let span :=
      match startSpan, endSpan with
      | some s, some e => some (s.merge e)
      | _, _ => none
    ((signature, lines, span), p)
  termination_by structural fuel

/-- Skip a run of newlines and spaces. -/
def skipNewlinesAndSpaces (fuel : Nat) (p : PState) : PState :=
  match fuel with
  | 0 => p
  | fuel + 1 =>
    match tryExact .Newline p with
    | (some _, p) => skipNewlinesAndSpaces fuel p
    | (none, p) =>
      match trySpaces p with
      | (some _, p) => skipNewlinesAndSpaces fuel p
      | (none, p) => p
  termination_by structural fuel

/-- Parse multiline word groups (`multiline_words`). -/
def multilineWords (fuel : Nat) (p : PState) : List (List (Sp Word)) × PState :=
  match fuel with
  | 0 => ([], p)
  | fuel + 1 =>
    let p := skipNewlinesAndSpaces fuel p
    let (lines, p) := multilineWordsLoop fuel p []
    if (lines.getLast?.map List.isEmpty).getD false then (lines.dropLast, p)
    else (lines, p)
  termination_by structural fuel

/-- Line collection loop of `multiline_words`. -/
def multilineWordsLoop (fuel : Nat) (p : PState) (lines : List (List (Sp Word))) :
    List (List (Sp Word)) × PState :=
  match fuel with
  | 0 => (lines, p)
  | fuel + 1 =>
    match tryWords fuel p with
    | (none, p) => (lines, p)
    | (some words, p) =>
      let (newlines, p) := newlinesLoop fuel p 0
      let lines := lines ++ [words]
      let lines := if newlines > 1 then lines ++ [[]] else lines
      multilineWordsLoop fuel p lines
  termination_by structural fuel

/-- Count consecutive newlines, skipping spaces after each. -/
def newlinesLoop (fuel : Nat) (p : PState) (count : Nat) : Nat × PState :=
  match fuel with
  | 0 => (count, p)
  | fuel + 1 =>
    match tryExact .Newline p with
    | (none, p) => (count, p)
    | (some _, p) =>
      let (_, p) := trySpaces p
      newlinesLoop fuel p (count + 1)
  termination_by structural fuel

/-- Validate a word list (`validate_words`): function literals are only
allowed as modifier operands or as the sole word of a binding. -/
def validateWords (fuel : Nat) (words : List (Sp Word)) (allowFunc : Bool)
    (p : PState) : PState :=
  match fuel with
  | 0 => p
  | fuel + 1 =>
    words.foldl (fun p word =>
      match word.value with
      | .Strand items => validateWords fuel items false p
      | .ArrayW lines _ => lines.foldl (fun p line => validateWords fuel line false p) p
      | .Func f =>
        let p :=
          if ¬allowFunc then p.pushErr (word.span.sp ParseError.FunctionNotAllowed)
          else p
        f.lines.foldl (fun p line => validateWords fuel line false p) p
      | .SwitchW branches =>
        branches.foldl (fun p branch =>
          branch.value.lines.foldl (fun p line => validateWords fuel line false p) p) p
      | .Modified _ operands => validateWords fuel operands true p
      | _ => p) p
  termination_by structural fuel

end

/-- Character membership in a string (`String::contains`), in list form. -/
def stringContainsChar (s : String) (c : Char) : Bool := s.toList.contains c

/-- The TitleCase suggestion for a lowercase binding name: first character
upper-cased. -/
def capitalizeName (s : String) : String :=
  match s.toList with
  | [] => ""
  | c :: rest => String.mk (c.toUpper :: rest)

/-- Drop the trailing `!` characters of a name (`trim_end_matches('!')`). -/
def dropTrailingBangs (s : String) : String :=
  String.mk ((s.toList.reverse.dropWhile (· = '!')).reverse)

/-- Whether a character is an ASCII lowercase letter
(`char::is_ascii_lowercase`). -/
def isAsciiLower (c : Char) : Bool := 'a' ≤ c && c ≤ 'z'

/-- First character of a string is ASCII lowercase (`chars().next().unwrap()`
never sees an empty identifier). -/
def firstCharAsciiLower (s : String) : Bool :=
  match s.toList with
  | c :: _ => isAsciiLower c
  | [] => false

/-- The advice message suggesting a TitleCase binding name. -/
def bindingStyleMessage (name : String) : String :=
  "Binding names with 3 or more characters should be TitleCase " ++
  "to avoid collisions with future builtin functions.\nTry `" ++
  capitalizeName name ++ "` instead of `" ++ name ++ "`"

/-- Parse a binding (`try_binding`): identifier, arrow, optional signature,
body words; records the `&`-name error, validates the words, and issues
the TitleCase advice for lowercase names of three or more characters
counted after trimming trailing `!`. -/
def tryBinding (fuel : Nat) (p : PState) : Option Binding × PState :=
  match fuel with
  | 0 => (none, p)
  | fuel + 1 =>
    let start := p.index
    let idres := tryIdent p
    match idres.1 with
    | none => (none, idres.2)
    | some name =>
      -- check for invalid binding names
      let p1 :=
        if stringContainsChar name.value '&' then
          idres.2.pushErr ((prevSpan idres.2).sp ParseError.AmpersandBindingName)
        else idres.2
      -- left arrow
      let spres := trySpaces p1
      let arrowSpan0 := spres.1.map Sp.span
      let eqres := tryExact (.Simple .Equal) spres.2
      let arrowres :=
        match eqres.1 with
        | some s => (some s, eqres.2)
        | none => tryExact .LeftArrow eqres.2
      match arrowres.1 with
      | none => (none, { arrowres.2 with index := start })
      | some span =>
        let arrowSpan :=
          match arrowSpan0 with
          | some s => s.merge span
          | none => span
        let trres := trySpaces arrowres.2
        let arrowSpan :=
          match trres.1.map Sp.span with
          | some s => arrowSpan.merge s
          | none => arrowSpan
        -- signature
        let sigres := trySignature .Bar trres.2
        -- words
        let wres := tryWords fuel sigres.2
        let words := wres.1.getD []
        let pv :=
          match words with
          | [⟨_, Word.Func f⟩] =>
            f.lines.foldl (fun p line => validateWords fuel line false p) wres.2
          | _ => validateWords fuel words false wres.2
        -- check for uncapitalized binding names
        let pfinal :=
          if 3 ≤ (dropTrailingBangs name.value).length ∧
              firstCharAsciiLower name.value then
            pv.pushDiag ⟨bindingStyleMessage name.value, name.span, .Advice⟩
          else pv
        (some ⟨name, arrowSpan, words, sigres.1⟩, pfinal)

/-- Merge loop for runs of extra newlines after the first. -/
def extraNewlinesLoop (fuel : Nat) (p : PState) (span : Option CodeSpan) :
    Option CodeSpan × PState :=
  match fuel with
  | 0 => (span, p)
  | fuel + 1 =>
    match tryExact .Newline p with
    | (none, p) => (span, p)
    | (some s, p) =>
      let span :=
        match span with
        | some prev => some (prev.merge s)
        | none => some s
      extraNewlinesLoop fuel p span

mutual

/-- Parse one top-level item (`try_item`). -/
def tryItem (fuel : Nat) (parseScopes : Bool) (p : PState) : Option Item × PState :=
  match fuel with
  | 0 => (none, p)
  | fuel + 1 =>
    let (_, p) := trySpaces p
    match tryBinding fuel p with
    | (some binding, p) => (some (.Binding binding), p)
    | (none, p) =>
      match tryWords fuel p with
      | (some words, p) => (some (.Words words), p)
      | (none, p) =>
        if parseScopes then
          match tryExact (.Simple .TripleMinus) p with
          | (some _, p) =>
            let (items, p) := itemsLoop fuel false p []
            let p :=
              match tryExact (.Simple .TripleMinus) p with
              | (some _, p) => p
              | (none, p) => p.pushErr (expectedErr p [Expectation.Simple .TripleMinus])
            (some (.TestScope items), p)
          | (none, p) => (none, p)
        else (none, p)
  termination_by structural fuel

/-- Item collection loop (`items`). -/
def itemsLoop (fuel : Nat) (parseScopes : Bool) (p : PState) (items : List Item) :
    List Item × PState :=
  match fuel with
  | 0 => (items, p)
  | fuel + 1 =>
    match tryItem fuel parseScopes p with
    | (some item, p) => itemsLoop fuel parseScopes p (items ++ [item])
    | (none, p) =>
      match tryExact .Newline p with
      | (none, p) => (items, p)
      | (some _, p) =>
        let (span, p) := extraNewlinesLoop fuel p none
        let items :=
          match span with
          | some s => items ++ [Item.ExtraNewlines s]
          | none => items
        itemsLoop fuel parseScopes p items
  termination_by structural fuel

end

/-- Parse a token stream into items, errors and diagnostics (`parse`;
lexing is elided, the tokens are given). -/
def parseTokens (tokens : List (Sp Token)) :
    List Item × List (Sp ParseError) × List Diagnostic :=
  let fuel := (tokens.length + 1) * 16
  let p0 : PState := ⟨tokens, 0, [], []⟩
  let (items, p) := itemsLoop fuel true p0 []
  let errors :=
    if p.errors.isEmpty ∧ p.index < p.tokens.length then
      match p.tokens.get? p.index with
      | some t => [t.map ParseError.Unexpected]
      | none => []
    else p.errors
  (items, errors, p.diagnostics)

end Parse

/-! ## Concrete fixtures used by the counterexamples -/

/-- Ten bare `pop` instructions: the checker accepts this list with
signature `(10, 0)`. -/
def Check.tenPops : List Check.Instr := List.replicate 10 (.Prim .Pop)

/-- Push of the scalar number `n`. -/
def Check.pushNat (n : Nat) : Check.Instr := .Push (.num ⟨[], [(n : Rat)]⟩)

/-- A function value with an empty body and declared signature `(1, 2)`. -/
def Check.fn12 : Check.Function := .mk [] ⟨1, 2⟩ none none

/-- Modelled from the spec: the signature the checker is claimed to report
for a repeat whose count is the known natural `n` and whose function has
the given signature, amended with the `n = 0` case (the checker leaves the
stack untouched, so the contribution is `(0, 0)`). -/
def Check.repeatSig (n : Nat) (sig : Check.Signature) : Check.Signature :=
  if n = 0 then ⟨0, 0⟩
  else
    match compare sig.args sig.outputs with
    | .eq => sig
    | .lt => ⟨sig.args, n * (sig.outputs - sig.args) + sig.args⟩
    | .gt => ⟨(n - 1) * (sig.args - sig.outputs) + sig.args, sig.outputs⟩

/-- Token stream for the binding `ab! = ` (identifier, spaces, equals). -/
def Parse.bangTokens : List (Parse.Sp Parse.Token) :=
  [⟨⟨0, 1⟩, .Ident ("ab!")⟩, ⟨⟨1, 2⟩, .Spaces⟩, ⟨⟨2, 3⟩, .Simple .Equal⟩]

/-- Token stream for the binding `abc = ` (identifier, spaces, equals). -/
def Parse.abcTokens : List (Parse.Sp Parse.Token) :=
  [⟨⟨0, 1⟩, .Ident ("abc")⟩, ⟨⟨1, 2⟩, .Spaces⟩, ⟨⟨2, 3⟩, .Simple .Equal⟩]

/-! ## Theorems -/

/-- Claim C5 (code bug evidence): on the one-element list `[-1]`, whose
element is a negative integer and hence not a natural number, `bits`
succeeds (the negative value is cast to `0`, giving a maximum of `0` and
an empty bit dimension) instead of returning an error: the code checks
only the fractional part, never the sign, although its own error message
and the doc comment of `Value::bits` require an array of naturals. -/
theorem bits_accepts_negative_integer :
    Arr.bits ⟨[1], [(-1 : Rat)]⟩ = .ok ⟨[1, 0], []⟩ := by
  with_unfolding_all rfl

/-- Claim C1 counterexample: the checker succeeds on ten bare `pop`
instructions with signature `(10, 0)`, but fails on the concatenation of
two such lists (the composed argument count `20` exceeds the virtual start
height of 16, so the symbolic stack underflows), although the claim
asserts that the checker succeeds on any concatenation of two accepted
lists. -/
theorem signature_concat_cex :
    Check.instrsSignature Check.tenPops = .ok ⟨10, 0⟩ ∧
    Check.instrsSignature (Check.tenPops ++ Check.tenPops) =
      .error ("function is too complex") := by
  exact ⟨by decide, by decide⟩

/-- Claim C3 counterexample: with a known repeat count of `0` and a
function of signature `(1, 2)` (args < outputs), the claim's formula
predicts a repeat signature of `(1, 0·(2−1)+1) = (1, 1)`, but the checker
leaves the stack untouched for `n = 0` and reports `(0, 0)` for the whole
list. -/
theorem repeat_zero_cex :
    Check.instrsSignature [Check.pushNat 0, .PushFunc Check.fn12, .Prim .Repeat] =
      .ok ⟨0, 0⟩ ∧ (⟨0, 0⟩ : Check.Signature) ≠ ⟨1, 0 * (2 - 1) + 1⟩ := by
  exact ⟨by with_unfolding_all rfl, by decide⟩

/-- Claim C2 counterexample: the rank-2 array of shape `[2, 0]` has rank
at least 1 and row count 2, but `rise` returns the empty list (the
element-count-zero early return), which is not a permutation of `0..2`. -/
theorem rise_empty_rows_cex :
    Arr.rise (⟨[2, 0], []⟩ : Arr Nat) = .ok [] ∧
    ¬ List.Perm ([] : List Nat) (List.range (Arr.rowCount (⟨[2, 0], []⟩ : Arr Nat))) := by
  exact ⟨by decide, by decide⟩

/-- Claim C4 counterexample: for the all-zero natural array `[0]` the bit
width is `0`, so `bits` returns shape `[1, 0]` with no data, and
`inverse_bits` takes its empty-data branch which zeroes the leading
dimension, returning shape `[0, 0]` and empty data — not the original
array (shape `[1]`, data `[0]`). -/
theorem bits_roundtrip_cex :
    Arr.bits ⟨[1], [(0 : Rat)]⟩ = .ok ⟨[1, 0], []⟩ ∧
    Arr.inverseBits ⟨[1, 0], []⟩ = .ok ⟨[0, 0], []⟩ ∧
    (⟨[0, 0], []⟩ : Arr Rat) ≠ ⟨[1], [(0 : Rat)]⟩ := by
  refine ⟨by with_unfolding_all rfl, by with_unfolding_all rfl, by decide⟩

/-- Claim C8 counterexample: the parser accepts the binding `ab! = ` whose
name `ab!` is three characters long and starts with a lowercase letter,
but no style diagnostic is produced: the code counts the characters after
trimming the trailing `!`, and `ab` has only two. -/
theorem binding_style_cex :
    (Parse.tryBinding 100 ⟨Parse.bangTokens, 0, [], []⟩).1.map (fun b => b.name.value) =
      some ("ab!") ∧
    3 ≤ ("ab!" : String).length ∧
    Parse.firstCharAsciiLower ("ab!") = true ∧
    (Parse.tryBinding 100 ⟨Parse.bangTokens, 0, [], []⟩).2.diagnostics = [] := by
  refine ⟨by decide, by decide, by decide, by decide⟩

/-- Claim C10: for an array of rank at least 1 with a non-zero element
count and the length invariant, every iteration `i < row_count / 2` of the
swap loop of `reverse` touches two regions
`[i·row_len, (i+1)·row_len)` and `[(row_count−1−i)·row_len, (row_count−i)·row_len)`
that lie inside the data buffer and are disjoint (the first ends at or
before the second begins, and the row length is positive), so the
non-overlapping-swap precondition holds and no access leaves the buffer. -/
theorem reverse_swap_safety (a : Arr T)
    (hinv : a.data.length = a.shape.prod)
    (hrank : 1 ≤ a.rank) (hne : a.elementCount ≠ 0)
    (i : Nat) (hi : i < a.rowCount / 2) :
    0 < a.rowLen ∧
    (i + 1) * a.rowLen ≤ (a.rowCount - 1 - i) * a.rowLen ∧
    (i + 1) * a.rowLen ≤ a.data.length ∧
    (a.rowCount - i) * a.rowLen ≤ a.data.length := by
  obtain ⟨d, rest, hs⟩ : ∃ d rest, a.shape = d :: rest := by
    cases hshape : a.shape with
    | nil => rw [Arr.rank, hshape] at hrank; simp at hrank
    | cons d rest => exact ⟨d, rest, rfl⟩
  have hrc : a.rowCount = d := by simp [Arr.rowCount, hs]
  have hrl : a.rowLen = rest.prod := by simp [Arr.rowLen, hs]
  have hlen : a.data.length = d * rest.prod := by
    rw [hinv, hs, List.prod_cons]
  have hne' : a.data.length ≠ 0 := by simpa [Arr.elementCount] using hne
  have hdpos : 0 < d := by
    rcases Nat.eq_zero_or_pos d with h0 | h
    · rw [hlen, h0] at hne'; simp at hne'
    · exact h
  have hrlpos : 0 < rest.prod := by
    rcases Nat.eq_zero_or_pos rest.prod with h0 | h
    · rw [hlen, h0] at hne'; simp at hne'
    · exact h
  have hi' : i < d / 2 := hrc ▸ hi
  refine ⟨hrl ▸ hrlpos, ?_, ?_, ?_⟩
  · rw [hrc]; exact Nat.mul_le_mul_right _ (by omega)
  · rw [hrl, hlen]; exact Nat.mul_le_mul_right _ (by omega)
  · rw [hrc, hrl, hlen]; exact Nat.mul_le_mul_right _ (by omega)

/-- Claim C10 witness: the shape `[2, 3]` array with six elements at loop
iteration `0`. -/
theorem reverse_swap_safety_witness :
    0 < (⟨[2, 3], [0, 1, 2, 3, 4, 5]⟩ : Arr Nat).rowLen ∧
    (0 + 1) * (⟨[2, 3], [0, 1, 2, 3, 4, 5]⟩ : Arr Nat).rowLen ≤
      ((⟨[2, 3], [0, 1, 2, 3, 4, 5]⟩ : Arr Nat).rowCount - 1 - 0) *
        (⟨[2, 3], [0, 1, 2, 3, 4, 5]⟩ : Arr Nat).rowLen ∧
    (0 + 1) * (⟨[2, 3], [0, 1, 2, 3, 4, 5]⟩ : Arr Nat).rowLen ≤
      (⟨[2, 3], [0, 1, 2, 3, 4, 5]⟩ : Arr Nat).data.length ∧
    ((⟨[2, 3], [0, 1, 2, 3, 4, 5]⟩ : Arr Nat).rowCount - 0) *
        (⟨[2, 3], [0, 1, 2, 3, 4, 5]⟩ : Arr Nat).rowLen ≤
      (⟨[2, 3], [0, 1, 2, 3, 4, 5]⟩ : Arr Nat).data.length :=
  reverse_swap_safety ⟨[2, 3], [0, 1, 2, 3, 4, 5]⟩ (by decide) (by decide)
    (by decide) 0 (by decide)

/-- Claim C6: under the length invariant, `first` and `last` fail on a
rank-0 array; on a leading-zero shape they produce a row of fill values of
shape `rest` when the ambient context supplies a fill and fail with the
fill-decorated empty error when it does not; and on every other shape they
return the first (resp. last) row, whose shape drops the leading
dimension. -/
theorem first_last_spec (a : Arr T) (fill : Option T)
    (hinv : a.data.length = a.shape.prod) :
    (a.shape = [] →
      a.first fill = .error (.plain ("Cannot take first of a scalar")) ∧
      a.last fill = .error (.plain ("Cannot take last of a scalar"))) ∧
    (∀ rest, a.shape = 0 :: rest →
      (∀ f, fill = some f →
        a.first fill = .ok ⟨rest, List.replicate rest.prod f⟩ ∧
        a.last fill = .ok ⟨rest, List.replicate rest.prod f⟩) ∧
      (fill = none →
        a.first fill = .error (.filled ("Cannot take first of an empty array")) ∧
        a.last fill = .error (.filled ("Cannot take last of an empty array")))) ∧
    (∀ d rest, a.shape = (d + 1) :: rest →
      a.first fill = .ok (a.rowAt 0) ∧ a.last fill = .ok (a.rowAt d)) := by
  obtain ⟨shape, data⟩ := a
  refine ⟨?_, ?_, ?_⟩
  · rintro rfl
    exact ⟨rfl, rfl⟩
  · rintro rest rfl
    have hdata : data = [] := by
      have hlen0 : data.length = 0 := by simpa using hinv
      exact List.eq_nil_of_length_eq_zero hlen0
    subst hdata
    refine ⟨?_, ?_⟩
    · rintro f rfl
      constructor
      · simp [Arr.first, Arr.rowLen]
      · simp [Arr.last, Arr.rowLen]
    · rintro rfl
      exact ⟨rfl, rfl⟩
  · rintro d rest rfl
    have hlen : data.length = (d + 1) * rest.prod := by
      simpa using hinv
    constructor
    · simp [Arr.first, Arr.rowAt, Arr.rowSlice, Arr.rowLen]
    · simp only [Arr.last, Arr.rowAt, Arr.rowSlice, Arr.rowLen, List.drop_one,
        List.tail_cons]
      have h1 : data.length - rest.prod = d * rest.prod := by
        rw [hlen, Nat.succ_mul, Nat.add_sub_cancel]
      have h2 : (data.drop (d * rest.prod)).take rest.prod = data.drop (d * rest.prod) := by
        apply List.take_of_length_le
        simp [hlen, Nat.succ_mul]
      rw [h1, h2]

/-- Claim C6 witness: the shape `[2, 2]` array `[[1, 2], [3, 4]]` with no
ambient fill; its first row is `[1, 2]` and its last row is `[3, 4]`. -/
theorem first_last_spec_witness :
    Arr.first (⟨[2, 2], [1, 2, 3, 4]⟩ : Arr Nat) none = .ok ⟨[2], [1, 2]⟩ ∧
    Arr.last (⟨[2, 2], [1, 2, 3, 4]⟩ : Arr Nat) none = .ok ⟨[2], [3, 4]⟩ := by
  have h := (first_last_spec (⟨[2, 2], [1, 2, 3, 4]⟩ : Arr Nat) none (by decide)).2.2 1 [2] rfl
  exact ⟨h.1.trans (by decide), h.2.trans (by decide)⟩

/-- The fractional part of zero is zero. -/
theorem ratFract_zero : ratFract 0 = 0 := by
  with_unfolding_all rfl

/-- Scan lemma for the number case of `first_where`: when every element
before index `i` is zero and the element at `i` passes its domain check
and is non-zero, the scan started at accumulator `k` answers `k + i`. -/
theorem firstWhereNum_spec (fill : Option Rat) :
    ∀ (xs : List Rat) (k i : Nat),
      i < xs.length →
      (∀ j, j < i → xs.getD j 0 = 0) →
      ratFract (xs.getD i 0) = 0 → 0 ≤ xs.getD i 0 → xs.getD i 0 ≠ 0 →
      firstWhereNum fill k xs = .ok ((k + i : Nat) : Rat) := by
  intro xs
  induction xs with
  | nil => intro k i hi _ _ _ _; simp at hi
  | cons x rest ih =>
    intro k i hi hzero hfract hle hne
    cases i with
    | zero =>
      simp only [List.getD_cons_zero] at hfract hle hne
      simp only [firstWhereNum]
      rw [if_neg (by push_neg; exact ⟨hfract, hle⟩), if_pos hne]
      norm_num
    | succ i' =>
      have hx : x = 0 := by simpa using hzero 0 (Nat.succ_pos i')
      subst hx
      simp only [List.getD_cons_succ] at hfract hle hne
      simp only [firstWhereNum]
      rw [if_neg (by push_neg; exact ⟨ratFract_zero, by norm_num⟩), if_neg (by norm_num)]
      have : k + (i' + 1) = (k + 1) + i' := by omega
      rw [this]
      exact ih (k + 1) i' (by simpa using hi)
        (fun j hj => by simpa using hzero (j + 1) (by omega)) hfract hle hne

/-- Scan lemma for the byte case of `first_where`: no element is
domain-checked, so the first non-zero byte always answers its index. -/
theorem firstWhereByte_spec (fill : Option Rat) :
    ∀ (xs : List Nat) (k i : Nat),
      i < xs.length →
      (∀ j, j < i → xs.getD j 0 = 0) → xs.getD i 0 ≠ 0 →
      firstWhereByte fill k xs = .ok ((k + i : Nat) : Rat) := by
  intro xs
  induction xs with
  | nil => intro k i hi _ _; simp at hi
  | cons x rest ih =>
    intro k i hi hzero hne
    cases i with
    | zero =>
      simp only [List.getD_cons_zero] at hne
      simp only [firstWhereByte]
      rw [if_pos hne]
      norm_num
    | succ i' =>
      have hx : x = 0 := by simpa using hzero 0 (Nat.succ_pos i')
      subst hx
      simp only [List.getD_cons_succ] at hne
      simp only [firstWhereByte]
      rw [if_neg (by norm_num)]
      have : k + (i' + 1) = (k + 1) + i' := by omega
      rw [this]
      exact ih (k + 1) i' (by simpa using hi)
        (fun j hj => by simpa using hzero (j + 1) (by omega)) hne

/-- Error characterization of the byte scan: its only error is the
empty-array fallback. -/
theorem firstWhereByte_err (fill : Option Rat) :
    ∀ (xs : List Nat) (k : Nat) (e : UErr),
      firstWhereByte fill k xs = .error e →
      e = .plain ("Cannot take first of an empty array") := by
  intro xs
  induction xs with
  | nil =>
    intro k e h
    cases fill with
    | some f => simp [firstWhereByte] at h
    | none => simpa [firstWhereByte] using h.symm
  | cons x rest ih =>
    intro k e h
    by_cases hx : x ≠ 0
    · rw [firstWhereByte, if_pos hx] at h
      exact absurd h (by simp)
    · rw [firstWhereByte, if_neg hx] at h
      exact ih (k + 1) e h

/-- Claim C9: for an `f64` list input whose elements before index `i` are
all zero and whose element at `i` is a non-zero natural number,
`first_where` answers `i` with no error, whatever the elements after `i`
are (they are never domain-checked); and a byte list never undergoes a
domain check at all: a non-zero byte always yields its index, and the only
possible error on a byte list is the empty-array fallback. -/
theorem first_where_partial_validation :
    (∀ (a : Arr Rat) (fill : Option Rat) (i : Nat),
      a.rank ≤ 1 → i < a.data.length →
      (∀ j, j < i → a.data.getD j 0 = 0) →
      ratFract (a.data.getD i 0) = 0 → 0 ≤ a.data.getD i 0 → a.data.getD i 0 ≠ 0 →
      Value.firstWhere (.num a) fill = .ok ((i : Nat) : Rat)) ∧
    (∀ (b : Arr Nat) (fill : Option Rat) (i : Nat),
      b.rank ≤ 1 → i < b.data.length →
      (∀ j, j < i → b.data.getD j 0 = 0) → b.data.getD i 0 ≠ 0 →
      Value.firstWhere (.byte b) fill = .ok ((i : Nat) : Rat)) ∧
    (∀ (b : Arr Nat) (fill : Option Rat) (e : UErr),
      b.rank ≤ 1 →
      Value.firstWhere (.byte b) fill = .error e →
      e = .plain ("Cannot take first of an empty array")) := by
  refine ⟨?_, ?_, ?_⟩
  · intro a fill i hrank hi hzero hfract hle hne
    rw [Value.firstWhere, if_neg (by simp [Value.rank]; exact hrank)]
    have h := firstWhereNum_spec fill a.data 0 i hi hzero hfract hle hne
    simpa using h
  · intro b fill i hrank hi hzero hne
    rw [Value.firstWhere, if_neg (by simp [Value.rank]; exact hrank)]
    have h := firstWhereByte_spec fill b.data 0 i hi hzero hne
    simpa using h
  · intro b fill e hrank h
    rw [Value.firstWhere, if_neg (by simp [Value.rank]; exact hrank)] at h
    exact firstWhereByte_err fill b.data 0 e h

/-- Claim C9 witness: the list `[0, 2, -1/2]` has its first non-zero
element, the natural number `2`, at index 1; `first_where` answers `1`
although the element after it is fractional and negative, and the byte
list `[0, 0, 3]` answers `2`. -/
theorem first_where_partial_validation_witness :
    Value.firstWhere (.num ⟨[3], [0, 2, -1/2]⟩) none = .ok (((1 : Nat) : Nat) : Rat) ∧
    Value.firstWhere (.byte ⟨[3], [0, 0, 3]⟩) none = .ok (((2 : Nat) : Nat) : Rat) := by
  constructor
  · exact first_where_partial_validation.1 ⟨[3], [0, 2, -1/2]⟩ none 1
      (by decide) (by decide) (by decide)
      (by with_unfolding_all rfl) (by with_unfolding_all rfl) (by norm_num)
  · exact first_where_partial_validation.2.1 ⟨[3], [0, 0, 3]⟩ none 2
      (by decide) (by decide) (by decide) (by decide)

/-- Claim C8 (amended): whenever the parser accepts a binding whose name
counts at least 3 characters after trimming its trailing `!` marks and
starts with an ASCII lowercase letter, the returned diagnostics contain
the style advice suggesting the TitleCase form of the name. -/
theorem binding_style_diagnostic (fuel : Nat) (p : Parse.PState) (b : Parse.Binding)
    (h : (Parse.tryBinding fuel p).1 = some b)
    (hlen : 3 ≤ (Parse.dropTrailingBangs b.name.value).length)
    (hlow : Parse.firstCharAsciiLower b.name.value = true) :
    (⟨Parse.bindingStyleMessage b.name.value, b.name.span,
      Parse.DiagnosticKind.Advice⟩ : Parse.Diagnostic) ∈
      (Parse.tryBinding fuel p).2.diagnostics := by
  cases fuel with
  | zero => simp [Parse.tryBinding] at h
  | succ fuel =>
    generalize hfp : Parse.tryBinding (fuel + 1) p = result at h ⊢
    rw [Parse.tryBinding] at hfp
    split at hfp
    next => rw [← hfp] at h; exact absurd h (by simp)
    next name =>
      split at hfp <;>
        (dsimp only at hfp
         split at hfp
         · rw [← hfp] at h; exact absurd h (by simp)
         · rw [← hfp] at h ⊢
           simp only at h ⊢
           injection h with h
           subst h
           simp only
           rw [if_pos ⟨hlen, hlow⟩]
           simp [Parse.PState.pushDiag])

/-- Boolean inequality with `gt`, as a proposition. -/
theorem ordering_bne_gt_iff (o : Ordering) : (o != .gt) = true ↔ o ≠ .gt := by
  cases o <;> decide

/-- Reversing the arguments of `compare` swaps the ordering. -/
theorem compare_swap_eq {T : Type} [LinearOrder T] (a b : T) :
    compare b a = (compare a b).swap := by
  rcases lt_trichotomy a b with h | h | h
  · rw [compare_lt_iff_lt.mpr h, compare_gt_iff_gt.mpr h]; rfl
  · subst h
    rw [compare_eq_iff_eq.mpr rfl]; rfl
  · rw [compare_gt_iff_gt.mpr h, compare_lt_iff_lt.mpr h]; rfl

/-- Reversing the arguments of the row comparison swaps the ordering (the
`fall` comparator is the swapped `rise` comparator). -/
theorem rowCmp_swap {T : Type} [LinearOrder T] :
    ∀ (r s : List T), rowCmp s r = (rowCmp r s).swap := by
  intro r
  induction r with
  | nil => intro s; cases s <;> rfl
  | cons x xs ih =>
    intro s
    cases s with
    | nil => rfl
    | cons y ys =>
      cases h : compare x y with
      | lt => simp [rowCmp, compare_swap_eq x y, h, Ordering.swap]
      | eq => simp [rowCmp, compare_swap_eq x y, h, Ordering.swap, ih ys]
      | gt => simp [rowCmp, compare_swap_eq x y, h, Ordering.swap]

/-- Transitivity of the non-strict row comparison on rows of equal
length. -/
theorem rowCmp_trans_of_length {T : Type} [LinearOrder T] :
    ∀ (xs ys zs : List T), xs.length = ys.length → ys.length = zs.length →
      rowCmp xs ys ≠ .gt → rowCmp ys zs ≠ .gt → rowCmp xs zs ≠ .gt := by
  intro xs
  induction xs with
  | nil =>
    intro ys zs h1 h2 _ _
    obtain rfl : ys = [] := List.eq_nil_of_length_eq_zero h1.symm
    obtain rfl : zs = [] := List.eq_nil_of_length_eq_zero h2.symm
    simp [rowCmp]
  | cons x xs ih =>
    intro ys zs h1 h2 hxy hyz
    cases ys with
    | nil => simp at h1
    | cons y ys =>
      cases zs with
      | nil => simp at h2
      | cons z zs =>
        simp only [rowCmp] at hxy hyz ⊢
        cases hxycmp : compare x y with
        | gt => rw [hxycmp] at hxy; exact absurd rfl hxy
        | lt =>
          have hx : x < y := compare_lt_iff_lt.mp hxycmp
          cases hyzcmp : compare y z with
          | gt => rw [hyzcmp] at hyz; exact absurd rfl hyz
          | lt =>
            rw [compare_lt_iff_lt.mpr (hx.trans (compare_lt_iff_lt.mp hyzcmp))]
            simp
          | eq =>
            rw [compare_lt_iff_lt.mpr ((compare_eq_iff_eq.mp hyzcmp) ▸ hx)]
            simp
        | eq =>
          have hxyeq : x = y := compare_eq_iff_eq.mp hxycmp
          rw [hxycmp] at hxy
          cases hyzcmp : compare y z with
          | gt => rw [hyzcmp] at hyz; exact absurd rfl hyz
          | lt =>
            rw [compare_lt_iff_lt.mpr (hxyeq ▸ compare_lt_iff_lt.mp hyzcmp)]
            simp
          | eq =>
            rw [hyzcmp] at hyz
            rw [compare_eq_iff_eq.mpr (hxyeq.trans (compare_eq_iff_eq.mp hyzcmp))]
            exact ih ys zs (by simpa using h1) (by simpa using h2) hxy hyz

/-- A fully in-bounds row slice has exactly `rowLen` elements. -/
theorem rowSlice_length {T : Type} (a : Arr T) (i : Nat)
    (h : (i + 1) * a.rowLen ≤ a.data.length) :
    (a.rowSlice i).length = a.rowLen := by
  rw [Nat.succ_mul] at h
  simp only [Arr.rowSlice, List.length_take, List.length_drop]
  omega

/-- Claim C2 (amended): for an array of rank at least 1 satisfying the
length invariant, `rise` and `fall` succeed; when the array has no
elements both return the empty list (not a permutation of
`0..row_count` when the row count is positive), and otherwise both
return a permutation of `0..row_count` and reordering the rows by the
`rise` permutation is non-decreasing under the array comparison order. -/
theorem rise_fall_perm_sorted {T : Type} [LinearOrder T] (a : Arr T)
    (hinv : a.data.length = a.shape.prod) (hrank : 1 ≤ a.rank) :
    (a.elementCount = 0 → a.rise = .ok [] ∧ a.fall = .ok []) ∧
    (a.elementCount ≠ 0 →
      ∃ p q, a.rise = .ok p ∧ a.fall = .ok q ∧
        p.Perm (List.range a.rowCount) ∧ q.Perm (List.range a.rowCount) ∧
        (p.map a.rowSlice).Pairwise (fun r s => rowCmp r s ≠ .gt)) := by
  have hrankne : ¬ a.rank = 0 := by omega
  constructor
  · intro h0
    constructor
    · rw [Arr.rise, if_neg hrankne, if_pos h0]
    · rw [Arr.fall, if_neg hrankne, if_pos h0]
  · intro hne
    obtain ⟨d, rest, hs⟩ : ∃ d rest, a.shape = d :: rest := by
      cases hshape : a.shape with
      | nil => rw [Arr.rank, hshape] at hrank; simp at hrank
      | cons d rest => exact ⟨d, rest, rfl⟩
    have hrc : a.rowCount = d := by simp [Arr.rowCount, hs]
    have hrl : a.rowLen = rest.prod := by simp [Arr.rowLen, hs]
    have hlen : a.data.length = d * rest.prod := by rw [hinv, hs, List.prod_cons]
    have hrows : ∀ i : Fin a.rowCount, (a.rowSlice (i : Nat)).length = a.rowLen := by
      intro i
      apply rowSlice_length
      rw [hrl, hlen]
      have hid : (i : Nat) + 1 ≤ d := by
        have h2 := i.isLt
        omega
      exact Nat.mul_le_mul_right _ hid
    refine ⟨((List.finRange a.rowCount).mergeSort fun i j =>
        rowCmp (a.rowSlice i) (a.rowSlice j) != .gt).map Fin.val,
      ((List.finRange a.rowCount).mergeSort fun i j =>
        rowCmp (a.rowSlice j) (a.rowSlice i) != .gt).map Fin.val,
      ?_, ?_, ?_, ?_, ?_⟩
    · rw [Arr.rise, if_neg hrankne, if_neg hne]
    · rw [Arr.fall, if_neg hrankne, if_neg hne]
    · have hperm := List.mergeSort_perm (List.finRange a.rowCount)
        (fun i j => rowCmp (a.rowSlice i) (a.rowSlice j) != .gt)
      have := hperm.map Fin.val
      simpa using this
    · have hperm := List.mergeSort_perm (List.finRange a.rowCount)
        (fun i j => rowCmp (a.rowSlice j) (a.rowSlice i) != .gt)
      have := hperm.map Fin.val
      simpa using this
    · have htrans : ∀ i j k : Fin a.rowCount,
          (rowCmp (a.rowSlice i) (a.rowSlice j) != .gt) = true →
          (rowCmp (a.rowSlice j) (a.rowSlice k) != .gt) = true →
          (rowCmp (a.rowSlice i) (a.rowSlice k) != .gt) = true := by
        intro i j k hij hjk
        rw [ordering_bne_gt_iff] at hij hjk ⊢
        exact rowCmp_trans_of_length _ _ _
          ((hrows i).trans (hrows j).symm) ((hrows j).trans (hrows k).symm) hij hjk
      have htotal : ∀ i j : Fin a.rowCount,
          ((rowCmp (a.rowSlice i) (a.rowSlice j) != .gt) ||
            (rowCmp (a.rowSlice j) (a.rowSlice i) != .gt)) = true := by
        intro i j
        cases h : rowCmp (a.rowSlice (i : Nat)) (a.rowSlice (j : Nat)) with
        | lt => rfl
        | eq => rfl
        | gt =>
          have hswap : rowCmp (a.rowSlice (j : Nat)) (a.rowSlice (i : Nat)) = .lt := by
            rw [rowCmp_swap, h]; rfl
          rw [hswap]
          rfl
      have hsorted := List.sorted_mergeSort htrans htotal (List.finRange a.rowCount)
      rw [List.map_map]
      exact List.Pairwise.map _ (fun i j hb => (ordering_bne_gt_iff _).mp hb) hsorted

/-- Claim C2 witness: the two-row array `[[5], [3]]`; `rise` answers
`[1, 0]` and `fall` answers `[0, 1]`, both permutations of `0..2`, and the
rows reordered by `rise` ascend. -/
theorem rise_fall_perm_sorted_witness :
    ∃ p q, (⟨[2, 1], [5, 3]⟩ : Arr Nat).rise = .ok p ∧
      (⟨[2, 1], [5, 3]⟩ : Arr Nat).fall = .ok q ∧
      p.Perm (List.range (⟨[2, 1], [5, 3]⟩ : Arr Nat).rowCount) ∧
      q.Perm (List.range (⟨[2, 1], [5, 3]⟩ : Arr Nat).rowCount) ∧
      (p.map (⟨[2, 1], [5, 3]⟩ : Arr Nat).rowSlice).Pairwise
        (fun r s => rowCmp r s ≠ .gt) :=
  (rise_fall_perm_sorted (⟨[2, 1], [5, 3]⟩ : Arr Nat) (by decide) (by decide)).2
    (by decide)

/-- Claim C8 witness: parsing the binding `abc = ` produces the TitleCase
advice for the name `abc`. -/
theorem binding_style_diagnostic_witness :
    (⟨Parse.bindingStyleMessage ("abc"), ⟨0, 1⟩,
      Parse.DiagnosticKind.Advice⟩ : Parse.Diagnostic) ∈
      (Parse.tryBinding 100 ⟨Parse.abcTokens, 0, [], []⟩).2.diagnostics :=
  binding_style_diagnostic 100 ⟨Parse.abcTokens, 0, [], []⟩
    ⟨⟨⟨0, 1⟩, "abc"⟩, ⟨1, 3⟩, [], none⟩ rfl (by decide) (by decide)

theorem getD_range_map [Inhabited T] (f : Nat → T) (n p : Nat) (hp : p < n) :
    ((List.range n).map f).getD p default = f p := by
  have hlen : p < ((List.range n).map f).length := by simpa using hp
  rw [List.getD_eq_getElem _ _ hlen]
  simp

theorem list_ext_getD [Inhabited T] {l1 l2 : List T}
    (hlen : l1.length = l2.length)
    (h : ∀ p, p < l1.length → l1.getD p default = l2.getD p default) : l1 = l2 := by
  apply List.ext_getElem hlen
  intro n h1 h2
  have hn := h n h1
  rwa [List.getD_eq_getElem _ _ h1, List.getD_eq_getElem _ _ h2] at hn

theorem length_swapRegion [Inhabited T] (d : List T) (l r n : Nat) :
    (swapRegion d l r n).length = d.length := by
  simp [swapRegion]

theorem getD_swapRegion [Inhabited T] (d : List T) (l r n p : Nat) (hp : p < d.length) :
    (swapRegion d l r n).getD p default =
      if l ≤ p ∧ p < l + n then d.getD (r + (p - l)) default
      else if r ≤ p ∧ p < r + n then d.getD (l + (p - r)) default
      else d.getD p default := by
  rw [swapRegion, getD_range_map _ _ _ hp]

theorem length_reverseLoop [Inhabited T] (rc rl : Nat) (k : Nat) (d : List T) :
    (reverseLoop rc rl k d).length = d.length := by
  induction k with
  | zero => rfl
  | succ k ih => rw [reverseLoop, length_swapRegion, ih]

theorem mirrorIdx_lt {rc rl : Nat} (hrl : 0 < rl) {p : Nat} (hp : p < rc * rl) :
    mirrorIdx rc rl p < rc * rl := by
  have hj : p / rl < rc := Nat.div_lt_iff_lt_mul hrl |>.mpr (by omega)
  have hm : p % rl < rl := Nat.mod_lt _ hrl
  have hrc : 0 < rc := Nat.lt_of_le_of_lt (Nat.zero_le _) hj
  calc mirrorIdx rc rl p < (rc - 1 - p / rl) * rl + rl := by
        unfold mirrorIdx; exact Nat.add_lt_add_left hm _
    _ = (rc - 1 - p / rl + 1) * rl := by rw [Nat.succ_mul]
    _ ≤ rc * rl :=
        Nat.mul_le_mul_right _
          (Nat.succ_le_of_lt (Nat.lt_of_le_of_lt (Nat.sub_le _ _) (Nat.sub_lt hrc Nat.one_pos)))

theorem mirrorIdx_div_mod {rc rl : Nat} (hrl : 0 < rl) {p : Nat} (hp : p < rc * rl) :
    (mirrorIdx rc rl p) / rl = rc - 1 - p / rl ∧ (mirrorIdx rc rl p) % rl = p % rl := by
  have hm : p % rl < rl := Nat.mod_lt _ hrl
  constructor
  · apply Nat.div_eq_of_lt_le
    · exact Nat.le_add_right _ _
    · unfold mirrorIdx; rw [Nat.succ_mul]; exact Nat.add_lt_add_left hm _
  · unfold mirrorIdx
    rw [Nat.add_comm, Nat.add_mul_mod_self_right]
    exact Nat.mod_mod_of_dvd _ dvd_rfl

theorem mirrorIdx_invol {rc rl : Nat} (hrl : 0 < rl) {p : Nat} (hp : p < rc * rl) :
    mirrorIdx rc rl (mirrorIdx rc rl p) = p := by
  obtain ⟨hd, hm⟩ := mirrorIdx_div_mod hrl hp
  have hj : p / rl < rc := Nat.div_lt_iff_lt_mul hrl |>.mpr (by omega)
  have hdm := Nat.div_add_mod p rl
  show (rc - 1 - mirrorIdx rc rl p / rl) * rl + mirrorIdx rc rl p % rl = p
  rw [hd, hm]
  have h2 : rc - 1 - (rc - 1 - p / rl) = p / rl := by
    generalize p / rl = j at hj ⊢
    omega
  rw [h2, Nat.mul_comm]
  exact hdm

theorem row_region {rl : Nat} (hrl : 0 < rl) (t p : Nat) :
    (t * rl ≤ p ∧ p < t * rl + rl) ↔ p / rl = t := by
  constructor
  · rintro ⟨h1, h2⟩
    exact Nat.div_eq_of_lt_le h1 (by rw [Nat.succ_mul]; omega)
  · rintro rfl
    have h1 := Nat.div_add_mod p rl
    have h2 := Nat.mod_lt p hrl
    constructor
    · rw [Nat.mul_comm]; omega
    · rw [Nat.mul_comm]; omega

theorem getD_reverseLoop [Inhabited T] {rc rl : Nat} (hrl : 0 < rl)
    (d : List T) (hd : d.length = rc * rl) :
    ∀ (k : Nat), 2 * k ≤ rc → ∀ p, p < rc * rl →
      (reverseLoop rc rl k d).getD p default =
        if p / rl < k ∨ rc - k ≤ p / rl then d.getD (mirrorIdx rc rl p) default
        else d.getD p default := by
  intro k
  induction k with
  | zero =>
    intro _ p hp
    have hj : p / rl < rc := Nat.div_lt_iff_lt_mul hrl |>.mpr hp
    show d.getD p default = _
    have hcond : ¬(p / rl < 0 ∨ rc - 0 ≤ p / rl) := by
      rintro (h | h)
      · exact Nat.not_lt_zero _ h
      · rw [Nat.sub_zero] at h
        exact absurd hj (Nat.not_lt.mpr h)
    rw [if_neg hcond]
  | succ k ih =>
    intro hk p hp
    have hlenk : (reverseLoop rc rl k d).length = d.length := length_reverseLoop rc rl k d
    have hj : p / rl < rc := Nat.div_lt_iff_lt_mul hrl |>.mpr hp
    rw [reverseLoop, getD_swapRegion _ _ _ _ _ (by rw [hlenk, hd]; exact hp)]
    by_cases hc1 : k * rl ≤ p ∧ p < k * rl + rl
    · have hjk : p / rl = k := (row_region hrl k p).mp hc1
      rw [if_pos hc1]
      have h1 := Nat.div_add_mod p rl
      rw [hjk, Nat.mul_comm] at h1
      have hread : (rc - k - 1) * rl + (p - k * rl) = mirrorIdx rc rl p := by
        unfold mirrorIdx
        rw [hjk]
        have he : rc - k - 1 = rc - 1 - k := by omega
        rw [he]
        omega
      rw [hread]
      have hmlt := mirrorIdx_lt hrl hp
      rw [ih (by omega) _ hmlt]
      obtain ⟨hmd, _⟩ := mirrorIdx_div_mod hrl hp
      rw [hjk] at hmd
      rw [if_neg (by rw [hmd]; omega), if_pos (by rw [hjk]; omega)]
    · by_cases hc2 : (rc - k - 1) * rl ≤ p ∧ p < (rc - k - 1) * rl + rl
      · have hjk : p / rl = rc - k - 1 := (row_region hrl _ p).mp hc2
        rw [if_neg hc1, if_pos hc2]
        have h1 := Nat.div_add_mod p rl
        rw [hjk, Nat.mul_comm] at h1
        have hread : k * rl + (p - (rc - k - 1) * rl) = mirrorIdx rc rl p := by
          unfold mirrorIdx
          rw [hjk]
          have he : rc - 1 - (rc - k - 1) = k := by omega
          rw [he]
          omega
        rw [hread]
        have hmlt := mirrorIdx_lt hrl hp
        rw [ih (by omega) _ hmlt]
        obtain ⟨hmd, _⟩ := mirrorIdx_div_mod hrl hp
        rw [hjk] at hmd
        have he : rc - 1 - (rc - k - 1) = k := by omega
        rw [he] at hmd
        rw [if_neg (by rw [hmd]; omega), if_pos (by rw [hjk]; omega)]
      · rw [if_neg hc1, if_neg hc2]
        have hj1 : p / rl ≠ k := fun h => hc1 ((row_region hrl k p).mpr h)
        have hj2 : p / rl ≠ rc - k - 1 := fun h => hc2 ((row_region hrl _ p).mpr h)
        rw [ih (by omega) p hp]
        by_cases hc : p / rl < k ∨ rc - k ≤ p / rl
        · rw [if_pos hc, if_pos (by omega)]
        · rw [if_neg hc, if_neg (by omega)]

theorem getD_reverse_data [Inhabited T] {rc rl : Nat} (hrl : 0 < rl)
    (d : List T) (hd : d.length = rc * rl) (p : Nat) (hp : p < rc * rl) :
    (reverseLoop rc rl (rc / 2) d).getD p default = d.getD (mirrorIdx rc rl p) default := by
  rw [getD_reverseLoop hrl d hd (rc / 2) (by omega) p hp]
  by_cases hc : p / rl < rc / 2 ∨ rc - rc / 2 ≤ p / rl
  · rw [if_pos hc]
  · rw [if_neg hc]
    have hj : p / rl < rc := Nat.div_lt_iff_lt_mul hrl |>.mpr hp
    have hmid : rc - 1 - p / rl = p / rl := by
      generalize p / rl = j at hc hj ⊢
      omega
    have hfix : mirrorIdx rc rl p = p := by
      unfold mirrorIdx
      rw [hmid, Nat.mul_comm]
      exact Nat.div_add_mod p rl
    rw [hfix]

theorem reverseData_invol [Inhabited T] {rc rl : Nat} (hrl : 0 < rl)
    (d : List T) (hd : d.length = rc * rl) :
    reverseLoop rc rl (rc / 2) (reverseLoop rc rl (rc / 2) d) = d := by
  apply list_ext_getD
  · rw [length_reverseLoop, length_reverseLoop]
  · intro p hp
    rw [length_reverseLoop, length_reverseLoop, hd] at hp
    rw [getD_reverse_data hrl _ (by rw [length_reverseLoop, hd]) p hp,
        getD_reverse_data hrl d hd _ (mirrorIdx_lt hrl hp),
        mirrorIdx_invol hrl hp]

theorem reverse_reverse [Inhabited T] (a : Arr T) (hinv : a.data.length = a.shape.prod) :
    a.reverse.reverse = a := by
  obtain ⟨s, dat⟩ := a
  by_cases h : (Arr.mk s dat).shape.isEmpty ∨ (Arr.mk s dat).elementCount = 0
  · have hrev : (Arr.mk s dat).reverse = Arr.mk s dat := by
      rw [Arr.reverse, if_pos h]
    rw [hrev, hrev]
  · have h' := h
    push_neg at h'
    obtain ⟨hsh, hec⟩ := h'
    obtain ⟨dd, rest, hs⟩ : ∃ dd rest, s = dd :: rest := by
      cases s with
      | nil => exact absurd rfl hsh
      | cons x xs => exact ⟨x, xs, rfl⟩
    subst hs
    have hdl : dat.length = dd * rest.prod := by
      simpa [List.prod_cons] using hinv
    have hrlpos : 0 < rest.prod := by
      rcases Nat.eq_zero_or_pos rest.prod with h0 | h0
      · rw [h0, Nat.mul_zero] at hdl
        exact absurd hdl hec
      · exact h0
    have hrev : (Arr.mk (dd :: rest) dat).reverse =
        Arr.mk (dd :: rest) (reverseLoop dd rest.prod (dd / 2) dat) := by
      rw [Arr.reverse, if_neg h]
      rfl
    rw [hrev, Arr.reverse, if_neg]
    · show Arr.mk (dd :: rest)
        (reverseLoop dd rest.prod (dd / 2) (reverseLoop dd rest.prod (dd / 2) dat)) =
        Arr.mk (dd :: rest) dat
      rw [reverseData_invol hrlpos dat hdl]
    · rw [not_or]
      constructor
      · simp
      · show ¬(reverseLoop dd rest.prod (dd / 2) dat).length = 0
        rw [length_reverseLoop]
        exact hec

theorem flatIdx_lt : ∀ {s ix : List Nat}, validIdx s ix → flatIdx s ix < s.prod := by
  intro s ix h
  induction h with
  | nil => exact Nat.zero_lt_one
  | @cons dd i s2 ix2 h1 h2 ih =>
    show i * s2.prod + flatIdx s2 ix2 < (dd :: s2).prod
    rw [List.prod_cons]
    calc i * s2.prod + flatIdx s2 ix2 < i * s2.prod + s2.prod := Nat.add_lt_add_left ih _
      _ = (i + 1) * s2.prod := (Nat.succ_mul _ _).symm
      _ ≤ dd * s2.prod := Nat.mul_le_mul_right _ (Nat.succ_le_of_lt h1)

theorem flatIdx_append_last :
    ∀ (s ix : List Nat) (aa j : Nat), s.length = ix.length →
      flatIdx (s ++ [aa]) (ix ++ [j]) = flatIdx s ix * aa + j := by
  intro s
  induction s with
  | nil =>
    intro ix aa j hl
    obtain rfl : ix = [] := (List.eq_nil_of_length_eq_zero hl.symm)
    show flatIdx [aa] [j] = flatIdx [] [] * aa + j
    show j * List.prod [] + flatIdx [] [] = flatIdx [] [] * aa + j
    simp [flatIdx]
  | cons dd ds ih =>
    intro ix aa j hl
    cases ix with
    | nil => simp at hl
    | cons i is =>
      show i * (ds ++ [aa]).prod + flatIdx (ds ++ [aa]) (is ++ [j]) =
        (i * ds.prod + flatIdx ds is) * aa + j
      rw [ih is aa j (by simpa using hl), List.prod_append]
      simp [flatIdx]
      ring

theorem unflatten : ∀ (s : List Nat) (q : Nat), q < s.prod →
    ∃ ix, validIdx s ix ∧ flatIdx s ix = q := by
  intro s
  induction s with
  | nil =>
    intro q hq
    obtain rfl : q = 0 := by simpa using hq
    exact ⟨[], List.Forall₂.nil, rfl⟩
  | cons dd ds ih =>
    intro q hq
    rw [List.prod_cons] at hq
    have hP : 0 < ds.prod := by
      rcases Nat.eq_zero_or_pos ds.prod with h0 | h0
      · rw [h0, Nat.mul_zero] at hq
        exact absurd hq (Nat.not_lt_zero _)
      · exact h0
    obtain ⟨is, hval, hflat⟩ := ih (q % ds.prod) (Nat.mod_lt _ hP)
    refine ⟨q / ds.prod :: is, List.Forall₂.cons ?_ hval, ?_⟩
    · exact Nat.div_lt_iff_lt_mul hP |>.mpr hq
    · show q / ds.prod * ds.prod + flatIdx ds is = q
      rw [hflat, Nat.mul_comm]
      exact Nat.div_add_mod q ds.prod

theorem validIdx_rot1 : ∀ {t jt : List Nat} {dd i : Nat}, i < dd → validIdx t jt →
    validIdx (t ++ [dd]) (jt ++ [i]) := by
  intro t jt dd i hi h
  induction h with
  | nil => exact List.Forall₂.cons hi List.Forall₂.nil
  | cons h1 _ ih => exact List.Forall₂.cons h1 ih

theorem rotate_one_cons {α : Type} (x : α) (xs : List α) :
    (x :: xs).rotate 1 = xs ++ [x] := by
  simp [List.rotate_cons_succ, List.rotate_zero]

theorem rotate_back {α : Type} (l : List α) (x : α) :
    (l ++ [x]).rotate l.length = x :: l := by
  rw [List.rotate_eq_drop_append_take (by simp)]
  simp [List.drop_left, List.take_left]

theorem transpose_step [Inhabited T] (a : Arr T) (dd : Nat) (ds : List Nat)
    (hs : a.shape = dd :: ds) (hds : ds ≠ []) (hd : dd ≠ 0) :
    a.transpose.shape = ds ++ [dd] ∧
    a.transpose.data.length = ds.prod * dd ∧
    ∀ i is, i < dd → validIdx ds is →
      a.transpose.data.getD (flatIdx (ds ++ [dd]) (is ++ [i])) default =
        a.data.getD (flatIdx (dd :: ds) (i :: is)) default := by
  have hdsl : ds.length ≠ 0 := fun hh => hds (List.eq_nil_of_length_eq_zero hh)
  have h2 : ¬ a.shape.length < 2 := by
    rw [hs]
    simp only [List.length_cons]
    omega
  have hhead : ¬ a.shape.headD 0 = 0 := by
    rw [hs]
    simpa using hd
  have hrc : a.rowCount = dd := by rw [Arr.rowCount, hs]; rfl
  have hrl : a.rowLen = ds.prod := by rw [Arr.rowLen, hs]; rfl
  have htr : a.transpose = Arr.mk (a.shape.rotate 1)
      ((List.range (ds.prod * dd)).map fun q =>
        a.data.getD ((q % dd) * ds.prod + q / dd) default) := by
    rw [Arr.transpose, if_neg h2, if_neg hhead, hrc, hrl]
  rw [htr]
  refine ⟨?_, ?_, ?_⟩
  · show a.shape.rotate 1 = ds ++ [dd]
    rw [hs]
    exact rotate_one_cons dd ds
  · simp
  · intro i is hi hval
    have hlen : ds.length = is.length := hval.length_eq
    have hfl : flatIdx (ds ++ [dd]) (is ++ [i]) = flatIdx ds is * dd + i :=
      flatIdx_append_last ds is dd i hlen
    have hr : flatIdx ds is < ds.prod := flatIdx_lt hval
    have hq : flatIdx ds is * dd + i < ds.prod * dd := by
      calc flatIdx ds is * dd + i < flatIdx ds is * dd + dd := Nat.add_lt_add_left hi _
        _ = (flatIdx ds is + 1) * dd := (Nat.succ_mul _ _).symm
        _ ≤ ds.prod * dd := Nat.mul_le_mul_right _ (Nat.succ_le_of_lt hr)
    show ((List.range (ds.prod * dd)).map _).getD _ default = _
    rw [hfl, getD_range_map _ _ _ hq]
    have hmod : (flatIdx ds is * dd + i) % dd = i := by
      rw [Nat.add_comm, Nat.add_mul_mod_self_right]
      exact Nat.mod_eq_of_lt hi
    have hdiv : (flatIdx ds is * dd + i) / dd = flatIdx ds is := by
      rw [Nat.add_comm, Nat.add_mul_div_right _ _ (Nat.pos_of_ne_zero hd),
        Nat.div_eq_of_lt hi, Nat.zero_add]
    rw [hmod, hdiv]
    rfl

theorem prod_rotate (l : List Nat) (n : Nat) : (l.rotate n).prod = l.prod :=
  (List.rotate_perm l n).prod_eq

theorem transpose_iterate [Inhabited T] :
    ∀ (k : Nat) (a : Arr T), 2 ≤ a.shape.length → a.data.length = a.shape.prod →
      0 < a.shape.prod →
      (Arr.transpose^[k] a).shape = a.shape.rotate k ∧
      (Arr.transpose^[k] a).data.length = a.shape.prod ∧
      ∀ ix, validIdx a.shape ix →
        (Arr.transpose^[k] a).data.getD (flatIdx (a.shape.rotate k) (ix.rotate k)) default =
          a.data.getD (flatIdx a.shape ix) default := by
  intro k
  induction k with
  | zero =>
    intro a h2 hinv hpos
    exact ⟨by simp, hinv, fun ix hval => by simp⟩
  | succ k ih =>
    intro a h2 hinv hpos
    obtain ⟨dd, ds, hs⟩ : ∃ dd ds, a.shape = dd :: ds := by
      cases hsq : a.shape with
      | nil => rw [hsq] at h2; simp at h2
      | cons x xs => exact ⟨x, xs, rfl⟩
    have hds : ds ≠ [] := by
      intro hh
      rw [hs, hh] at h2
      simp at h2
    have hd : dd ≠ 0 := by
      intro hh
      rw [hs, hh, List.prod_cons, Nat.zero_mul] at hpos
      exact absurd hpos (Nat.lt_irrefl 0)
    obtain ⟨hsh, hlen, hget⟩ := transpose_step a dd ds hs hds hd
    have hprodeq : a.transpose.shape.prod = a.shape.prod := by
      rw [hsh, hs, List.prod_append, List.prod_cons]
      simp [Nat.mul_comm]
    have h2' : 2 ≤ a.transpose.shape.length := by
      rw [hsh, List.length_append]
      rw [hs] at h2
      simpa using h2
    have hinv' : a.transpose.data.length = a.transpose.shape.prod := by
      rw [hlen, hprodeq, hs, List.prod_cons, Nat.mul_comm]
    have hpos' : 0 < a.transpose.shape.prod := by rw [hprodeq]; exact hpos
    obtain ⟨ih1, ih2, ih3⟩ := ih a.transpose h2' hinv' hpos'
    rw [Function.iterate_succ_apply]
    refine ⟨?_, ?_, ?_⟩
    · rw [ih1, hsh, hs]
      rw [List.rotate_cons_succ]
    · rw [ih2, hprodeq]
    · intro ix hval
      rw [hs] at hval
      rcases hval with _ | ⟨hi, htail⟩
      rename_i i is
      have hb := ih3 (is ++ [i]) (by rw [hsh]; exact validIdx_rot1 hi htail)
      rw [hsh] at hb
      rw [hget i is hi htail] at hb
      rw [hs, List.rotate_cons_succ, List.rotate_cons_succ]
      exact hb

theorem transpose_zero_prod [Inhabited T] :
    ∀ (k : Nat) (a : Arr T), 2 ≤ a.shape.length → a.shape.prod = 0 → a.data = [] →
      Arr.transpose^[k] a = Arr.mk (a.shape.rotate k) [] := by
  intro k
  induction k with
  | zero =>
    intro a h2 hzero hnil
    rw [Function.iterate_zero_apply, List.rotate_zero]
    cases a with
    | mk s d => simp only at hnil; rw [hnil]
  | succ k ih =>
    intro a h2 hzero hnil
    rw [Function.iterate_succ_apply]
    have htr : a.transpose = Arr.mk (a.shape.rotate 1) [] := by
      rw [Arr.transpose]
      rw [if_neg (by omega)]
      by_cases hh : a.shape.headD 0 = 0
      · rw [if_pos hh]
        cases a with
        | mk s d => simp only at hnil ⊢; rw [hnil]
      · rw [if_neg hh]
        have hrl0 : a.rowLen * a.rowCount = 0 := by
          have : a.rowCount * a.rowLen = a.shape.prod := by
            cases hsq : a.shape with
            | nil => rw [hsq] at h2; simp at h2
            | cons x xs =>
              rw [Arr.rowCount, Arr.rowLen, hsq, List.prod_cons]
              rfl
          rw [Nat.mul_comm]
          rw [this, hzero]
        rw [hrl0]
        simp
    rw [htr]
    have h2' : 2 ≤ (Arr.mk (a.shape.rotate 1) ([] : List T)).shape.length := by
      simpa using h2
    have hzero' : (Arr.mk (a.shape.rotate 1) ([] : List T)).shape.prod = 0 := by
      show (a.shape.rotate 1).prod = 0
      rw [prod_rotate]
      exact hzero
    have := ih (Arr.mk (a.shape.rotate 1) []) h2' hzero' rfl
    rw [this]
    show Arr.mk ((a.shape.rotate 1).rotate k) [] = _
    rw [List.rotate_rotate]
    rw [Nat.add_comm]

theorem arr_eq_of_fields {α : Type} {a b : Arr α}
    (h1 : a.shape = b.shape) (h2 : a.data = b.data) : a = b := by
  cases a
  cases b
  simp only at h1 h2
  rw [h1, h2]

theorem transpose_pow_rank [Inhabited T] (a : Arr T) (hinv : a.data.length = a.shape.prod) :
    Arr.transpose^[a.rank] a = a := by
  by_cases h2 : a.shape.length < 2
  · have hid : a.transpose = a := by rw [Arr.transpose, if_pos h2]
    have hall : ∀ k, Arr.transpose^[k] a = a := by
      intro k
      induction k with
      | zero => rfl
      | succ k ih => rw [Function.iterate_succ_apply, hid, ih]
    exact hall _
  · push_neg at h2
    by_cases hpos : 0 < a.shape.prod
    · obtain ⟨h1, hl, h3⟩ := transpose_iterate a.rank a h2 hinv hpos
      have hrot : a.shape.rotate a.rank = a.shape := by
        rw [Arr.rank, List.rotate_length]
      apply arr_eq_of_fields
      · rw [h1, hrot]
      · apply list_ext_getD
        · rw [hl, hinv]
        · intro p hp
          rw [hl] at hp
          obtain ⟨ix, hval, hflat⟩ := unflatten a.shape p hp
          have hx := h3 ix hval
          have hixlen : ix.length = a.shape.length := hval.length_eq.symm
          have hrotix : ix.rotate a.rank = ix := by
            rw [Arr.rank, ← hixlen, List.rotate_length]
          rw [hrot, hrotix, hflat] at hx
          exact hx
    · have hz : a.shape.prod = 0 := Nat.le_zero.mp (Nat.not_lt.mp hpos)
      have hnil : a.data = [] := List.eq_nil_of_length_eq_zero (by rw [hinv, hz])
      rw [transpose_zero_prod a.rank a h2 hz hnil]
      apply arr_eq_of_fields
      · show a.shape.rotate a.rank = a.shape
        rw [Arr.rank, List.rotate_length]
      · exact hnil.symm

theorem transpose_invTranspose [Inhabited T] (a : Arr T)
    (hinv : a.data.length = a.shape.prod) :
    a.transpose.invTranspose = a := by
  by_cases h2 : a.shape.length < 2
  · rw [Arr.transpose, if_pos h2, Arr.invTranspose, if_pos h2]
  · push_neg at h2
    obtain ⟨dd, ds, hs⟩ : ∃ dd ds, a.shape = dd :: ds := by
      cases hsq : a.shape with
      | nil => rw [hsq] at h2; simp at h2
      | cons x xs => exact ⟨x, xs, rfl⟩
    have hdsl : ds.length ≠ 0 := by
      intro hh
      rw [hs, List.length_cons, hh] at h2
      omega
    have hlr : (ds ++ [dd]).length - 1 = ds.length := by simp
    have hnot2 : ¬ (ds ++ [dd]).length < 2 := by
      rw [List.length_append]
      simp only [List.length_cons, List.length_nil]
      omega
    by_cases hd0 : dd = 0
    · have hnil : a.data = [] := by
        apply List.eq_nil_of_length_eq_zero
        rw [hinv, hs, hd0, List.prod_cons, Nat.zero_mul]
      have htr : a.transpose = Arr.mk (ds ++ [0]) [] := by
        rw [Arr.transpose, if_neg (by omega), if_pos (by rw [hs, hd0]; rfl)]
        apply arr_eq_of_fields
        · show a.shape.rotate 1 = ds ++ [0]
          rw [hs, hd0]
          exact rotate_one_cons 0 ds
        · exact hnil
      rw [htr, Arr.invTranspose]
      rw [if_neg (by rw [hd0] at hnot2; exact hnot2)]
      by_cases he : (ds ++ [0]).headD 0 = 0
      · rw [if_pos he]
        apply arr_eq_of_fields
        · show (ds ++ [0]).rotate ((ds ++ [0]).length - 1) = a.shape
          rw [hd0] at hlr
          rw [hlr, rotate_back, hs, hd0]
        · exact hnil.symm
      · rw [if_neg he]
        apply arr_eq_of_fields
        · show (ds ++ [0]).rotate ((ds ++ [0]).length - 1) = a.shape
          rw [hd0] at hlr
          rw [hlr, rotate_back, hs, hd0]
        · show ((List.range ((ds ++ [0]).getLastD 0 * (ds ++ [0]).dropLast.prod)).map _) = a.data
          rw [List.getLastD_concat, Nat.zero_mul]
          rw [hnil]
          rfl
    · have hhead : ¬ a.shape.headD 0 = 0 := by rw [hs]; simpa using hd0
      have hrc : a.rowCount = dd := by rw [Arr.rowCount, hs]; rfl
      have hrl : a.rowLen = ds.prod := by rw [Arr.rowLen, hs]; rfl
      have htr : a.transpose = Arr.mk (ds ++ [dd])
          ((List.range (ds.prod * dd)).map fun q =>
            a.data.getD ((q % dd) * ds.prod + q / dd) default) := by
        rw [Arr.transpose, if_neg (by omega), if_neg hhead, hrc, hrl]
        apply arr_eq_of_fields
        · show a.shape.rotate 1 = ds ++ [dd]
          rw [hs]
          exact rotate_one_cons dd ds
        · rfl
      rw [htr, Arr.invTranspose, if_neg hnot2]
      by_cases he : (ds ++ [dd]).headD 0 = 0
      · rw [if_pos he]
        have hp0 : ds.prod = 0 := by
          cases ds with
          | nil => exact absurd rfl hdsl
          | cons e0 dt =>
            simp only [List.cons_append, List.headD_cons] at he
            rw [List.prod_cons, he, Nat.zero_mul]
        apply arr_eq_of_fields
        · show (ds ++ [dd]).rotate ((ds ++ [dd]).length - 1) = a.shape
          rw [hlr, rotate_back, hs]
        · show ((List.range (ds.prod * dd)).map fun q =>
              a.data.getD ((q % dd) * ds.prod + q / dd) default) = a.data
          rw [hp0, Nat.zero_mul]
          have hnil : a.data = [] := by
            apply List.eq_nil_of_length_eq_zero
            rw [hinv, hs, List.prod_cons, hp0, Nat.mul_zero]
          rw [hnil]
          rfl
      · rw [if_neg he]
        apply arr_eq_of_fields
        · show (ds ++ [dd]).rotate ((ds ++ [dd]).length - 1) = a.shape
          rw [hlr, rotate_back, hs]
        · show ((List.range ((ds ++ [dd]).getLastD 0 * (ds ++ [dd]).dropLast.prod)).map _) = a.data
          rw [List.getLastD_concat, List.dropLast_concat]
          rcases Nat.eq_zero_or_pos ds.prod with hp0 | hppos
          · rw [hp0, Nat.mul_zero]
            have hnil : a.data = [] := by
              apply List.eq_nil_of_length_eq_zero
              rw [hinv, hs, List.prod_cons, hp0, Nat.mul_zero]
            rw [hnil]
            rfl
          · apply list_ext_getD
            · rw [List.length_map, List.length_range, hinv, hs, List.prod_cons]
            · intro q hq
              rw [List.length_map, List.length_range] at hq
              rw [getD_range_map _ _ _ hq]
              have hqd : q / ds.prod < dd := Nat.div_lt_iff_lt_mul hppos |>.mpr hq
              have hqm : q % ds.prod < ds.prod := Nat.mod_lt _ hppos
              have hv : (q % ds.prod) * dd + q / ds.prod < ds.prod * dd := by
                calc (q % ds.prod) * dd + q / ds.prod
                    < (q % ds.prod) * dd + dd := Nat.add_lt_add_left hqd _
                  _ = (q % ds.prod + 1) * dd := (Nat.succ_mul _ _).symm
                  _ ≤ ds.prod * dd := Nat.mul_le_mul_right _ (Nat.succ_le_of_lt hqm)
              rw [getD_range_map _ _ _ hv]
              have hvm : ((q % ds.prod) * dd + q / ds.prod) % dd = q / ds.prod := by
                rw [Nat.add_comm, Nat.add_mul_mod_self_right]
                exact Nat.mod_eq_of_lt hqd
              have hvd : ((q % ds.prod) * dd + q / ds.prod) / dd = q % ds.prod := by
                rw [Nat.add_comm, Nat.add_mul_div_right _ _ (Nat.pos_of_ne_zero hd0),
                  Nat.div_eq_of_lt hqd, Nat.zero_add]
              rw [hvm, hvd]
              have hback : (q / ds.prod) * ds.prod + q % ds.prod = q := by
                rw [Nat.mul_comm]
                exact Nat.div_add_mod q ds.prod
              rw [hback]

/-- Claim C7: for every array value (satisfying the representation
invariant that the data length is the product of the shape), applying
`reverse` twice returns it unchanged, applying `transpose` `rank` times
returns it unchanged, and `inv_transpose` after `transpose` returns it
unchanged — equal shape and data in all three cases. -/
theorem reverse_transpose_identities [Inhabited T] (a : Arr T)
    (hinv : a.data.length = a.shape.prod) :
    a.reverse.reverse = a ∧
    Arr.transpose^[a.rank] a = a ∧
    a.transpose.invTranspose = a :=
  ⟨reverse_reverse a hinv, transpose_pow_rank a hinv, transpose_invTranspose a hinv⟩

/-- Claim C7 witness: the three identities instantiated at the concrete
2×3 array `[[0,1,2],[3,4,5]]`. -/
theorem reverse_transpose_identities_witness :
    (Arr.mk [2, 3] [0, 1, 2, 3, 4, 5] : Arr Nat).data.length =
      (Arr.mk [2, 3] [0, 1, 2, 3, 4, 5] : Arr Nat).shape.prod ∧
    ((Arr.mk [2, 3] [0, 1, 2, 3, 4, 5] : Arr Nat).reverse.reverse =
        Arr.mk [2, 3] [0, 1, 2, 3, 4, 5] ∧
      Arr.transpose^[(Arr.mk [2, 3] [0, 1, 2, 3, 4, 5] : Arr Nat).rank]
          (Arr.mk [2, 3] [0, 1, 2, 3, 4, 5]) = Arr.mk [2, 3] [0, 1, 2, 3, 4, 5] ∧
      (Arr.mk [2, 3] [0, 1, 2, 3, 4, 5] : Arr Nat).transpose.invTranspose =
        Arr.mk [2, 3] [0, 1, 2, 3, 4, 5]) :=
  ⟨rfl, reverse_transpose_identities _ rfl⟩

theorem bitsLenGo_lt : ∀ (fuel m : Nat), m ≤ fuel → m < 2 ^ bitsLenGo fuel m := by
  intro fuel
  induction fuel with
  | zero =>
    intro m hm
    obtain rfl : m = 0 := Nat.le_zero.mp hm
    simp [bitsLenGo]
  | succ fuel ih =>
    intro m hm
    by_cases h0 : m = 0
    · subst h0
      simp [bitsLenGo]
    · rw [bitsLenGo, if_neg h0]
      have ihh := ih (m / 2) (by omega)
      rw [pow_succ]
      omega

theorem bitsLenGo_le : ∀ (fuel m k : Nat), m < 2 ^ k → bitsLenGo fuel m ≤ k := by
  intro fuel
  induction fuel with
  | zero =>
    intro m k _
    exact Nat.zero_le k
  | succ fuel ih =>
    intro m k hk
    by_cases h0 : m = 0
    · subst h0
      simp [bitsLenGo]
    · rw [bitsLenGo, if_neg h0]
      cases k with
      | zero => rw [pow_zero] at hk; omega
      | succ k =>
        have hdiv : m / 2 < 2 ^ k := by
          rw [pow_succ] at hk
          omega
        exact Nat.succ_le_succ (ih (m / 2) k hdiv)

theorem bitsLen_eq_clog (m : Nat) : bitsLen m = Nat.clog 2 (m + 1) := by
  apply Nat.le_antisymm
  · apply bitsLenGo_le
    have h1 : m + 1 ≤ 2 ^ Nat.clog 2 (m + 1) := (Nat.le_pow_iff_clog_le one_lt_two).mpr le_rfl
    omega
  · rw [← Nat.le_pow_iff_clog_le one_lt_two]
    have h2 := bitsLenGo_lt m m le_rfl
    rw [bitsLen]
    omega

theorem chunksExactGo_flatMap {α β : Type} (f : α → List β) (k : Nat) (hk : k ≠ 0)
    (hf : ∀ x, (f x).length = k) :
    ∀ (l : List α) (fuel : Nat), (l.flatMap f).length ≤ fuel →
      chunksExactGo k fuel (l.flatMap f) = l.map f := by
  intro l
  induction l with
  | nil =>
    intro fuel _
    rw [List.flatMap_nil]
    cases fuel with
    | zero => rfl
    | succ fl =>
      rw [chunksExactGo, if_pos (Or.inr (by simpa using Nat.pos_of_ne_zero hk))]
      rfl
  | cons x l ih =>
    intro fuel hfuel
    rw [List.flatMap_cons] at hfuel ⊢
    have hlen : (f x ++ l.flatMap f).length = k + (l.flatMap f).length := by
      rw [List.length_append, hf]
    cases fuel with
    | zero => exact absurd hfuel (by rw [hlen]; omega)
    | succ fl =>
      rw [chunksExactGo, if_neg (by rw [not_or, hlen]; exact ⟨hk, by omega⟩)]
      rw [List.take_left' (hf x), List.drop_left' (hf x)]
      rw [ih fl (by rw [hlen] at hfuel; omega)]
      rfl

theorem chunksExact_flatMap {α β : Type} (f : α → List β) (k : Nat) (hk : k ≠ 0)
    (hf : ∀ x, (f x).length = k) (l : List α) :
    chunksExact k (l.flatMap f) = l.map f :=
  chunksExactGo_flatMap f k hk hf l _ le_rfl

theorem decode_foldl_testBit :
    ∀ (bs : List Bool) (s acc : Nat), s + bs.length ≤ 128 → ∀ j,
      (List.foldl (fun n p => if p.2 then n ||| (1 <<< (p.1 % 128)) else n) acc
          (List.enumFrom s bs)).testBit j =
        (acc.testBit j || (decide (s ≤ j) && bs.getD (j - s) false)) := by
  intro bs
  induction bs with
  | nil =>
    intro s acc _ j
    simp [List.enumFrom]
  | cons b bs ih =>
    intro s acc hs j
    rw [show List.enumFrom s (b :: bs) = (s, b) :: List.enumFrom (s + 1) bs from rfl]
    rw [List.foldl_cons]
    rw [ih (s + 1) _ (by simp only [List.length_cons] at hs; omega) j]
    have hsmod : s % 128 = s :=
      Nat.mod_eq_of_lt (by simp only [List.length_cons] at hs; omega)
    cases b with
    | false =>
      show (acc.testBit j || _) = _
      by_cases hj : j = s
      · subst hj
        simp
      · by_cases hj2 : s + 1 ≤ j
        · have hd : j - s = (j - (s + 1)) + 1 := by omega
          simp [hd, List.getD_cons_succ, hj2, show s ≤ j from by omega]
        · simp [hj2, show ¬ s ≤ j from by omega]
    | true =>
      show ((acc ||| 1 <<< (s % 128)).testBit j || _) = _
      rw [hsmod, Nat.one_shiftLeft, Nat.testBit_or, Nat.testBit_two_pow]
      by_cases hj : j = s
      · subst hj
        simp
      · by_cases hj2 : s + 1 ≤ j
        · have hd : j - s = (j - (s + 1)) + 1 := by omega
          simp [hd, List.getD_cons_succ, hj2, show s ≤ j from by omega,
            show s ≠ j from fun h => hj h.symm, Bool.or_assoc]
        · simp [hj2, show ¬ s ≤ j from by omega, show s ≠ j from fun h => hj h.symm]

theorem decodeBits_testBit (bs : List Bool) (hlen : bs.length ≤ 128) (j : Nat) :
    (decodeBits bs).testBit j = bs.getD j false := by
  rw [decodeBits, show bs.enum = List.enumFrom 0 bs from rfl]
  rw [decode_foldl_testBit bs 0 0 (by omega) j]
  simp [Nat.zero_testBit]

theorem decode_encode (L n : Nat) (hL : L ≤ 128) (hn : n < 2 ^ L) :
    decodeBits ((List.range L).map fun i => n.testBit i) = n := by
  apply Nat.eq_of_testBit_eq
  intro j
  rw [decodeBits_testBit _ (by rw [List.length_map, List.length_range]; exact hL) j]
  by_cases hj : j < L
  · rw [List.getD_eq_getElem _ _ (by simpa using hj)]
    simp
  · rw [List.getD_eq_default _ _ (by simpa using Nat.not_lt.mp hj)]
    exact (Nat.testBit_lt_two_pow
      (lt_of_lt_of_le hn (Nat.pow_le_pow_right (by omega) (by omega)))).symm

theorem and_shift_ne_zero (n i : Nat) : (n &&& (1 <<< i) != 0) = n.testBit i := by
  rw [Nat.one_shiftLeft, Nat.and_two_pow]
  cases h : n.testBit i <;> simp [h]

theorem le_foldr_max : ∀ (l : List Nat), ∀ x ∈ l, x ≤ l.foldr max 0 := by
  intro l
  induction l with
  | nil => intro x hx; simp at hx
  | cons y ys ih =>
    intro x hx
    rw [List.foldr_cons]
    rcases List.mem_cons.mp hx with rfl | hx2
    · exact Nat.le_max_left _ _
    · exact Nat.le_trans (ih x hx2) (Nat.le_max_right _ _)

theorem foldr_max_mem : ∀ (l : List Nat), l.foldr max 0 = 0 ∨ l.foldr max 0 ∈ l := by
  intro l
  induction l with
  | nil => exact Or.inl rfl
  | cons y ys ih =>
    rw [List.foldr_cons]
    rcases ih with h0 | hm
    · rw [h0, Nat.max_zero]
      exact Or.inr (List.mem_cons_self _ _)
    · rcases Nat.le_total y (ys.foldr max 0) with hle | hle
      · rw [Nat.max_eq_right hle]
        exact Or.inr (List.mem_cons_of_mem _ hm)
      · rw [Nat.max_eq_left hle]
        exact Or.inr (List.mem_cons_self _ _)

theorem foldl_max_eq : ∀ (as : List Nat) (x : Nat), as.foldl max x = max x (as.foldr max 0) := by
  intro as
  induction as with
  | nil => intro x; simp
  | cons y ys ih =>
    intro x
    rw [List.foldl_cons, ih (max x y), List.foldr_cons, Nat.max_assoc]

theorem ratFract_natCast (m : Nat) : ratFract ((m : Nat) : Rat) = 0 := by
  rw [ratFract, ratTrunc, if_neg (not_lt.mpr (by positivity))]
  rw [show ((m : Rat).floor) = (m : Int) from rfl]
  push_cast
  ring

theorem ratToU128_natCast (m : Nat) (h : m < 2 ^ 128) : ratToU128 ((m : Nat) : Rat) = m := by
  rw [ratToU128, ratTrunc, if_neg (not_lt.mpr (by positivity))]
  rw [show ((m : Rat).floor) = (m : Int) from rfl]
  rw [Int.toNat_natCast]
  omega

/-- Claim C4 (amended): for an array of natural numbers all below `2^128`,
`bits` succeeds and appends exactly `⌈log₂(max+1)⌉` to the shape; when the
maximum element is non-zero, `inverse_bits` of the result returns the
original array (same shape and data).  The all-zero case is excluded: it
is refuted separately, since a zero bit dimension makes `inverse_bits`
rewrite the leading shape dimension to `0`. -/
theorem bits_shape_and_roundtrip (a : Arr Rat) (ms : List Nat)
    (hdata : a.data = ms.map fun m => ((m : Nat) : Rat))
    (hbound : ∀ m ∈ ms, m < 2 ^ 128) :
    (∃ e, Arr.bits a = .ok e ∧
      e.shape = a.shape ++ [Nat.clog 2 (ms.foldr max 0 + 1)]) ∧
    (ms.foldr max 0 ≠ 0 → (Arr.bits a).bind Arr.inverseBits = .ok a) := by
  have hall : a.data.all (fun q => ratFract q == 0) = true := by
    rw [List.all_eq_true]
    intro q hq
    rw [hdata] at hq
    obtain ⟨m, _, rfl⟩ := List.mem_map.mp hq
    rw [ratFract_natCast]
    exact beq_self_eq_true 0
  have hnats : a.data.map ratToU128 = ms := by
    rw [hdata, List.map_map]
    exact (List.map_congr_left
      (fun m hm => ratToU128_natCast m (hbound m hm))).trans (List.map_id ms)
  cases ms with
  | nil =>
    have hbits : Arr.bits a = .ok ⟨a.shape ++ [0], []⟩ := by
      rw [Arr.bits, if_pos hall, hnats]
      rfl
    refine ⟨⟨⟨a.shape ++ [0], []⟩, hbits, ?_⟩, ?_⟩
    · show a.shape ++ [0] = a.shape ++ [Nat.clog 2 (List.foldr max 0 [] + 1)]
      simp [Nat.clog_one_right]
    · intro hM
      exact absurd rfl hM
  | cons x xs =>
    have hfoldl : xs.foldl max x = (x :: xs).foldr max 0 := by
      rw [foldl_max_eq xs x, List.foldr_cons]
    have hbits : Arr.bits a = .ok ⟨a.shape ++ [bitsLen ((x :: xs).foldr max 0)],
        (x :: xs).flatMap fun n => (List.range (bitsLen ((x :: xs).foldr max 0))).map
          fun i => if n &&& (1 <<< i) != 0 then 1 else 0⟩ := by
      rw [Arr.bits, if_pos hall, hnats]
      show (Except.ok ⟨a.shape ++ [bitsLen (xs.foldl max x)],
          (x :: xs).flatMap fun n => (List.range (bitsLen (xs.foldl max x))).map
            fun i => if n &&& (1 <<< i) != 0 then 1 else 0⟩ : Except UErr (Arr Nat)) =
        Except.ok ⟨a.shape ++ [bitsLen ((x :: xs).foldr max 0)],
          (x :: xs).flatMap fun n =>
            (List.range (bitsLen ((x :: xs).foldr max 0))).map
              fun i => if n &&& (1 <<< i) != 0 then 1 else 0⟩
      rw [hfoldl]
    refine ⟨⟨_, hbits, ?_⟩, ?_⟩
    · show a.shape ++ [bitsLen ((x :: xs).foldr max 0)] =
        a.shape ++ [Nat.clog 2 ((x :: xs).foldr max 0 + 1)]
      rw [bitsLen_eq_clog]
    · intro hM
      have hMlt : (x :: xs).foldr max 0 < 2 ^ 128 := by
        rcases foldr_max_mem (x :: xs) with h0 | hm
        · exact absurd h0 hM
        · exact hbound _ hm
      have hL128 : bitsLen ((x :: xs).foldr max 0) ≤ 128 :=
        bitsLenGo_le _ _ 128 hMlt
      have hMlt2 : (x :: xs).foldr max 0 < 2 ^ bitsLen ((x :: xs).foldr max 0) :=
        bitsLenGo_lt _ _ le_rfl
      have hLpos : bitsLen ((x :: xs).foldr max 0) ≠ 0 := by
        intro hh
        rw [hh, pow_zero] at hMlt2
        omega
      rw [hbits]
      show Arr.inverseBits ⟨a.shape ++ [bitsLen ((x :: xs).foldr max 0)],
        (x :: xs).flatMap fun n => (List.range (bitsLen ((x :: xs).foldr max 0))).map
          fun i => if n &&& (1 <<< i) != 0 then 1 else 0⟩ = .ok a
      have hall2 : ((x :: xs).flatMap fun n =>
          (List.range (bitsLen ((x :: xs).foldr max 0))).map
            fun i => if n &&& (1 <<< i) != 0 then 1 else 0).all (fun b => b ≤ 1) = true := by
        rw [List.all_eq_true]
        intro q hq
        rw [List.mem_flatMap] at hq
        obtain ⟨n, _, hq2⟩ := hq
        obtain ⟨i, _, rfl⟩ := List.mem_map.mp hq2
        split <;> decide
      have hbools : ((x :: xs).flatMap fun n =>
          (List.range (bitsLen ((x :: xs).foldr max 0))).map
            fun i => if n &&& (1 <<< i) != 0 then 1 else 0).map (fun b => b != 0) =
          (x :: xs).flatMap fun n =>
            (List.range (bitsLen ((x :: xs).foldr max 0))).map fun i => n.testBit i := by
        rw [List.map_flatMap]
        refine congrArg _ (funext fun n => ?_)
        rw [List.map_map]
        apply List.map_congr_left
        intro i _
        show ((if n &&& (1 <<< i) != 0 then (1 : Nat) else 0) != 0) = n.testBit i
        rw [← and_shift_ne_zero n i]
        cases h : (n &&& (1 <<< i) != 0) <;> simp [h]
      have hchunks : chunksExact (bitsLen ((x :: xs).foldr max 0))
          ((x :: xs).flatMap fun n =>
            (List.range (bitsLen ((x :: xs).foldr max 0))).map fun i => n.testBit i) =
          (x :: xs).map fun n =>
            (List.range (bitsLen ((x :: xs).foldr max 0))).map fun i => n.testBit i :=
        chunksExact_flatMap _ _ hLpos
          (fun n => by rw [List.length_map, List.length_range]) (x :: xs)
      have hdecode : ((x :: xs).map fun n =>
          (List.range (bitsLen ((x :: xs).foldr max 0))).map fun i => n.testBit i).map
            (fun bs => ((decodeBits bs : Nat) : Rat)) =
          (x :: xs).map fun m => ((m : Nat) : Rat) := by
        rw [List.map_map]
        apply List.map_congr_left
        intro n hn
        show ((decodeBits ((List.range (bitsLen ((x :: xs).foldr max 0))).map
          fun i => n.testBit i) : Nat) : Rat) = ((n : Nat) : Rat)
        rw [decode_encode _ n hL128
          (lt_of_le_of_lt (le_foldr_max (x :: xs) n hn) hMlt2)]
      rw [Arr.inverseBits]
      rw [if_pos hall2]
      dsimp only
      rw [hbools]
      have hne : ((x :: xs).flatMap fun n =>
          (List.range (bitsLen ((x :: xs).foldr max 0))).map
            fun i => n.testBit i) ≠ [] := by
        rw [List.flatMap_cons]
        intro hnil
        have hl := congrArg List.length hnil
        rw [List.length_append, List.length_map, List.length_range] at hl
        simp only [List.length_nil] at hl
        omega
      rw [if_neg (by rw [List.isEmpty_iff]; exact hne)]
      rw [if_neg (by
        show ¬ (Arr.mk (a.shape ++ [bitsLen ((x :: xs).foldr max 0)])
          ((x :: xs).flatMap fun n =>
            (List.range (bitsLen ((x :: xs).foldr max 0))).map
              fun i => if n &&& (1 <<< i) != 0 then 1 else 0) : Arr Nat).rank = 0
        rw [Arr.rank]
        show ¬ (a.shape ++ [bitsLen ((x :: xs).foldr max 0)]).length = 0
        rw [List.length_append]
        simp)]
      rw [List.getLastD_concat, List.dropLast_concat]
      rw [hchunks, hdecode, ← hdata]

/-- Claim C4 witness: the shape and roundtrip conclusions instantiated at
the list `[2, 1]` (maximum 2, two bits per element). -/
theorem bits_shape_and_roundtrip_witness :
    ((⟨[2], [(2 : Rat), 1]⟩ : Arr Rat).data = [2, 1].map fun m => ((m : Nat) : Rat)) ∧
    (∀ m ∈ ([2, 1] : List Nat), m < 2 ^ 128) ∧
    ((∃ e, Arr.bits ⟨[2], [(2 : Rat), 1]⟩ = .ok e ∧
        e.shape = [2] ++ [Nat.clog 2 (([2, 1] : List Nat).foldr max 0 + 1)]) ∧
      (([2, 1] : List Nat).foldr max 0 ≠ 0 →
        (Arr.bits ⟨[2], [(2 : Rat), 1]⟩).bind Arr.inverseBits =
          .ok ⟨[2], [(2 : Rat), 1]⟩)) :=
  ⟨rfl, by decide,
    bits_shape_and_roundtrip ⟨[2], [(2 : Rat), 1]⟩ [2, 1] rfl (by decide)⟩

theorem ratTrunc_natCast (n : Nat) : ratTrunc ((n : Nat) : Rat) = (n : Int) := by
  rw [ratTrunc, if_neg (not_lt.mpr (by positivity))]
  rfl

theorem popN_drop : ∀ (k : Nat) (st : List Check.BasicValue) (fs : List Check.Function)
    (bs : List Nat) (mh : Nat), k ≤ st.length →
    Check.VEnv.popN k ⟨st, fs, bs, mh⟩ = .ok ⟨st.drop k, fs, bs, mh⟩ := by
  intro k
  induction k with
  | zero =>
    intro st fs bs mh _
    rw [Check.VEnv.popN, List.drop_zero]
  | succ k ih =>
    intro st fs bs mh hk
    cases st with
    | nil => simp at hk
    | cons v rest =>
      rw [Check.VEnv.popN]
      show Check.VEnv.popN k ⟨rest, fs, bs, mh⟩ = .ok ⟨(v :: rest).drop (k + 1), fs, bs, mh⟩
      rw [List.drop_succ_cons]
      exact ih rest fs bs mh (by simpa using hk)

/-- Claim C3 (amended): for a repeat whose count operand is the known
natural `n` and whose function `f` carries no break, the checker reports
exactly the claimed per-branch formula for `n ≥ 1` (applying `f`'s
signature once when args = outputs, `(args, n·(outputs−args)+args)` when
args < outputs, `((n−1)·(args−outputs)+args, outputs)` when
args > outputs), while for `n = 0` it leaves the stack untouched and the
contribution is `(0, 0)`; the argument count must fit the virtual start
height of 16. -/
theorem repeat_known_nat_signature (n : Nat) (f : Check.Function)
    (hbreak : Check.funcContainsBreak f = false)
    (hargs : (Check.repeatSig n f.sig).args ≤ 16) :
    Check.instrsSignature [Check.pushNat n, .PushFunc f, .Prim .Repeat] =
      .ok (Check.repeatSig n f.sig) := by
  have h2 : Check.step (.Prim .Repeat)
      ⟨.num ((n : Nat) : Rat) :: List.replicate 16 .unknown, [f], [], 16⟩ =
      if Check.funcContainsBreak f then .error ("break present")
      else
        if ratFract ((n : Nat) : Rat) = 0 ∧ 0 ≤ ((n : Nat) : Rat) then
          if (ratTrunc ((n : Nat) : Rat)).toNat > 0 then
            match Check.VEnv.popN
                (match compare f.sig.args f.sig.outputs with
                  | .eq => (f.sig.args, f.sig.outputs)
                  | .lt => (f.sig.args,
                      (ratTrunc ((n : Nat) : Rat)).toNat *
                        (f.sig.outputs - f.sig.args) + f.sig.args)
                  | .gt => (((ratTrunc ((n : Nat) : Rat)).toNat - 1) *
                      (f.sig.args - f.sig.outputs) + f.sig.args, f.sig.outputs)).1
                ⟨List.replicate 16 .unknown, [], [], 16⟩ with
            | .error s => .error s
            | .ok e₃ =>
              .ok (e₃.setMinHeight.pushOthers
                (match compare f.sig.args f.sig.outputs with
                  | .eq => (f.sig.args, f.sig.outputs)
                  | .lt => (f.sig.args,
                      (ratTrunc ((n : Nat) : Rat)).toNat *
                        (f.sig.outputs - f.sig.args) + f.sig.args)
                  | .gt => (((ratTrunc ((n : Nat) : Rat)).toNat - 1) *
                      (f.sig.args - f.sig.outputs) + f.sig.args, f.sig.outputs)).2)
          else .ok ⟨List.replicate 16 .unknown, [], [], 16⟩
        else .error ("repeat without a natural number") := rfl
  rw [if_neg (by rw [hbreak]; exact Bool.false_ne_true),
    if_pos ⟨ratFract_natCast n, by positivity⟩,
    ratTrunc_natCast, Int.toNat_natCast] at h2
  show Check.instrsSignatureVirtual [Check.pushNat n, .PushFunc f, .Prim .Repeat] =
    .ok (Check.repeatSig n f.sig)
  rcases Nat.eq_zero_or_pos n with rfl | hn
  · rw [if_neg (by decide)] at h2
    have hrun : Check.runInstrs [Check.pushNat 0, .PushFunc f, .Prim .Repeat]
        Check.initEnv = .ok ⟨List.replicate 16 .unknown, [], [], 16⟩ := by
      show ((match Check.step (.Prim .Repeat)
          (⟨.num ((0 : Nat) : Rat) :: List.replicate 16 .unknown, [f], [], 16⟩ :
            Check.VEnv) with
        | Except.error s => Except.error s
        | Except.ok e3 => Check.runInstrs [] e3) : Except String Check.VEnv) = _
      rw [h2]
      rfl
    rw [Check.instrsSignatureVirtual, hrun]
    rfl
  · rw [if_pos hn] at h2
    rw [Check.repeatSig, if_neg (by omega)] at hargs ⊢
    cases hcmp : compare f.sig.args f.sig.outputs with
    | eq =>
      rw [hcmp] at h2 hargs
      dsimp only at h2 hargs
      rw [popN_drop f.sig.args _ _ _ _ (by rw [List.length_replicate]; exact hargs)] at h2
      have hrun : Check.runInstrs [Check.pushNat n, .PushFunc f, .Prim .Repeat]
          Check.initEnv =
          .ok ((Check.VEnv.setMinHeight
            ⟨(List.replicate 16 .unknown).drop f.sig.args, [], [], 16⟩).pushOthers
              f.sig.outputs) := by
        show ((match Check.step (.Prim .Repeat)
            (⟨.num ((n : Nat) : Rat) :: List.replicate 16 .unknown, [f], [], 16⟩ :
              Check.VEnv) with
          | Except.error s => Except.error s
          | Except.ok e3 => Check.runInstrs [] e3) : Except String Check.VEnv) = _
        rw [h2]
        rfl
      rw [Check.instrsSignatureVirtual, hrun]
      show Except.ok
        (⟨16 - min 16 ((List.replicate 16 Check.BasicValue.unknown).drop f.sig.args).length,
          (List.replicate f.sig.outputs Check.BasicValue.other ++
            (List.replicate 16 Check.BasicValue.unknown).drop f.sig.args).length -
          min 16 ((List.replicate 16 Check.BasicValue.unknown).drop f.sig.args).length⟩ :
          Check.Signature) = Except.ok f.sig
      rw [List.length_append, List.length_drop, List.length_replicate, List.length_replicate]
      have ha : 16 - min 16 (16 - f.sig.args) = f.sig.args := by omega
      have hb : f.sig.outputs + (16 - f.sig.args) - min 16 (16 - f.sig.args) =
          f.sig.outputs := by omega
      rw [ha, hb]
    | lt =>
      rw [hcmp] at h2 hargs
      dsimp only at h2 hargs
      rw [popN_drop f.sig.args _ _ _ _ (by rw [List.length_replicate]; exact hargs)] at h2
      have hrun : Check.runInstrs [Check.pushNat n, .PushFunc f, .Prim .Repeat]
          Check.initEnv =
          .ok ((Check.VEnv.setMinHeight
            ⟨(List.replicate 16 .unknown).drop f.sig.args, [], [], 16⟩).pushOthers
              (n * (f.sig.outputs - f.sig.args) + f.sig.args)) := by
        show ((match Check.step (.Prim .Repeat)
            (⟨.num ((n : Nat) : Rat) :: List.replicate 16 .unknown, [f], [], 16⟩ :
              Check.VEnv) with
          | Except.error s => Except.error s
          | Except.ok e3 => Check.runInstrs [] e3) : Except String Check.VEnv) = _
        rw [h2]
        rfl
      rw [Check.instrsSignatureVirtual, hrun]
      show Except.ok
        (⟨16 - min 16 ((List.replicate 16 Check.BasicValue.unknown).drop f.sig.args).length,
          (List.replicate (n * (f.sig.outputs - f.sig.args) + f.sig.args)
              Check.BasicValue.other ++
            (List.replicate 16 Check.BasicValue.unknown).drop f.sig.args).length -
          min 16 ((List.replicate 16 Check.BasicValue.unknown).drop f.sig.args).length⟩ :
          Check.Signature) =
        Except.ok ⟨f.sig.args, n * (f.sig.outputs - f.sig.args) + f.sig.args⟩
      rw [List.length_append, List.length_drop, List.length_replicate, List.length_replicate]
      have ha : 16 - min 16 (16 - f.sig.args) = f.sig.args := by omega
      have hb : n * (f.sig.outputs - f.sig.args) + f.sig.args + (16 - f.sig.args) -
          min 16 (16 - f.sig.args) = n * (f.sig.outputs - f.sig.args) + f.sig.args := by
        omega
      rw [ha, hb]
    | gt =>
      rw [hcmp] at h2 hargs
      dsimp only at h2 hargs
      rw [popN_drop ((n - 1) * (f.sig.args - f.sig.outputs) + f.sig.args) _ _ _ _
        (by rw [List.length_replicate]; exact hargs)] at h2
      have hrun : Check.runInstrs [Check.pushNat n, .PushFunc f, .Prim .Repeat]
          Check.initEnv =
          .ok ((Check.VEnv.setMinHeight
            ⟨(List.replicate 16 .unknown).drop
              ((n - 1) * (f.sig.args - f.sig.outputs) + f.sig.args), [], [], 16⟩).pushOthers
              f.sig.outputs) := by
        show ((match Check.step (.Prim .Repeat)
            (⟨.num ((n : Nat) : Rat) :: List.replicate 16 .unknown, [f], [], 16⟩ :
              Check.VEnv) with
          | Except.error s => Except.error s
          | Except.ok e3 => Check.runInstrs [] e3) : Except String Check.VEnv) = _
        rw [h2]
        rfl
      rw [Check.instrsSignatureVirtual, hrun]
      show Except.ok
        (⟨16 - min 16 ((List.replicate 16 Check.BasicValue.unknown).drop
            ((n - 1) * (f.sig.args - f.sig.outputs) + f.sig.args)).length,
          (List.replicate f.sig.outputs Check.BasicValue.other ++
            (List.replicate 16 Check.BasicValue.unknown).drop
              ((n - 1) * (f.sig.args - f.sig.outputs) + f.sig.args)).length -
          min 16 ((List.replicate 16 Check.BasicValue.unknown).drop
            ((n - 1) * (f.sig.args - f.sig.outputs) + f.sig.args)).length⟩ :
          Check.Signature) =
        Except.ok ⟨(n - 1) * (f.sig.args - f.sig.outputs) + f.sig.args, f.sig.outputs⟩
      rw [List.length_append, List.length_drop, List.length_replicate, List.length_replicate]
      have ha : 16 - min 16 (16 - ((n - 1) * (f.sig.args - f.sig.outputs) + f.sig.args)) =
          (n - 1) * (f.sig.args - f.sig.outputs) + f.sig.args := by omega
      have hb : f.sig.outputs +
          (16 - ((n - 1) * (f.sig.args - f.sig.outputs) + f.sig.args)) -
          min 16 (16 - ((n - 1) * (f.sig.args - f.sig.outputs) + f.sig.args)) =
          f.sig.outputs := by omega
      rw [ha, hb]

/-- Claim C3 witness: repeat count 3 of the signature-(1,2) function
reports `(1, 3·(2−1)+1) = (1, 4)`. -/
theorem repeat_known_nat_signature_witness :
    Check.funcContainsBreak Check.fn12 = false ∧
    (Check.repeatSig 3 Check.fn12.sig).args ≤ 16 ∧
    Check.instrsSignature [Check.pushNat 3, .PushFunc Check.fn12, .Prim .Repeat] =
      .ok (Check.repeatSig 3 Check.fn12.sig) :=
  ⟨rfl, by decide, repeat_known_nat_signature 3 Check.fn12 rfl (by decide)⟩

namespace Check

theorem pop_ok : ∀ {e : VEnv} {v : BasicValue} {e' : VEnv}, e.pop = .ok (v, e') →
    e.stack = v :: e'.stack ∧ e' = ⟨e'.stack, e.functionStack, e.arrayStack, e.minHeight⟩ := by
  intro e v e' h
  obtain ⟨st, fs, bs, mh⟩ := e
  cases st with
  | nil => exact absurd h (by rw [VEnv.pop]; exact fun hh => Except.noConfusion hh)
  | cons w rest =>
    rw [VEnv.pop] at h
    injection h with h
    injection h with h1 h2
    subst h1
    subst h2
    exact ⟨rfl, rfl⟩

theorem popFunc_ok : ∀ {e : VEnv} {f : Function} {e' : VEnv}, e.popFunc = .ok (f, e') →
    e.functionStack = f :: e'.functionStack ∧
      e' = ⟨e.stack, e'.functionStack, e.arrayStack, e.minHeight⟩ := by
  intro e f e' h
  obtain ⟨st, fs, bs, mh⟩ := e
  cases fs with
  | nil => exact absurd h (by rw [VEnv.popFunc]; exact fun hh => Except.noConfusion hh)
  | cons g rest =>
    rw [VEnv.popFunc] at h
    injection h with h
    injection h with h1 h2
    subst h1
    subst h2
    exact ⟨rfl, rfl⟩

theorem popN_len : ∀ (k : Nat) (e : VEnv) (e' : VEnv), VEnv.popN k e = .ok e' →
    k ≤ e.stack.length ∧ e' = ⟨e.stack.drop k, e.functionStack, e.arrayStack, e.minHeight⟩ := by
  intro k
  induction k with
  | zero =>
    intro e e' h
    obtain ⟨st, fs, bs, mh⟩ := e
    rw [VEnv.popN] at h
    injection h with h
    subst h
    exact ⟨Nat.zero_le _, by rw [List.drop_zero]⟩
  | succ k ih =>
    intro e e' h
    obtain ⟨st, fs, bs, mh⟩ := e
    cases st with
    | nil =>
      rw [VEnv.popN] at h
      exact absurd h (by exact fun hh => Except.noConfusion hh)
    | cons w rest =>
      rw [VEnv.popN] at h
      have h2 : VEnv.popN k ⟨rest, fs, bs, mh⟩ = .ok e' := h
      obtain ⟨hk, he⟩ := ih _ _ h2
      refine ⟨by simpa using Nat.succ_le_succ hk, ?_⟩
      rw [he, List.drop_succ_cons]

theorem popFuncsDiscard_ok : ∀ (k : Nat) (e : VEnv) (e' : VEnv),
    Check.step.popFuncsDiscard k e = .ok e' →
    k ≤ e.functionStack.length ∧
      e' = ⟨e.stack, e.functionStack.drop k, e.arrayStack, e.minHeight⟩ := by
  intro k
  induction k with
  | zero =>
    intro e e' h
    obtain ⟨st, fs, bs, mh⟩ := e
    rw [Check.step.popFuncsDiscard] at h
    injection h with h
    subst h
    exact ⟨Nat.zero_le _, by rw [List.drop_zero]⟩
  | succ k ih =>
    intro e e' h
    obtain ⟨st, fs, bs, mh⟩ := e
    cases fs with
    | nil =>
      rw [Check.step.popFuncsDiscard] at h
      exact absurd h (by exact fun hh => Except.noConfusion hh)
    | cons g rest =>
      rw [Check.step.popFuncsDiscard] at h
      have h2 : Check.step.popFuncsDiscard k ⟨st, rest, bs, mh⟩ = .ok e' := h
      obtain ⟨hk, he⟩ := ih _ _ h2
      refine ⟨by simpa using Nat.succ_le_succ hk, ?_⟩
      rw [he, List.drop_succ_cons]

theorem runInstrs_append : ∀ (xs ys : List Instr) (e : VEnv),
    runInstrs (xs ++ ys) e =
      match runInstrs xs e with
      | .error s => .error s
      | .ok e' => runInstrs ys e' := by
  intro xs
  induction xs with
  | nil => intro ys e; rfl
  | cons i rest ih =>
    intro ys e
    rw [List.cons_append]
    show ((match step i e with
      | Except.error s => Except.error s
      | Except.ok e' => runInstrs (rest ++ ys) e') : Except String VEnv) =
      match (match step i e with
        | Except.error s => Except.error s
        | Except.ok e' => runInstrs rest e' : Except String VEnv) with
      | Except.error s => Except.error s
      | Except.ok e' => runInstrs ys e'
    cases hs : step i e with
    | error s => rfl
    | ok e' => exact ih ys e'



theorem InvP_mk {st : List BasicValue} {fs : List Function} {bs : List Nat} {m : Nat} :
    InvP ⟨st, fs, bs, m⟩ ↔ (m ≤ st.length ∧ m ≤ startHeight ∧ ∀ b ∈ bs, m ≤ b) :=
  Iff.rfl

theorem InvP_cons (V : List BasicValue) {st : List BasicValue} {fs : List Function}
    {bs : List Nat} {m : Nat} (fs' : List Function)
    (hI : InvP ⟨st, fs, bs, m⟩) : InvP ⟨V ++ st, fs', bs, m⟩ := by
  rw [InvP_mk] at hI ⊢
  obtain ⟨h1, h2, h3⟩ := hI
  exact ⟨by simp only [List.length_append]; omega, h2, h3⟩

theorem InvP_fs {st : List BasicValue} {fs : List Function} {bs : List Nat} {m : Nat}
    (fs' : List Function) (hI : InvP ⟨st, fs, bs, m⟩) : InvP ⟨st, fs', bs, m⟩ :=
  hI

theorem InvP_setMin {e : VEnv} (hI : InvP e) : InvP e.setMinHeight := by
  obtain ⟨st, fs, bs, m⟩ := e
  rw [InvP_mk] at hI
  obtain ⟨h1, h2, h3⟩ := hI
  refine ⟨by simp only [VEnv.setMinHeight]; omega,
    by simp only [VEnv.setMinHeight]; omega, ?_⟩
  simp only [VEnv.setMinHeight]
  cases bs with
  | nil => intro b hb; simp at hb
  | cons h t =>
    intro b hb
    rcases List.mem_cons.mp hb with rfl | hb2
    · have := h3 h (List.mem_cons_self _ _)
      omega
    · have := h3 b (List.mem_cons_of_mem _ hb2)
      omega

theorem InvP_core (t : Nat) (V : List BasicValue) {st : List BasicValue}
    {fs : List Function} {bs : List Nat} {m : Nat} (fs' : List Function)
    (hI : InvP ⟨st, fs, bs, m⟩) :
    InvP ⟨V ++ ((st.drop t) : List BasicValue), fs',
      capList bs (st.drop t).length,
      min m (st.drop t).length⟩ := by
  rw [InvP_mk] at hI
  rw [InvP_mk]
  obtain ⟨h1, h2, h3⟩ := hI
  refine ⟨by simp only [List.length_append]; omega, by omega, ?_⟩
  cases bs with
  | nil => intro b hb; simp [capList] at hb
  | cons h tl =>
    intro b hb
    rw [capList] at hb
    rcases List.mem_cons.mp hb with rfl | hb2
    · have := h3 h (List.mem_cons_self _ _)
      omega
    · have := h3 b (List.mem_cons_of_mem _ hb2)
      omega

theorem InvP_hao {a o : Nat} {e e' : VEnv} (hI : InvP e)
    (h : VEnv.handleArgsOutputs a o e = .ok e') : InvP e' := by
  obtain ⟨st, fs, bs, m⟩ := e
  rw [VEnv.handleArgsOutputs] at h
  cases hp : VEnv.popN a ⟨st, fs, bs, m⟩ with
  | error s => rw [hp] at h; exact Except.noConfusion h
  | ok e₁ =>
    rw [hp] at h
    injection h with h
    subst h
    obtain ⟨hk, he⟩ := popN_len a _ _ hp
    subst he
    exact InvP_core a (List.replicate o .other) fs hI

theorem InvP_endArr {st : List BasicValue} {fs : List Function} {b : Nat} {tl : List Nat}
    {m : Nat} (v : BasicValue) (fs' : List Function) (hb : b ≤ st.length)
    (hI : InvP ⟨st, fs, b :: tl, m⟩) :
    InvP ⟨v :: st.drop (st.length - b), fs', tl, m⟩ := by
  rw [InvP_mk] at hI ⊢
  obtain ⟨h1, h2, h3⟩ := hI
  have hmb := h3 b (List.mem_cons_self _ _)
  refine ⟨?_, h2, fun x hx => h3 x (List.mem_cons_of_mem _ hx)⟩
  simp only [List.length_cons, List.length_drop]
  omega

theorem InvP_beginArr {st : List BasicValue} {fs : List Function} {bs : List Nat}
    {m : Nat} (hI : InvP ⟨st, fs, bs, m⟩) :
    InvP ⟨st, fs, st.length :: bs, m⟩ := by
  rw [InvP_mk] at hI ⊢
  obtain ⟨h1, h2, h3⟩ := hI
  refine ⟨h1, h2, ?_⟩
  intro b hb
  rcases List.mem_cons.mp hb with rfl | hb2
  · exact h1
  · exact h3 b hb2


theorem InvP_core_of (t : Nat) (V : List BasicValue) {st : List BasicValue}
    {bs : List Nat} {m : Nat} (fs' : List Function)
    (h2 : m ≤ startHeight) (h3 : ∀ b ∈ bs, m ≤ b) :
    InvP ⟨V ++ ((st.drop t) : List BasicValue), fs',
      capList bs (st.drop t).length,
      min m (st.drop t).length⟩ := by
  rw [InvP_mk]
  refine ⟨by simp only [List.length_append]; omega, by omega, ?_⟩
  cases bs with
  | nil => intro b hb; simp [capList] at hb
  | cons h tl =>
    intro b hb
    rw [capList] at hb
    rcases List.mem_cons.mp hb with rfl | hb2
    · have := h3 h (List.mem_cons_self _ _)
      omega
    · have := h3 b (List.mem_cons_of_mem _ hb2)
      omega

theorem InvP_setMin_of {st : List BasicValue} {bs : List Nat} {m : Nat}
    (fs' : List Function) (h2 : m ≤ startHeight) (h3 : ∀ b ∈ bs, m ≤ b) :
    InvP (VEnv.setMinHeight ⟨st, fs', bs, m⟩) := by
  rw [VEnv.setMinHeight]
  refine ⟨by dsimp only; omega, by dsimp only; omega, ?_⟩
  dsimp only
  cases bs with
  | nil => intro b hb; simp at hb
  | cons h tl =>
    intro b hb
    rcases List.mem_cons.mp hb with rfl | hb2
    · have := h3 h (List.mem_cons_self _ _)
      omega
    · have := h3 b (List.mem_cons_of_mem _ hb2)
      omega

theorem InvP_weak {st : List BasicValue} {fs : List Function} {bs : List Nat} {m : Nat}
    (hI : InvP ⟨st, fs, bs, m⟩) : m ≤ startHeight ∧ ∀ b ∈ bs, m ≤ b :=
  ⟨hI.2.1, hI.2.2⟩

theorem InvP_hao_of {a o : Nat} {st : List BasicValue} {fs : List Function}
    {bs : List Nat} {m : Nat} {e' : VEnv}
    (h2 : m ≤ startHeight) (h3 : ∀ b ∈ bs, m ≤ b)
    (h : VEnv.handleArgsOutputs a o ⟨st, fs, bs, m⟩ = .ok e') : InvP e' := by
  rw [VEnv.handleArgsOutputs] at h
  cases hp : VEnv.popN a ⟨st, fs, bs, m⟩ with
  | error s => rw [hp] at h; exact Except.noConfusion h
  | ok e₁ =>
    rw [hp] at h
    injection h with h
    subst h
    obtain ⟨hk, he⟩ := popN_len a _ _ hp
    subst he
    exact InvP_core_of a (List.replicate o .other) fs h2 h3

theorem InvP_cons_any (V : List BasicValue) {e : VEnv} (hI : InvP e) :
    InvP ⟨V ++ e.stack, e.functionStack, e.arrayStack, e.minHeight⟩ := by
  obtain ⟨st, fs, bs, m⟩ := e
  exact InvP_cons V fs hI



theorem pop_ok2 {e : VEnv} {v : BasicValue} {e' : VEnv} (h : e.pop = .ok (v, e')) :
    e.stack = v :: e'.stack ∧ e'.functionStack = e.functionStack ∧
      e'.arrayStack = e.arrayStack ∧ e'.minHeight = e.minHeight := by
  obtain ⟨h1, h2⟩ := pop_ok h
  rw [h2]
  exact ⟨h1, rfl, rfl, rfl⟩

theorem popFunc_ok2 {e : VEnv} {f : Function} {e' : VEnv} (h : e.popFunc = .ok (f, e')) :
    e.functionStack = f :: e'.functionStack ∧ e'.stack = e.stack ∧
      e'.arrayStack = e.arrayStack ∧ e'.minHeight = e.minHeight := by
  obtain ⟨h1, h2⟩ := popFunc_ok h
  rw [h2]
  exact ⟨h1, rfl, rfl, rfl⟩

theorem InvP_hao_any {a o : Nat} {e e' : VEnv} (h2 : e.minHeight ≤ startHeight)
    (h3 : ∀ b ∈ e.arrayStack, e.minHeight ≤ b)
    (h : VEnv.handleArgsOutputs a o e = .ok e') : InvP e' := by
  obtain ⟨st, fs, bs, m⟩ := e
  exact InvP_hao_of h2 h3 h

theorem InvP_step_prim (p : Prim) {st : List BasicValue} {fs : List Function}
    {bs : List Nat} {m : Nat} (e' : VEnv)
    (hns : isSwitchOrRepeat (.Prim p) = false)
    (h : step (.Prim p) ⟨st, fs, bs, m⟩ = .ok e')
    (h2 : m ≤ startHeight) (h3 : ∀ b ∈ bs, m ≤ b)
    (hI : InvP ⟨st, fs, bs, m⟩) : InvP e' := by
  cases p with
  | Reduce =>
    rw [Check.step.eq_def] at h
    cases fs with
    | nil => dsimp only [VEnv.popFunc] at h; exact Except.noConfusion h
    | cons f fs' =>
      dsimp only [VEnv.popFunc] at h
      split at h
      · exact Except.noConfusion h
      · exact InvP_hao_of h2 h3 h
      · exact Except.noConfusion h
      · exact InvP_hao_of h2 h3 h
      · exact Except.noConfusion h
  | Scan =>
    rw [Check.step.eq_def] at h
    cases fs with
    | nil => dsimp only [VEnv.popFunc] at h; exact Except.noConfusion h
    | cons f fs' =>
      dsimp only [VEnv.popFunc] at h
      split at h
      · exact Except.noConfusion h
      · exact InvP_hao_of h2 h3 h
      · exact Except.noConfusion h
      · exact InvP_hao_of h2 h3 h
      · exact Except.noConfusion h
  | Each =>
    rw [Check.step.eq_def] at h
    cases fs with
    | nil => dsimp only [VEnv.popFunc] at h; exact Except.noConfusion h
    | cons f fs' =>
      dsimp only [VEnv.popFunc] at h
      split at h
      · exact Except.noConfusion h
      · exact InvP_hao_of h2 h3 h
  | Rows =>
    rw [Check.step.eq_def] at h
    cases fs with
    | nil => dsimp only [VEnv.popFunc] at h; exact Except.noConfusion h
    | cons f fs' =>
      dsimp only [VEnv.popFunc] at h
      split at h
      · exact Except.noConfusion h
      · exact InvP_hao_of h2 h3 h
  | Distribute =>
    rw [Check.step.eq_def] at h
    cases fs with
    | nil => dsimp only [VEnv.popFunc] at h; exact Except.noConfusion h
    | cons f fs' =>
      dsimp only [VEnv.popFunc] at h
      split at h
      · exact Except.noConfusion h
      · exact InvP_hao_of h2 h3 h
  | Tribute =>
    rw [Check.step.eq_def] at h
    cases fs with
    | nil => dsimp only [VEnv.popFunc] at h; exact Except.noConfusion h
    | cons f fs' =>
      dsimp only [VEnv.popFunc] at h
      split at h
      · exact Except.noConfusion h
      · exact InvP_hao_of h2 h3 h
  | Table =>
    rw [Check.step.eq_def] at h
    cases fs with
    | nil => dsimp only [VEnv.popFunc] at h; exact Except.noConfusion h
    | cons f fs' =>
      dsimp only [VEnv.popFunc] at h
      split at h
      · exact Except.noConfusion h
      · exact InvP_hao_of h2 h3 h
  | Cross =>
    rw [Check.step.eq_def] at h
    cases fs with
    | nil => dsimp only [VEnv.popFunc] at h; exact Except.noConfusion h
    | cons f fs' =>
      dsimp only [VEnv.popFunc] at h
      split at h
      · exact Except.noConfusion h
      · exact InvP_hao_of h2 h3 h
  | Group =>
    rw [Check.step.eq_def] at h
    cases fs with
    | nil => dsimp only [VEnv.popFunc] at h; exact Except.noConfusion h
    | cons f fs' =>
      dsimp only [VEnv.popFunc] at h
      split at h
      · exact InvP_hao_of h2 h3 h
      · exact InvP_hao_of h2 h3 h
      · exact InvP_hao_of h2 h3 h
      · exact Except.noConfusion h
  | Partition =>
    rw [Check.step.eq_def] at h
    cases fs with
    | nil => dsimp only [VEnv.popFunc] at h; exact Except.noConfusion h
    | cons f fs' =>
      dsimp only [VEnv.popFunc] at h
      split at h
      · exact InvP_hao_of h2 h3 h
      · exact InvP_hao_of h2 h3 h
      · exact InvP_hao_of h2 h3 h
      · exact Except.noConfusion h
  | Spawn =>
    rw [Check.step.eq_def] at h
    cases fs with
    | nil => dsimp only [VEnv.popFunc] at h; exact Except.noConfusion h
    | cons f fs' =>
      dsimp only [VEnv.popFunc] at h
      exact InvP_hao_of h2 h3 h
  | Repeat => simp [isSwitchOrRepeat] at hns
  | Bind =>
    rw [Check.step.eq_def] at h
    cases fs with
    | nil => dsimp only [VEnv.popFunc] at h; exact Except.noConfusion h
    | cons f fs' =>
      cases fs' with
      | nil => dsimp only [VEnv.popFunc] at h; exact Except.noConfusion h
      | cons g fs'' =>
        dsimp only [VEnv.popFunc] at h
        cases hp1 : VEnv.popN g.sig.args ⟨st, fs'', bs, m⟩ with
        | error s => rw [hp1] at h; exact Except.noConfusion h
        | ok e₃ =>
          rw [hp1] at h
          obtain ⟨hk1, he1⟩ := popN_len _ _ _ hp1
          subst he1
          have hI4 : InvP ((VEnv.setMinHeight
              ⟨st.drop g.sig.args, fs'', bs, m⟩).pushOthers g.sig.outputs) :=
            InvP_core_of g.sig.args (List.replicate g.sig.outputs .other) fs'' h2 h3
          have h' : VEnv.handleArgsOutputs f.sig.args f.sig.outputs
              ((VEnv.setMinHeight
                ⟨st.drop g.sig.args, fs'', bs, m⟩).pushOthers g.sig.outputs) = .ok e' := h
          exact InvP_hao hI4 h'
  | Both =>
    rw [Check.step.eq_def] at h
    cases fs with
    | nil => dsimp only [VEnv.popFunc] at h; exact Except.noConfusion h
    | cons f fs' =>
      dsimp only [VEnv.popFunc] at h
      exact InvP_hao_of h2 h3 h
  | Fork =>
    rw [Check.step.eq_def] at h
    cases fs with
    | nil => dsimp only [VEnv.popFunc] at h; exact Except.noConfusion h
    | cons f fs' =>
      cases fs' with
      | nil => dsimp only [VEnv.popFunc] at h; exact Except.noConfusion h
      | cons g fs'' =>
        dsimp only [VEnv.popFunc] at h
        exact InvP_hao_of h2 h3 h
  | Bracket =>
    rw [Check.step.eq_def] at h
    cases fs with
    | nil => dsimp only [VEnv.popFunc] at h; exact Except.noConfusion h
    | cons f fs' =>
      cases fs' with
      | nil => dsimp only [VEnv.popFunc] at h; exact Except.noConfusion h
      | cons g fs'' =>
        dsimp only [VEnv.popFunc] at h
        exact InvP_hao_of h2 h3 h
  | If =>
    rw [Check.step.eq_def] at h
    cases fs with
    | nil => dsimp only [VEnv.popFunc] at h; exact Except.noConfusion h
    | cons f fs' =>
      cases fs' with
      | nil => dsimp only [VEnv.popFunc] at h; exact Except.noConfusion h
      | cons g fs'' =>
        dsimp only [VEnv.popFunc] at h
        cases st with
        | nil => dsimp only [VEnv.pop] at h; exact Except.noConfusion h
        | cons v st' =>
          dsimp only [VEnv.pop] at h
          split at h
          · exact InvP_hao_of h2 h3 h
          · split at h
            · exact InvP_hao_of h2 h3 h
            · exact Except.noConfusion h
  | Level =>
    rw [Check.step.eq_def] at h
    cases fs with
    | nil => dsimp only [VEnv.popFunc] at h; exact Except.noConfusion h
    | cons f fs' =>
      dsimp only [VEnv.popFunc] at h
      split at h
      · exact Except.noConfusion h
      · split at h
        · exact Except.noConfusion h
        · cases fs' with
          | nil => dsimp only [VEnv.popFunc] at h; exact Except.noConfusion h
          | cons g fs'' =>
            dsimp only [VEnv.popFunc] at h
            exact InvP_hao_of h2 h3 h
  | Fold =>
    rw [Check.step.eq_def] at h
    cases fs with
    | nil => dsimp only [VEnv.popFunc] at h; exact Except.noConfusion h
    | cons f fs' =>
      dsimp only [VEnv.popFunc] at h
      split at h
      · exact Except.noConfusion h
      · split at h
        · exact Except.noConfusion h
        · cases fs' with
          | nil => dsimp only [VEnv.popFunc] at h; exact Except.noConfusion h
          | cons g fs'' =>
            dsimp only [VEnv.popFunc] at h
            exact InvP_hao_of h2 h3 h
  | Combinate =>
    rw [Check.step.eq_def] at h
    cases fs with
    | nil => dsimp only [VEnv.popFunc] at h; exact Except.noConfusion h
    | cons f fs' =>
      dsimp only [VEnv.popFunc] at h
      split at h
      · exact Except.noConfusion h
      · split at h
        · exact Except.noConfusion h
        · cases fs' with
          | nil => dsimp only [VEnv.popFunc] at h; exact Except.noConfusion h
          | cons g fs'' =>
            dsimp only [VEnv.popFunc] at h
            exact InvP_hao_of h2 h3 h
  | Try =>
    rw [Check.step.eq_def] at h
    cases fs with
    | nil => dsimp only [VEnv.popFunc] at h; exact Except.noConfusion h
    | cons f fs' =>
      cases fs' with
      | nil => dsimp only [VEnv.popFunc] at h; exact Except.noConfusion h
      | cons g fs'' =>
        dsimp only [VEnv.popFunc] at h
        split at h
        · exact Except.noConfusion h
        · exact InvP_hao_of h2 h3 h
  | Invert =>
    rw [Check.step.eq_def] at h
    cases fs with
    | nil => dsimp only [VEnv.popFunc] at h; exact Except.noConfusion h
    | cons f fs' =>
      dsimp only [VEnv.popFunc] at h
      cases hinv : f.invSig with
      | none =>
        rw [hinv] at h
        dsimp only at h
        injection h with h
        subst h
        exact InvP_fs _ hI
      | some sig =>
        rw [hinv] at h
        dsimp only at h
        have h' : VEnv.handleArgsOutputs sig.args sig.outputs
            ⟨st, fs', bs, m⟩ = .ok e' := h
        exact InvP_hao_of h2 h3 h'
  | Under =>
    rw [Check.step.eq_def] at h
    cases fs with
    | nil => dsimp only [VEnv.popFunc] at h; exact Except.noConfusion h
    | cons f fs' =>
      cases fs' with
      | nil => dsimp only [VEnv.popFunc] at h; exact Except.noConfusion h
      | cons g fs'' =>
        dsimp only [VEnv.popFunc] at h
        cases hu : f.underSigs with
        | none =>
          rw [hu] at h
          dsimp only at h
          injection h with h
          subst h
          exact InvP_setMin_of fs'' h2 h3
        | some pr =>
          obtain ⟨b4, a4⟩ := pr
          rw [hu] at h
          dsimp only at h
          have hI3 : InvP (VEnv.setMinHeight ⟨st, fs'', bs, m⟩) :=
            InvP_setMin_of fs'' h2 h3
          cases hs1 : VEnv.handleSig b4 (VEnv.setMinHeight ⟨st, fs'', bs, m⟩) with
          | error s => rw [hs1] at h; exact Except.noConfusion h
          | ok e₄ =>
            rw [hs1] at h
            dsimp only at h
            have hI4 : InvP e₄ := InvP_hao hI3 hs1
            cases hs2 : VEnv.handleSig g.sig e₄ with
            | error s => rw [hs2] at h; exact Except.noConfusion h
            | ok e₅ =>
              rw [hs2] at h
              dsimp only at h
              have hI5 : InvP e₅ := InvP_hao hI4 hs2
              exact InvP_hao hI5 h
  | Fill =>
    rw [Check.step.eq_def] at h
    cases fs with
    | nil => dsimp only [VEnv.popFunc] at h; exact Except.noConfusion h
    | cons fill fs' =>
      dsimp only [VEnv.popFunc] at h
      cases hs1 : VEnv.handleSig fill.sig ⟨st, fs', bs, m⟩ with
      | error s => rw [hs1] at h; exact Except.noConfusion h
      | ok e₁ =>
        rw [hs1] at h
        dsimp only at h
        have hI1 : InvP e₁ := InvP_hao (InvP_fs fs' hI) hs1
        cases hp : e₁.pop with
        | error s => rw [hp] at h; exact Except.noConfusion h
        | ok pe =>
          obtain ⟨v, e₂⟩ := pe
          rw [hp] at h
          dsimp only at h
          obtain ⟨_, hfse, harre, hmine⟩ := pop_ok2 hp
          obtain ⟨st2, fs2, bs2, m2⟩ := e₂
          cases fs2 with
          | nil =>
            dsimp only at h
            exact Except.noConfusion h
          | cons f fs2' =>
            dsimp only at h
            have hm2 : m2 = e₁.minHeight := hmine
            have hb2 : bs2 = e₁.arrayStack := harre
            refine InvP_hao_any ?_ ?_ h
            · show m2 ≤ startHeight
              rw [hm2]
              exact hI1.2.1
            · show ∀ b ∈ bs2, m2 ≤ b
              rw [hm2, hb2]
              exact hI1.2.2
  | Pack =>
    rw [Check.step.eq_def] at h
    cases fs with
    | nil => dsimp only [VEnv.popFunc] at h; exact Except.noConfusion h
    | cons f fs' =>
      dsimp only [VEnv.popFunc] at h
      exact InvP_hao_of h2 h3 h
  | Dup =>
    rw [Check.step.eq_def] at h
    cases st with
    | nil => dsimp only [VEnv.pop] at h; exact Except.noConfusion h
    | cons v st' =>
      dsimp only [VEnv.pop] at h
      injection h with h
      subst h
      exact InvP_cons_any [v, v] (InvP_setMin_of fs h2 h3)
  | Flip =>
    rw [Check.step.eq_def] at h
    cases st with
    | nil => dsimp only [VEnv.pop] at h; exact Except.noConfusion h
    | cons a st' =>
      cases st' with
      | nil => dsimp only [VEnv.pop] at h; exact Except.noConfusion h
      | cons b st'' =>
        dsimp only [VEnv.pop] at h
        injection h with h
        subst h
        exact InvP_cons_any [b, a] (InvP_setMin_of fs h2 h3)
  | Pop =>
    rw [Check.step.eq_def] at h
    cases st with
    | nil => dsimp only [VEnv.pop] at h; exact Except.noConfusion h
    | cons v st' =>
      dsimp only [VEnv.pop] at h
      injection h with h
      subst h
      exact InvP_setMin_of fs h2 h3
  | Over =>
    rw [Check.step.eq_def] at h
    cases st with
    | nil => dsimp only [VEnv.pop] at h; exact Except.noConfusion h
    | cons a st' =>
      cases st' with
      | nil => dsimp only [VEnv.pop] at h; exact Except.noConfusion h
      | cons b st'' =>
        dsimp only [VEnv.pop] at h
        injection h with h
        subst h
        exact InvP_cons_any [b, a, b] (InvP_setMin_of fs h2 h3)
  | Dip =>
    rw [Check.step.eq_def] at h
    cases fs with
    | nil => dsimp only [VEnv.popFunc] at h; exact Except.noConfusion h
    | cons f fs' =>
      cases st with
      | nil => dsimp only [VEnv.popFunc, VEnv.pop] at h; exact Except.noConfusion h
      | cons x st' =>
        dsimp only [VEnv.popFunc, VEnv.pop] at h
        cases hh : VEnv.handleSig f.sig (VEnv.setMinHeight ⟨st', fs', bs, m⟩) with
        | error s => rw [hh] at h; exact Except.noConfusion h
        | ok e₃ =>
          rw [hh] at h
          injection h with h
          subst h
          exact InvP_cons_any [x] (InvP_hao (InvP_setMin_of fs' h2 h3) hh)
  | Gap =>
    rw [Check.step.eq_def] at h
    cases fs with
    | nil => dsimp only [VEnv.popFunc] at h; exact Except.noConfusion h
    | cons f fs' =>
      cases st with
      | nil => dsimp only [VEnv.popFunc, VEnv.pop] at h; exact Except.noConfusion h
      | cons x st' =>
        dsimp only [VEnv.popFunc, VEnv.pop] at h
        exact InvP_hao (InvP_setMin_of fs' h2 h3) h
  | Oust =>
    rw [Check.step.eq_def] at h
    cases fs with
    | nil => dsimp only [VEnv.popFunc] at h; exact Except.noConfusion h
    | cons f fs' =>
      cases st with
      | nil => dsimp only [VEnv.popFunc, VEnv.pop] at h; exact Except.noConfusion h
      | cons x st' =>
        cases st' with
        | nil => dsimp only [VEnv.popFunc, VEnv.pop] at h; exact Except.noConfusion h
        | cons y st'' =>
          dsimp only [VEnv.popFunc, VEnv.pop] at h
          exact InvP_hao (InvP_cons_any [x] (InvP_setMin_of fs' h2 h3)) h
  | Join =>
    rw [Check.step.eq_def] at h
    cases st with
    | nil => dsimp only [VEnv.pop] at h; exact Except.noConfusion h
    | cons a st' =>
      cases st' with
      | nil => dsimp only [VEnv.pop] at h; exact Except.noConfusion h
      | cons b st'' =>
        dsimp only [VEnv.pop] at h
        injection h with h
        subst h
        exact InvP_cons_any [_] (InvP_setMin_of fs h2 h3)
  | Dump =>
    rw [Check.step.eq_def] at h
    cases fs with
    | nil => dsimp only [VEnv.popFunc] at h; exact Except.noConfusion h
    | cons f fs' =>
      dsimp only [VEnv.popFunc] at h
      injection h with h
      subst h
      exact InvP_fs _ hI
  | Break =>
    rw [Check.step.eq_def] at h
    dsimp only [Prim.args] at h
    exact Except.noConfusion h
  | Identity =>
    rw [Check.step.eq_def] at h
    dsimp only [Prim.args, Prim.outputs, Prim.modifierArgs, Option.getD,
      Check.step.popFuncsDiscard] at h
    exact InvP_hao_of h2 h3 h
  | Add =>
    rw [Check.step.eq_def] at h
    dsimp only [Prim.args, Prim.outputs, Prim.modifierArgs, Option.getD,
      Check.step.popFuncsDiscard] at h
    exact InvP_hao_of h2 h3 h
  | Pow =>
    rw [Check.step.eq_def] at h
    dsimp only [Prim.args, Prim.outputs, Prim.modifierArgs, Option.getD,
      Check.step.popFuncsDiscard] at h
    exact InvP_hao_of h2 h3 h
  | Not =>
    rw [Check.step.eq_def] at h
    dsimp only [Prim.args, Prim.outputs, Prim.modifierArgs, Option.getD,
      Check.step.popFuncsDiscard] at h
    exact InvP_hao_of h2 h3 h
  | Eq =>
    rw [Check.step.eq_def] at h
    dsimp only [Prim.args, Prim.outputs, Prim.modifierArgs, Option.getD,
      Check.step.popFuncsDiscard] at h
    exact InvP_hao_of h2 h3 h
  | Ne =>
    rw [Check.step.eq_def] at h
    dsimp only [Prim.args, Prim.outputs, Prim.modifierArgs, Option.getD,
      Check.step.popFuncsDiscard] at h
    exact InvP_hao_of h2 h3 h
  | Lt =>
    rw [Check.step.eq_def] at h
    dsimp only [Prim.args, Prim.outputs, Prim.modifierArgs, Option.getD,
      Check.step.popFuncsDiscard] at h
    exact InvP_hao_of h2 h3 h
  | Le =>
    rw [Check.step.eq_def] at h
    dsimp only [Prim.args, Prim.outputs, Prim.modifierArgs, Option.getD,
      Check.step.popFuncsDiscard] at h
    exact InvP_hao_of h2 h3 h
  | Gt =>
    rw [Check.step.eq_def] at h
    dsimp only [Prim.args, Prim.outputs, Prim.modifierArgs, Option.getD,
      Check.step.popFuncsDiscard] at h
    exact InvP_hao_of h2 h3 h
  | Ge =>
    rw [Check.step.eq_def] at h
    dsimp only [Prim.args, Prim.outputs, Prim.modifierArgs, Option.getD,
      Check.step.popFuncsDiscard] at h
    exact InvP_hao_of h2 h3 h

theorem InvP_step (i : Instr) (e e' : VEnv) (hns : isSwitchOrRepeat i = false)
    (h : step i e = .ok e') (hI : InvP e) : InvP e' := by
  obtain ⟨st, fs, bs, m⟩ := e
  have h2 := hI.2.1
  have h3 := hI.2.2
  cases i with
  | Push v =>
    rw [Check.step.eq_def] at h
    dsimp only at h
    injection h with h
    subst h
    exact InvP_cons [BasicValue.fromVal v] fs hI
  | BeginArray =>
    rw [Check.step.eq_def] at h
    dsimp only at h
    injection h with h
    subst h
    exact InvP_beginArr hI
  | EndArray =>
    rw [Check.step.eq_def] at h
    dsimp only at h
    cases bs with
    | nil => exact Except.noConfusion h
    | cons b tl =>
      dsimp only at h
      split at h
      next hc =>
        injection h with h
        subst h
        exact InvP_endArr _ fs hc hI
      next hc => exact Except.noConfusion h
  | Call =>
    rw [Check.step.eq_def] at h
    cases fs with
    | nil => dsimp only [VEnv.popFunc] at h; exact Except.noConfusion h
    | cons g fs' =>
      dsimp only [VEnv.popFunc] at h
      exact InvP_hao_of h2 h3 h
  | PushTempInline count =>
    rw [Check.step.eq_def] at h
    dsimp only at h
    exact InvP_hao_of h2 h3 h
  | PushTempUnder count =>
    rw [Check.step.eq_def] at h
    dsimp only at h
    exact InvP_hao_of h2 h3 h
  | PushTempFunctions n =>
    rw [Check.step.eq_def] at h
    dsimp only at h
    injection h with h
    subst h
    exact hI
  | PopTempFunctions n =>
    rw [Check.step.eq_def] at h
    dsimp only at h
    injection h with h
    subst h
    exact hI
  | GetTempFunction sig =>
    rw [Check.step.eq_def] at h
    dsimp only at h
    injection h with h
    subst h
    exact InvP_fs _ hI
  | PopTempInline count =>
    rw [Check.step.eq_def] at h
    dsimp only at h
    exact InvP_hao_of h2 h3 h
  | PopTempUnder count =>
    rw [Check.step.eq_def] at h
    dsimp only at h
    exact InvP_hao_of h2 h3 h
  | CopyTempInline count =>
    rw [Check.step.eq_def] at h
    dsimp only at h
    exact InvP_hao_of h2 h3 h
  | DropTempInline count =>
    rw [Check.step.eq_def] at h
    dsimp only at h
    injection h with h
    subst h
    exact hI
  | PushFunc f =>
    rw [Check.step.eq_def] at h
    dsimp only at h
    injection h with h
    subst h
    exact InvP_fs _ hI
  | Switch count => simp [isSwitchOrRepeat] at hns
  | Dynamic sig =>
    rw [Check.step.eq_def] at h
    dsimp only at h
    exact InvP_hao_of h2 h3 h
  | ImplPrim a o modArgs =>
    rw [Check.step.eq_def] at h
    dsimp only at h
    cases hd : Check.step.popFuncsDiscard modArgs ⟨st, fs, bs, m⟩ with
    | error s => rw [hd] at h; exact Except.noConfusion h
    | ok e₁ =>
      rw [hd] at h
      obtain ⟨hk, he⟩ := popFuncsDiscard_ok modArgs _ _ hd
      subst he
      exact InvP_hao_of h2 h3 h
  | Prim p => exact InvP_step_prim p _ hns h h2 h3 hI


theorem InvP_run : ∀ (I : List Instr) (e e' : VEnv), noSwitchRepeat I = true →
    runInstrs I e = .ok e' → InvP e → InvP e' := by
  intro I
  induction I with
  | nil =>
    intro e e' _ h hI
    injection h with h
    subst h
    exact hI
  | cons i rest ih =>
    intro e e' hns h hI
    rw [noSwitchRepeat, List.all_cons, Bool.and_eq_true] at hns
    obtain ⟨hni, hnrest⟩ := hns
    rw [Bool.not_eq_true'] at hni
    have h' : ((match step i e with
      | Except.error s => Except.error s
      | Except.ok e1 => runInstrs rest e1) : Except String VEnv) = .ok e' := h
    cases hs : step i e with
    | error s => rw [hs] at h'; exact Except.noConfusion h'
    | ok e1 =>
      rw [hs] at h'
      exact ih e1 e' hnrest h' (InvP_step i e e1 hni hs hI)

section Sim

variable {len1 m1 : Nat} {fbase : List Function}

theorem R_mk {ss cs : List BasicValue} {sfs cfs : List Function}
    {sbs cbs : List Nat} {sm cm : Nat} :
    SimRel len1 m1 fbase ⟨ss, sfs, sbs, sm⟩ ⟨cs, cfs, cbs, cm⟩ ↔
      (cs.length + startHeight = ss.length + len1 ∧
        cm + startHeight = min (m1 + startHeight) (sm + len1) ∧
        cfs = sfs ++ fbase ∧
        ∃ front base, cbs = front ++ base ∧
          List.Forall₂ (fun x y => y + startHeight = x + len1) sbs front) :=
  Iff.rfl

theorem R_push (Vs Vc : List BasicValue) (hV : Vs.length = Vc.length)
    {ss cs : List BasicValue} {sfs cfs sfs' cfs' : List Function}
    {sbs cbs : List Nat} {sm cm : Nat} (hfs : cfs' = sfs' ++ fbase)
    (hR : SimRel len1 m1 fbase ⟨ss, sfs, sbs, sm⟩ ⟨cs, cfs, cbs, cm⟩) :
    SimRel len1 m1 fbase ⟨Vs ++ ss, sfs', sbs, sm⟩ ⟨Vc ++ cs, cfs', cbs, cm⟩ := by
  rw [R_mk] at hR ⊢
  obtain ⟨h1, h2, h3, h4⟩ := hR
  refine ⟨?_, h2, hfs, h4⟩
  simp only [List.length_append]
  omega

theorem R_core (t : Nat) (Vs Vc : List BasicValue) (hV : Vs.length = Vc.length)
    {ss cs : List BasicValue} {sfs cfs sfs' cfs' : List Function}
    {sbs cbs : List Nat} {sm cm : Nat}
    (hts : t ≤ ss.length) (htc : t ≤ cs.length) (hfs : cfs' = sfs' ++ fbase)
    (hR : SimRel len1 m1 fbase ⟨ss, sfs, sbs, sm⟩ ⟨cs, cfs, cbs, cm⟩) :
    SimRel len1 m1 fbase
      ⟨Vs ++ ss.drop t, sfs', capList sbs (ss.drop t).length, min sm (ss.drop t).length⟩
      ⟨Vc ++ cs.drop t, cfs', capList cbs (cs.drop t).length, min cm (cs.drop t).length⟩ := by
  rw [R_mk] at hR ⊢
  obtain ⟨h1, h2, h3, front, base, hsplit, hfa⟩ := hR
  refine ⟨?_, ?_, hfs, ?_⟩
  · simp only [List.length_append, List.length_drop]
    omega
  · simp only [List.length_drop]
    omega
  · cases hfa with
    | nil =>
      subst hsplit
      exact ⟨[], capList cbs (cs.drop t).length, rfl, List.Forall₂.nil⟩
    | cons hhead htail =>
      rename_i x hc tl ftl
      subst hsplit
      refine ⟨min hc (cs.drop t).length :: ftl, base, rfl, ?_⟩
      refine List.Forall₂.cons ?_ htail
      simp only [List.length_drop]
      omega

theorem R_hao (a o : Nat) {s c s' c' : VEnv}
    (hR : SimRel len1 m1 fbase s c)
    (hs : VEnv.handleArgsOutputs a o s = .ok s')
    (hc : VEnv.handleArgsOutputs a o c = .ok c') :
    SimRel len1 m1 fbase s' c' := by
  obtain ⟨ss, sfs, sbs, sm⟩ := s
  obtain ⟨cs, cfs, cbs, cm⟩ := c
  rw [VEnv.handleArgsOutputs] at hs hc
  cases hps : VEnv.popN a ⟨ss, sfs, sbs, sm⟩ with
  | error s => rw [hps] at hs; exact Except.noConfusion hs
  | ok es =>
    rw [hps] at hs
    injection hs with hs
    subst hs
    obtain ⟨hks, hes⟩ := popN_len a _ _ hps
    subst hes
    cases hpc : VEnv.popN a ⟨cs, cfs, cbs, cm⟩ with
    | error s => rw [hpc] at hc; exact Except.noConfusion hc
    | ok ec =>
      rw [hpc] at hc
      injection hc with hc
      subst hc
      obtain ⟨hkc, hec⟩ := popN_len a _ _ hpc
      subst hec
      exact R_core a (List.replicate o .other) (List.replicate o .other)
        (by simp) hks hkc (hR.2.2.1) hR

theorem R_setMin {s c : VEnv} (hR : SimRel len1 m1 fbase s c) :
    SimRel len1 m1 fbase s.setMinHeight c.setMinHeight := by
  obtain ⟨ss, sfs, sbs, sm⟩ := s
  obtain ⟨cs, cfs, cbs, cm⟩ := c
  have h := R_core 0 [] [] rfl (Nat.zero_le _) (Nat.zero_le _) (hR.2.2.1) hR
  rw [List.drop_zero] at h
  exact h

theorem R_push_any (Vs Vc : List BasicValue) (hV : Vs.length = Vc.length)
    {es ec : VEnv} (hR : SimRel len1 m1 fbase es ec) :
    SimRel len1 m1 fbase
      ⟨Vs ++ es.stack, es.functionStack, es.arrayStack, es.minHeight⟩
      ⟨Vc ++ ec.stack, ec.functionStack, ec.arrayStack, ec.minHeight⟩ := by
  obtain ⟨ss, sfs, sbs, sm⟩ := es
  obtain ⟨cs, cfs, cbs, cm⟩ := ec
  exact R_push Vs Vc hV (hR.2.2.1) hR

theorem R_pop {v w : BasicValue} {ss cs : List BasicValue}
    {sfs cfs : List Function} {sbs cbs : List Nat} {sm cm : Nat}
    (hR : SimRel len1 m1 fbase ⟨v :: ss, sfs, sbs, sm⟩ ⟨w :: cs, cfs, cbs, cm⟩) :
    SimRel len1 m1 fbase ⟨ss, sfs, sbs, sm⟩ ⟨cs, cfs, cbs, cm⟩ := by
  rw [R_mk] at hR ⊢
  obtain ⟨h1, h2, h3, h4⟩ := hR
  simp only [List.length_cons] at h1
  exact ⟨by omega, h2, h3, h4⟩

theorem R_fs {ss cs : List BasicValue} {sfs cfs sfs' cfs' : List Function}
    {sbs cbs : List Nat} {sm cm : Nat} (hfs : cfs' = sfs' ++ fbase)
    (hR : SimRel len1 m1 fbase ⟨ss, sfs, sbs, sm⟩ ⟨cs, cfs, cbs, cm⟩) :
    SimRel len1 m1 fbase ⟨ss, sfs', sbs, sm⟩ ⟨cs, cfs', cbs, cm⟩ := by
  rw [R_mk] at hR ⊢
  obtain ⟨h1, h2, h3, h4⟩ := hR
  exact ⟨h1, h2, hfs, h4⟩

theorem R_beginArr {ss cs : List BasicValue} {sfs cfs : List Function}
    {sbs cbs : List Nat} {sm cm : Nat}
    (hR : SimRel len1 m1 fbase ⟨ss, sfs, sbs, sm⟩ ⟨cs, cfs, cbs, cm⟩) :
    SimRel len1 m1 fbase ⟨ss, sfs, ss.length :: sbs, sm⟩
      ⟨cs, cfs, cs.length :: cbs, cm⟩ := by
  rw [R_mk] at hR ⊢
  obtain ⟨h1, h2, h3, front, base, hsplit, hfa⟩ := hR
  refine ⟨h1, h2, h3, cs.length :: front, base, by rw [hsplit]; rfl, ?_⟩
  exact List.Forall₂.cons h1 hfa


theorem SimRel_step_prim (p : Prim) (hns : isSwitchOrRepeat (.Prim p) = false)
    {ss cs : List BasicValue} {sfs : List Function} {sbs cbs : List Nat}
    {sm cm : Nat} {s' c' : VEnv}
    (hR : SimRel len1 m1 fbase ⟨ss, sfs, sbs, sm⟩ ⟨cs, sfs ++ fbase, cbs, cm⟩)
    (hs : step (.Prim p) ⟨ss, sfs, sbs, sm⟩ = .ok s')
    (hc : step (.Prim p) ⟨cs, sfs ++ fbase, cbs, cm⟩ = .ok c') :
    SimRel len1 m1 fbase s' c' := by
  cases p with
  | Reduce =>
    rw [Check.step.eq_def] at hs hc
    cases sfs with
    | nil => dsimp only [VEnv.popFunc] at hs; exact Except.noConfusion hs
    | cons f sfs' =>
      dsimp only [List.cons_append, VEnv.popFunc] at hs hc
      cases hsig : f.sig with
      | mk fa fo =>
        rw [hsig] at hs hc
        dsimp only at hs hc
        match fa, fo with
        | 0, fo => exact Except.noConfusion hs
        | 1, 0 => exact R_hao _ _ (R_fs rfl hR) hs hc
        | 1, fo + 1 => exact Except.noConfusion hs
        | 2, 1 => exact R_hao _ _ (R_fs rfl hR) hs hc
        | 2, 0 => exact Except.noConfusion hs
        | 2, fo + 2 => exact Except.noConfusion hs
        | fa + 3, fo => exact Except.noConfusion hs
  | Scan =>
    rw [Check.step.eq_def] at hs hc
    cases sfs with
    | nil => dsimp only [VEnv.popFunc] at hs; exact Except.noConfusion hs
    | cons f sfs' =>
      dsimp only [List.cons_append, VEnv.popFunc] at hs hc
      cases hsig : f.sig with
      | mk fa fo =>
        rw [hsig] at hs hc
        dsimp only at hs hc
        match fa, fo with
        | 0, fo => exact Except.noConfusion hs
        | 1, 0 => exact R_hao _ _ (R_fs rfl hR) hs hc
        | 1, fo + 1 => exact Except.noConfusion hs
        | 2, 1 => exact R_hao _ _ (R_fs rfl hR) hs hc
        | 2, 0 => exact Except.noConfusion hs
        | 2, fo + 2 => exact Except.noConfusion hs
        | fa + 3, fo => exact Except.noConfusion hs
  | Each =>
    rw [Check.step.eq_def] at hs hc
    cases sfs with
    | nil => dsimp only [VEnv.popFunc] at hs; exact Except.noConfusion hs
    | cons f sfs' =>
      dsimp only [List.cons_append, VEnv.popFunc] at hs hc
      by_cases ho : f.sig.outputs ≠ 1
      · rw [if_pos ho] at hs; exact Except.noConfusion hs
      · rw [if_neg ho] at hs hc
        exact R_hao _ _ (R_fs rfl hR) hs hc
  | Rows =>
    rw [Check.step.eq_def] at hs hc
    cases sfs with
    | nil => dsimp only [VEnv.popFunc] at hs; exact Except.noConfusion hs
    | cons f sfs' =>
      dsimp only [List.cons_append, VEnv.popFunc] at hs hc
      by_cases ho : f.sig.outputs ≠ 1
      · rw [if_pos ho] at hs; exact Except.noConfusion hs
      · rw [if_neg ho] at hs hc
        exact R_hao _ _ (R_fs rfl hR) hs hc
  | Distribute =>
    rw [Check.step.eq_def] at hs hc
    cases sfs with
    | nil => dsimp only [VEnv.popFunc] at hs; exact Except.noConfusion hs
    | cons f sfs' =>
      dsimp only [List.cons_append, VEnv.popFunc] at hs hc
      by_cases ho : f.sig.outputs ≠ 1
      · rw [if_pos ho] at hs; exact Except.noConfusion hs
      · rw [if_neg ho] at hs hc
        exact R_hao _ _ (R_fs rfl hR) hs hc
  | Tribute =>
    rw [Check.step.eq_def] at hs hc
    cases sfs with
    | nil => dsimp only [VEnv.popFunc] at hs; exact Except.noConfusion hs
    | cons f sfs' =>
      dsimp only [List.cons_append, VEnv.popFunc] at hs hc
      by_cases ho : f.sig.outputs ≠ 1
      · rw [if_pos ho] at hs; exact Except.noConfusion hs
      · rw [if_neg ho] at hs hc
        exact R_hao _ _ (R_fs rfl hR) hs hc
  | Table =>
    rw [Check.step.eq_def] at hs hc
    cases sfs with
    | nil => dsimp only [VEnv.popFunc] at hs; exact Except.noConfusion hs
    | cons f sfs' =>
      dsimp only [List.cons_append, VEnv.popFunc] at hs hc
      by_cases ho : f.sig ≠ ⟨2, 1⟩
      · rw [if_pos ho] at hs; exact Except.noConfusion hs
      · rw [if_neg ho] at hs hc
        exact R_hao _ _ (R_fs rfl hR) hs hc
  | Cross =>
    rw [Check.step.eq_def] at hs hc
    cases sfs with
    | nil => dsimp only [VEnv.popFunc] at hs; exact Except.noConfusion hs
    | cons f sfs' =>
      dsimp only [List.cons_append, VEnv.popFunc] at hs hc
      by_cases ho : f.sig ≠ ⟨2, 1⟩
      · rw [if_pos ho] at hs; exact Except.noConfusion hs
      · rw [if_neg ho] at hs hc
        exact R_hao _ _ (R_fs rfl hR) hs hc
  | Group =>
    rw [Check.step.eq_def] at hs hc
    cases sfs with
    | nil => dsimp only [VEnv.popFunc] at hs; exact Except.noConfusion hs
    | cons f sfs' =>
      dsimp only [List.cons_append, VEnv.popFunc] at hs hc
      cases hsig : f.sig.args with
      | zero =>
        rw [hsig] at hs hc
        exact R_hao _ _ (R_fs rfl hR) hs hc
      | succ fa1 =>
        cases fa1 with
        | zero =>
          rw [hsig] at hs hc
          exact R_hao _ _ (R_fs rfl hR) hs hc
        | succ fa2 =>
          cases fa2 with
          | zero =>
            rw [hsig] at hs hc
            exact R_hao _ _ (R_fs rfl hR) hs hc
          | succ fa3 =>
            rw [hsig] at hs
            exact Except.noConfusion hs
  | Partition =>
    rw [Check.step.eq_def] at hs hc
    cases sfs with
    | nil => dsimp only [VEnv.popFunc] at hs; exact Except.noConfusion hs
    | cons f sfs' =>
      dsimp only [List.cons_append, VEnv.popFunc] at hs hc
      cases hsig : f.sig.args with
      | zero =>
        rw [hsig] at hs hc
        exact R_hao _ _ (R_fs rfl hR) hs hc
      | succ fa1 =>
        cases fa1 with
        | zero =>
          rw [hsig] at hs hc
          exact R_hao _ _ (R_fs rfl hR) hs hc
        | succ fa2 =>
          cases fa2 with
          | zero =>
            rw [hsig] at hs hc
            exact R_hao _ _ (R_fs rfl hR) hs hc
          | succ fa3 =>
            rw [hsig] at hs
            exact Except.noConfusion hs
  | Spawn =>
    rw [Check.step.eq_def] at hs hc
    cases sfs with
    | nil => dsimp only [VEnv.popFunc] at hs; exact Except.noConfusion hs
    | cons f sfs' =>
      dsimp only [List.cons_append, VEnv.popFunc] at hs hc
      exact R_hao _ _ (R_fs rfl hR) hs hc
  | Repeat => simp [isSwitchOrRepeat] at hns
  | Bind =>
    rw [Check.step.eq_def] at hs hc
    cases sfs with
    | nil => dsimp only [VEnv.popFunc] at hs; exact Except.noConfusion hs
    | cons f sfs' =>
      cases sfs' with
      | nil => dsimp only [List.cons_append, VEnv.popFunc] at hs; exact Except.noConfusion hs
      | cons g sfs'' =>
        dsimp only [List.cons_append, VEnv.popFunc] at hs hc
        cases hps : VEnv.popN g.sig.args (⟨ss, sfs'', sbs, sm⟩ : VEnv) with
        | error s => rw [hps] at hs; exact Except.noConfusion hs
        | ok e3s =>
          rw [hps] at hs
          dsimp only at hs
          obtain ⟨hks, hes⟩ := popN_len _ _ _ hps
          subst hes
          cases hpc : VEnv.popN g.sig.args (⟨cs, sfs'' ++ fbase, cbs, cm⟩ : VEnv) with
          | error s => rw [hpc] at hc; exact Except.noConfusion hc
          | ok e3c =>
            rw [hpc] at hc
            dsimp only at hc
            obtain ⟨hkc, hec⟩ := popN_len _ _ _ hpc
            subst hec
            dsimp only at hps hpc hs hc
            have hhs : VEnv.handleArgsOutputs g.sig.args g.sig.outputs
                (⟨ss, sfs'', sbs, sm⟩ : VEnv) =
                .ok ((VEnv.setMinHeight
                  ⟨ss.drop g.sig.args, sfs'', sbs, sm⟩).pushOthers g.sig.outputs) := by
              rw [VEnv.handleArgsOutputs, hps]
            have hhc : VEnv.handleArgsOutputs g.sig.args g.sig.outputs
                (⟨cs, sfs'' ++ fbase, cbs, cm⟩ : VEnv) =
                .ok ((VEnv.setMinHeight
                  ⟨cs.drop g.sig.args, sfs'' ++ fbase, cbs, cm⟩).pushOthers
                    g.sig.outputs) := by
              rw [VEnv.handleArgsOutputs, hpc]
            have hR4 := R_hao _ _ (R_fs rfl hR) hhs hhc
            have hs2 : VEnv.handleArgsOutputs f.sig.args f.sig.outputs
                ((VEnv.setMinHeight
                  ⟨ss.drop g.sig.args, sfs'', sbs, sm⟩).pushOthers g.sig.outputs) =
                .ok s' := hs
            have hc2 : VEnv.handleArgsOutputs f.sig.args f.sig.outputs
                ((VEnv.setMinHeight
                  ⟨cs.drop g.sig.args, sfs'' ++ fbase, cbs, cm⟩).pushOthers
                    g.sig.outputs) = .ok c' := hc
            exact R_hao _ _ hR4 hs2 hc2
  | Both =>
    rw [Check.step.eq_def] at hs hc
    cases sfs with
    | nil => dsimp only [VEnv.popFunc] at hs; exact Except.noConfusion hs
    | cons f sfs' =>
      dsimp only [List.cons_append, VEnv.popFunc] at hs hc
      exact R_hao _ _ (R_fs rfl hR) hs hc
  | Fork =>
    rw [Check.step.eq_def] at hs hc
    cases sfs with
    | nil => dsimp only [VEnv.popFunc] at hs; exact Except.noConfusion hs
    | cons f sfs' =>
      cases sfs' with
      | nil => dsimp only [List.cons_append, VEnv.popFunc] at hs; exact Except.noConfusion hs
      | cons g sfs'' =>
        dsimp only [List.cons_append, VEnv.popFunc] at hs hc
        exact R_hao _ _ (R_fs rfl hR) hs hc
  | Bracket =>
    rw [Check.step.eq_def] at hs hc
    cases sfs with
    | nil => dsimp only [VEnv.popFunc] at hs; exact Except.noConfusion hs
    | cons f sfs' =>
      cases sfs' with
      | nil => dsimp only [List.cons_append, VEnv.popFunc] at hs; exact Except.noConfusion hs
      | cons g sfs'' =>
        dsimp only [List.cons_append, VEnv.popFunc] at hs hc
        exact R_hao _ _ (R_fs rfl hR) hs hc
  | If =>
    rw [Check.step.eq_def] at hs hc
    cases sfs with
    | nil => dsimp only [VEnv.popFunc] at hs; exact Except.noConfusion hs
    | cons f sfs' =>
      cases sfs' with
      | nil => dsimp only [List.cons_append, VEnv.popFunc] at hs; exact Except.noConfusion hs
      | cons g sfs'' =>
        dsimp only [List.cons_append, VEnv.popFunc] at hs hc
        cases ss with
        | nil => dsimp only [VEnv.pop] at hs; exact Except.noConfusion hs
        | cons v ss' =>
          cases cs with
          | nil => dsimp only [VEnv.pop] at hc; exact Except.noConfusion hc
          | cons w cs' =>
            dsimp only [VEnv.pop] at hs hc
            by_cases ho : f.sig.outputs = g.sig.outputs
            · rw [if_pos ho] at hs hc
              exact R_hao _ _ (R_fs rfl (R_pop hR)) hs hc
            · rw [if_neg ho] at hs hc
              by_cases hcmp : f.sig.isCompatibleWith g.sig = true
              · rw [if_pos hcmp] at hs hc
                exact R_hao _ _ (R_fs rfl (R_pop hR)) hs hc
              · rw [if_neg hcmp] at hs
                exact Except.noConfusion hs
  | Level =>
    rw [Check.step.eq_def] at hs hc
    cases sfs with
    | nil => dsimp only [VEnv.popFunc] at hs; exact Except.noConfusion hs
    | cons f sfs' =>
      dsimp only [List.cons_append, VEnv.popFunc] at hs hc
      by_cases ho : f.sig.outputs ≠ 1
      · rw [if_pos ho] at hs; exact Except.noConfusion hs
      · rw [if_neg ho] at hs hc
        by_cases ha : f.sig.args > 1
        · rw [if_pos ha] at hs; exact Except.noConfusion hs
        · rw [if_neg ha] at hs hc
          cases sfs' with
          | nil => dsimp only [VEnv.popFunc] at hs; exact Except.noConfusion hs
          | cons g sfs'' =>
            dsimp only [List.cons_append, VEnv.popFunc] at hs hc
            exact R_hao _ _ (R_fs rfl hR) hs hc
  | Fold =>
    rw [Check.step.eq_def] at hs hc
    cases sfs with
    | nil => dsimp only [VEnv.popFunc] at hs; exact Except.noConfusion hs
    | cons f sfs' =>
      dsimp only [List.cons_append, VEnv.popFunc] at hs hc
      by_cases ho : f.sig.outputs ≠ 1
      · rw [if_pos ho] at hs; exact Except.noConfusion hs
      · rw [if_neg ho] at hs hc
        by_cases ha : f.sig.args > 1
        · rw [if_pos ha] at hs; exact Except.noConfusion hs
        · rw [if_neg ha] at hs hc
          cases sfs' with
          | nil => dsimp only [VEnv.popFunc] at hs; exact Except.noConfusion hs
          | cons g sfs'' =>
            dsimp only [List.cons_append, VEnv.popFunc] at hs hc
            exact R_hao _ _ (R_fs rfl hR) hs hc
  | Combinate =>
    rw [Check.step.eq_def] at hs hc
    cases sfs with
    | nil => dsimp only [VEnv.popFunc] at hs; exact Except.noConfusion hs
    | cons f sfs' =>
      dsimp only [List.cons_append, VEnv.popFunc] at hs hc
      by_cases ho : f.sig.outputs ≠ 1
      · rw [if_pos ho] at hs; exact Except.noConfusion hs
      · rw [if_neg ho] at hs hc
        by_cases ha : f.sig.args > 1
        · rw [if_pos ha] at hs; exact Except.noConfusion hs
        · rw [if_neg ha] at hs hc
          cases sfs' with
          | nil => dsimp only [VEnv.popFunc] at hs; exact Except.noConfusion hs
          | cons g sfs'' =>
            dsimp only [List.cons_append, VEnv.popFunc] at hs hc
            exact R_hao _ _ (R_fs rfl hR) hs hc
  | Try =>
    rw [Check.step.eq_def] at hs hc
    cases sfs with
    | nil => dsimp only [VEnv.popFunc] at hs; exact Except.noConfusion hs
    | cons f sfs' =>
      cases sfs' with
      | nil => dsimp only [List.cons_append, VEnv.popFunc] at hs; exact Except.noConfusion hs
      | cons g sfs'' =>
        dsimp only [List.cons_append, VEnv.popFunc] at hs hc
        cases hsub : g.sig.isSubsetOf ⟨f.sig.args + 1, f.sig.outputs⟩ with
        | false =>
          rw [hsub] at hs
          exact Except.noConfusion hs
        | true =>
          rw [hsub] at hs hc
          exact R_hao _ _ (R_fs rfl hR) hs hc
  | Invert =>
    rw [Check.step.eq_def] at hs hc
    cases sfs with
    | nil => dsimp only [VEnv.popFunc] at hs; exact Except.noConfusion hs
    | cons f sfs' =>
      dsimp only [List.cons_append, VEnv.popFunc] at hs hc
      cases hinv : f.invSig with
      | none =>
        rw [hinv] at hs hc
        dsimp only at hs hc
        injection hs with hs
        injection hc with hc
        subst hs
        subst hc
        exact R_fs rfl hR
      | some sig =>
        rw [hinv] at hs hc
        dsimp only at hs hc
        have hs2 : VEnv.handleArgsOutputs sig.args sig.outputs
            ⟨ss, sfs', sbs, sm⟩ = .ok s' := hs
        have hc2 : VEnv.handleArgsOutputs sig.args sig.outputs
            ⟨cs, sfs' ++ fbase, cbs, cm⟩ = .ok c' := hc
        exact R_hao _ _ (R_fs rfl hR) hs2 hc2
  | Under =>
    rw [Check.step.eq_def] at hs hc
    cases sfs with
    | nil => dsimp only [VEnv.popFunc] at hs; exact Except.noConfusion hs
    | cons f sfs' =>
      cases sfs' with
      | nil => dsimp only [List.cons_append, VEnv.popFunc] at hs; exact Except.noConfusion hs
      | cons g sfs'' =>
        dsimp only [List.cons_append, VEnv.popFunc] at hs hc
        cases hu : f.underSigs with
        | none =>
          rw [hu] at hs hc
          dsimp only at hs hc
          injection hs with hs
          injection hc with hc
          subst hs
          subst hc
          exact R_setMin (R_fs rfl hR)
        | some pr =>
          obtain ⟨b4, a4⟩ := pr
          rw [hu] at hs hc
          dsimp only at hs hc
          have hR3 : SimRel len1 m1 fbase
              (VEnv.setMinHeight ⟨ss, sfs'', sbs, sm⟩)
              (VEnv.setMinHeight ⟨cs, sfs'' ++ fbase, cbs, cm⟩) :=
            R_setMin (R_fs rfl hR)
          cases hs1 : VEnv.handleSig b4 (VEnv.setMinHeight ⟨ss, sfs'', sbs, sm⟩) with
          | error s => rw [hs1] at hs; exact Except.noConfusion hs
          | ok e4s =>
            rw [hs1] at hs
            dsimp only at hs
            cases hc1 : VEnv.handleSig b4
                (VEnv.setMinHeight ⟨cs, sfs'' ++ fbase, cbs, cm⟩) with
            | error s => rw [hc1] at hc; exact Except.noConfusion hc
            | ok e4c =>
              rw [hc1] at hc
              dsimp only at hc
              have hR4 : SimRel len1 m1 fbase e4s e4c := R_hao _ _ hR3 hs1 hc1
              cases hs2 : VEnv.handleSig g.sig e4s with
              | error s => rw [hs2] at hs; exact Except.noConfusion hs
              | ok e5s =>
                rw [hs2] at hs
                dsimp only at hs
                cases hc2 : VEnv.handleSig g.sig e4c with
                | error s => rw [hc2] at hc; exact Except.noConfusion hc
                | ok e5c =>
                  rw [hc2] at hc
                  dsimp only at hc
                  have hR5 : SimRel len1 m1 fbase e5s e5c := R_hao _ _ hR4 hs2 hc2
                  exact R_hao _ _ hR5 hs hc
  | Fill =>
    rw [Check.step.eq_def] at hs hc
    cases sfs with
    | nil => dsimp only [VEnv.popFunc] at hs; exact Except.noConfusion hs
    | cons fill sfs' =>
      dsimp only [List.cons_append, VEnv.popFunc] at hs hc
      cases hs1 : VEnv.handleSig fill.sig (⟨ss, sfs', sbs, sm⟩ : VEnv) with
      | error s => rw [hs1] at hs; exact Except.noConfusion hs
      | ok e1s =>
        rw [hs1] at hs
        dsimp only at hs
        cases hc1 : VEnv.handleSig fill.sig (⟨cs, sfs' ++ fbase, cbs, cm⟩ : VEnv) with
        | error s => rw [hc1] at hc; exact Except.noConfusion hc
        | ok e1c =>
          rw [hc1] at hc
          dsimp only at hc
          have hR1 : SimRel len1 m1 fbase e1s e1c := R_hao _ _ (R_fs rfl hR) hs1 hc1
          obtain ⟨s1st, s1fs, s1bs, s1m⟩ := e1s
          obtain ⟨c1st, c1fs, c1bs, c1m⟩ := e1c
          have hfs1 : c1fs = s1fs ++ fbase := hR1.2.2.1
          subst hfs1
          cases s1st with
          | nil => dsimp only [VEnv.pop] at hs; exact Except.noConfusion hs
          | cons v s1st' =>
            cases c1st with
            | nil => dsimp only [VEnv.pop] at hc; exact Except.noConfusion hc
            | cons w c1st' =>
              dsimp only [VEnv.pop] at hs hc
              cases s1fs with
              | nil => dsimp only [VEnv.popFunc] at hs; exact Except.noConfusion hs
              | cons f s1fs' =>
                dsimp only [List.cons_append, VEnv.popFunc] at hs hc
                exact R_hao _ _ (R_fs rfl (R_pop hR1)) hs hc
  | Pack =>
    rw [Check.step.eq_def] at hs hc
    cases sfs with
    | nil => dsimp only [VEnv.popFunc] at hs; exact Except.noConfusion hs
    | cons f sfs' =>
      dsimp only [List.cons_append, VEnv.popFunc] at hs hc
      exact R_hao _ _ (R_fs rfl hR) hs hc
  | Dup =>
    rw [Check.step.eq_def] at hs hc
    cases ss with
    | nil => dsimp only [VEnv.pop] at hs; exact Except.noConfusion hs
    | cons v ss' =>
      cases cs with
      | nil => dsimp only [VEnv.pop] at hc; exact Except.noConfusion hc
      | cons w cs' =>
        dsimp only [VEnv.pop] at hs hc
        injection hs with hs
        injection hc with hc
        subst hs
        subst hc
        exact R_push_any [v, v] [w, w] rfl (R_setMin (R_pop hR))
  | Flip =>
    rw [Check.step.eq_def] at hs hc
    cases ss with
    | nil => dsimp only [VEnv.pop] at hs; exact Except.noConfusion hs
    | cons a1 ss' =>
      cases ss' with
      | nil => dsimp only [VEnv.pop] at hs; exact Except.noConfusion hs
      | cons b1 ss'' =>
        cases cs with
        | nil => dsimp only [VEnv.pop] at hc; exact Except.noConfusion hc
        | cons a2 cs' =>
          cases cs' with
          | nil => dsimp only [VEnv.pop] at hc; exact Except.noConfusion hc
          | cons b2 cs'' =>
            dsimp only [VEnv.pop] at hs hc
            injection hs with hs
            injection hc with hc
            subst hs
            subst hc
            exact R_push_any [b1, a1] [b2, a2] rfl (R_setMin (R_pop (R_pop hR)))
  | Pop =>
    rw [Check.step.eq_def] at hs hc
    cases ss with
    | nil => dsimp only [VEnv.pop] at hs; exact Except.noConfusion hs
    | cons v ss' =>
      cases cs with
      | nil => dsimp only [VEnv.pop] at hc; exact Except.noConfusion hc
      | cons w cs' =>
        dsimp only [VEnv.pop] at hs hc
        injection hs with hs
        injection hc with hc
        subst hs
        subst hc
        exact R_setMin (R_pop hR)
  | Over =>
    rw [Check.step.eq_def] at hs hc
    cases ss with
    | nil => dsimp only [VEnv.pop] at hs; exact Except.noConfusion hs
    | cons a1 ss' =>
      cases ss' with
      | nil => dsimp only [VEnv.pop] at hs; exact Except.noConfusion hs
      | cons b1 ss'' =>
        cases cs with
        | nil => dsimp only [VEnv.pop] at hc; exact Except.noConfusion hc
        | cons a2 cs' =>
          cases cs' with
          | nil => dsimp only [VEnv.pop] at hc; exact Except.noConfusion hc
          | cons b2 cs'' =>
            dsimp only [VEnv.pop] at hs hc
            injection hs with hs
            injection hc with hc
            subst hs
            subst hc
            exact R_push_any [b1, a1, b1] [b2, a2, b2] rfl (R_setMin (R_pop (R_pop hR)))
  | Dip =>
    rw [Check.step.eq_def] at hs hc
    cases sfs with
    | nil => dsimp only [VEnv.popFunc] at hs; exact Except.noConfusion hs
    | cons f sfs' =>
      dsimp only [List.cons_append, VEnv.popFunc] at hs hc
      cases ss with
      | nil => dsimp only [VEnv.pop] at hs; exact Except.noConfusion hs
      | cons x1 ss' =>
        cases cs with
        | nil => dsimp only [VEnv.pop] at hc; exact Except.noConfusion hc
        | cons x2 cs' =>
          dsimp only [VEnv.pop] at hs hc
          cases hhs : VEnv.handleSig f.sig
              (VEnv.setMinHeight ⟨ss', sfs', sbs, sm⟩) with
          | error s => rw [hhs] at hs; exact Except.noConfusion hs
          | ok e3s =>
            rw [hhs] at hs
            dsimp only at hs
            cases hhc : VEnv.handleSig f.sig
                (VEnv.setMinHeight ⟨cs', sfs' ++ fbase, cbs, cm⟩) with
            | error s => rw [hhc] at hc; exact Except.noConfusion hc
            | ok e3c =>
              rw [hhc] at hc
              dsimp only at hc
              injection hs with hs
              injection hc with hc
              subst hs
              subst hc
              exact R_push_any [x1] [x2] rfl
                (R_hao _ _ (R_setMin (R_fs rfl (R_pop hR))) hhs hhc)
  | Gap =>
    rw [Check.step.eq_def] at hs hc
    cases sfs with
    | nil => dsimp only [VEnv.popFunc] at hs; exact Except.noConfusion hs
    | cons f sfs' =>
      dsimp only [List.cons_append, VEnv.popFunc] at hs hc
      cases ss with
      | nil => dsimp only [VEnv.pop] at hs; exact Except.noConfusion hs
      | cons x1 ss' =>
        cases cs with
        | nil => dsimp only [VEnv.pop] at hc; exact Except.noConfusion hc
        | cons x2 cs' =>
          dsimp only [VEnv.pop] at hs hc
          exact R_hao _ _ (R_setMin (R_fs rfl (R_pop hR))) hs hc
  | Oust =>
    rw [Check.step.eq_def] at hs hc
    cases sfs with
    | nil => dsimp only [VEnv.popFunc] at hs; exact Except.noConfusion hs
    | cons f sfs' =>
      dsimp only [List.cons_append, VEnv.popFunc] at hs hc
      cases ss with
      | nil => dsimp only [VEnv.pop] at hs; exact Except.noConfusion hs
      | cons x1 ss' =>
        cases ss' with
        | nil => dsimp only [VEnv.pop] at hs; exact Except.noConfusion hs
        | cons y1 ss'' =>
          cases cs with
          | nil => dsimp only [VEnv.pop] at hc; exact Except.noConfusion hc
          | cons x2 cs' =>
            cases cs' with
            | nil => dsimp only [VEnv.pop] at hc; exact Except.noConfusion hc
            | cons y2 cs'' =>
              dsimp only [VEnv.pop] at hs hc
              exact R_hao _ _
                (R_push_any [x1] [x2] rfl (R_setMin (R_fs rfl (R_pop (R_pop hR)))))
                hs hc
  | Join =>
    rw [Check.step.eq_def] at hs hc
    cases ss with
    | nil => dsimp only [VEnv.pop] at hs; exact Except.noConfusion hs
    | cons a1 ss' =>
      cases ss' with
      | nil => dsimp only [VEnv.pop] at hs; exact Except.noConfusion hs
      | cons b1 ss'' =>
        cases cs with
        | nil => dsimp only [VEnv.pop] at hc; exact Except.noConfusion hc
        | cons a2 cs' =>
          cases cs' with
          | nil => dsimp only [VEnv.pop] at hc; exact Except.noConfusion hc
          | cons b2 cs'' =>
            dsimp only [VEnv.pop] at hs hc
            injection hs with hs
            injection hc with hc
            subst hs
            subst hc
            exact R_push_any [_] [_] rfl (R_setMin (R_pop (R_pop hR)))
  | Dump =>
    rw [Check.step.eq_def] at hs hc
    cases sfs with
    | nil => dsimp only [VEnv.popFunc] at hs; exact Except.noConfusion hs
    | cons f sfs' =>
      dsimp only [List.cons_append, VEnv.popFunc] at hs hc
      injection hs with hs
      injection hc with hc
      subst hs
      subst hc
      exact R_fs rfl hR
  | Break =>
    rw [Check.step.eq_def] at hs
    dsimp only [Prim.args] at hs
    exact Except.noConfusion hs
  | Identity =>
    rw [Check.step.eq_def] at hs hc
    dsimp only [Prim.args, Prim.outputs, Prim.modifierArgs, Option.getD,
      Check.step.popFuncsDiscard] at hs hc
    exact R_hao _ _ hR hs hc
  | Add =>
    rw [Check.step.eq_def] at hs hc
    dsimp only [Prim.args, Prim.outputs, Prim.modifierArgs, Option.getD,
      Check.step.popFuncsDiscard] at hs hc
    exact R_hao _ _ hR hs hc
  | Pow =>
    rw [Check.step.eq_def] at hs hc
    dsimp only [Prim.args, Prim.outputs, Prim.modifierArgs, Option.getD,
      Check.step.popFuncsDiscard] at hs hc
    exact R_hao _ _ hR hs hc
  | Not =>
    rw [Check.step.eq_def] at hs hc
    dsimp only [Prim.args, Prim.outputs, Prim.modifierArgs, Option.getD,
      Check.step.popFuncsDiscard] at hs hc
    exact R_hao _ _ hR hs hc
  | Eq =>
    rw [Check.step.eq_def] at hs hc
    dsimp only [Prim.args, Prim.outputs, Prim.modifierArgs, Option.getD,
      Check.step.popFuncsDiscard] at hs hc
    exact R_hao _ _ hR hs hc
  | Ne =>
    rw [Check.step.eq_def] at hs hc
    dsimp only [Prim.args, Prim.outputs, Prim.modifierArgs, Option.getD,
      Check.step.popFuncsDiscard] at hs hc
    exact R_hao _ _ hR hs hc
  | Lt =>
    rw [Check.step.eq_def] at hs hc
    dsimp only [Prim.args, Prim.outputs, Prim.modifierArgs, Option.getD,
      Check.step.popFuncsDiscard] at hs hc
    exact R_hao _ _ hR hs hc
  | Le =>
    rw [Check.step.eq_def] at hs hc
    dsimp only [Prim.args, Prim.outputs, Prim.modifierArgs, Option.getD,
      Check.step.popFuncsDiscard] at hs hc
    exact R_hao _ _ hR hs hc
  | Gt =>
    rw [Check.step.eq_def] at hs hc
    dsimp only [Prim.args, Prim.outputs, Prim.modifierArgs, Option.getD,
      Check.step.popFuncsDiscard] at hs hc
    exact R_hao _ _ hR hs hc
  | Ge =>
    rw [Check.step.eq_def] at hs hc
    dsimp only [Prim.args, Prim.outputs, Prim.modifierArgs, Option.getD,
      Check.step.popFuncsDiscard] at hs hc
    exact R_hao _ _ hR hs hc


theorem SimRel_step (i : Instr) (hns : isSwitchOrRepeat i = false)
    {s c s' c' : VEnv} (hR : SimRel len1 m1 fbase s c)
    (hs : step i s = .ok s') (hc : step i c = .ok c') :
    SimRel len1 m1 fbase s' c' := by
  obtain ⟨ss, sfs, sbs, sm⟩ := s
  obtain ⟨cs, cfs, cbs, cm⟩ := c
  have hfs : cfs = sfs ++ fbase := hR.2.2.1
  subst hfs
  cases i with
  | Push v =>
    rw [Check.step.eq_def] at hs hc
    dsimp only at hs hc
    injection hs with hs
    injection hc with hc
    subst hs
    subst hc
    exact R_push [BasicValue.fromVal v] [BasicValue.fromVal v] rfl rfl hR
  | BeginArray =>
    rw [Check.step.eq_def] at hs hc
    dsimp only at hs hc
    injection hs with hs
    injection hc with hc
    subst hs
    subst hc
    exact R_beginArr hR
  | EndArray =>
    rw [Check.step.eq_def] at hs hc
    dsimp only at hs hc
    obtain ⟨h1, h2, h3, front, base, hsplit, hfa⟩ := hR
    cases hfa with
    | nil =>
      exact Except.noConfusion hs
    | cons hhead htail =>
      rename_i sb cb stl ftl
      subst hsplit
      dsimp only [List.cons_append] at hs hc
      split at hs
      next hsb =>
        injection hs with hs
        subst hs
        split at hc
        next hcb =>
          injection hc with hc
          subst hc
          rw [R_mk]
          refine ⟨?_, h2, h3, ftl, base, rfl, htail⟩
          simp only [List.length_cons, List.length_drop]
          omega
        next hcb => exact Except.noConfusion hc
      next hsb => exact Except.noConfusion hs
  | Call =>
    rw [Check.step.eq_def] at hs hc
    cases sfs with
    | nil => dsimp only [VEnv.popFunc] at hs; exact Except.noConfusion hs
    | cons g sfs' =>
      dsimp only [List.cons_append, VEnv.popFunc] at hs hc
      exact R_hao _ _ (R_fs rfl hR) hs hc
  | PushTempInline count =>
    rw [Check.step.eq_def] at hs hc
    dsimp only at hs hc
    exact R_hao _ _ hR hs hc
  | PushTempUnder count =>
    rw [Check.step.eq_def] at hs hc
    dsimp only at hs hc
    exact R_hao _ _ hR hs hc
  | PushTempFunctions n =>
    rw [Check.step.eq_def] at hs hc
    dsimp only at hs hc
    injection hs with hs
    injection hc with hc
    subst hs
    subst hc
    exact hR
  | PopTempFunctions n =>
    rw [Check.step.eq_def] at hs hc
    dsimp only at hs hc
    injection hs with hs
    injection hc with hc
    subst hs
    subst hc
    exact hR
  | GetTempFunction sig =>
    rw [Check.step.eq_def] at hs hc
    dsimp only at hs hc
    injection hs with hs
    injection hc with hc
    subst hs
    subst hc
    exact R_fs rfl hR
  | PopTempInline count =>
    rw [Check.step.eq_def] at hs hc
    dsimp only at hs hc
    exact R_hao _ _ hR hs hc
  | PopTempUnder count =>
    rw [Check.step.eq_def] at hs hc
    dsimp only at hs hc
    exact R_hao _ _ hR hs hc
  | CopyTempInline count =>
    rw [Check.step.eq_def] at hs hc
    dsimp only at hs hc
    exact R_hao _ _ hR hs hc
  | DropTempInline count =>
    rw [Check.step.eq_def] at hs hc
    dsimp only at hs hc
    injection hs with hs
    injection hc with hc
    subst hs
    subst hc
    exact hR
  | PushFunc f =>
    rw [Check.step.eq_def] at hs hc
    dsimp only at hs hc
    injection hs with hs
    injection hc with hc
    subst hs
    subst hc
    exact R_fs rfl hR
  | Switch count => simp [isSwitchOrRepeat] at hns
  | Dynamic sig =>
    rw [Check.step.eq_def] at hs hc
    dsimp only at hs hc
    exact R_hao _ _ hR hs hc
  | ImplPrim a o modArgs =>
    rw [Check.step.eq_def] at hs hc
    dsimp only at hs hc
    cases hds : Check.step.popFuncsDiscard modArgs (⟨ss, sfs, sbs, sm⟩ : VEnv) with
    | error s => rw [hds] at hs; exact Except.noConfusion hs
    | ok e1s =>
      rw [hds] at hs
      obtain ⟨hks, hes⟩ := popFuncsDiscard_ok modArgs _ _ hds
      subst hes
      cases hdc : Check.step.popFuncsDiscard modArgs
          (⟨cs, sfs ++ fbase, cbs, cm⟩ : VEnv) with
      | error s => rw [hdc] at hc; exact Except.noConfusion hc
      | ok e1c =>
        rw [hdc] at hc
        obtain ⟨hkc, hec⟩ := popFuncsDiscard_ok modArgs _ _ hdc
        subst hec
        dsimp only at hs hc
        have hdrop : (sfs ++ fbase).drop modArgs = sfs.drop modArgs ++ fbase :=
          List.drop_append_of_le_length hks
        rw [hdrop] at hc
        exact R_hao _ _ (R_fs rfl hR) hs hc
  | Prim p => exact SimRel_step_prim p hns hR hs hc

theorem SimRel_run : ∀ (I : List Instr) {s c s' c' : VEnv}, noSwitchRepeat I = true →
    SimRel len1 m1 fbase s c → runInstrs I s = .ok s' → runInstrs I c = .ok c' →
    SimRel len1 m1 fbase s' c' := by
  intro I
  induction I with
  | nil =>
    intro s c s' c' _ hR hs hc
    injection hs with hs
    injection hc with hc
    subst hs
    subst hc
    exact hR
  | cons i rest ih =>
    intro s c s' c' hns hR hs hc
    rw [noSwitchRepeat, List.all_cons, Bool.and_eq_true] at hns
    obtain ⟨hni, hnrest⟩ := hns
    rw [Bool.not_eq_true'] at hni
    have hs' : ((match step i s with
      | Except.error e => Except.error e
      | Except.ok e1 => runInstrs rest e1) : Except String VEnv) = .ok s' := hs
    have hc' : ((match step i c with
      | Except.error e => Except.error e
      | Except.ok e1 => runInstrs rest e1) : Except String VEnv) = .ok c' := hc
    cases hss : step i s with
    | error e => rw [hss] at hs'; exact Except.noConfusion hs'
    | ok e1s =>
      rw [hss] at hs'
      cases hcc : step i c with
      | error e => rw [hcc] at hc'; exact Except.noConfusion hc'
      | ok e1c =>
        rw [hcc] at hc'
        exact ih hnrest (SimRel_step i hni hR hss hcc) hs' hc'

end Sim

theorem instrsSignature_eq_virtual (instrs : List Instr) :
    instrsSignature instrs = instrsSignatureVirtual instrs := by
  cases instrs with
  | nil => rfl
  | cons i rest =>
    cases rest with
    | cons j rest2 => cases i <;> rfl
    | nil =>
      cases i
      case Prim p => cases p <;> rfl
      all_goals rfl

theorem InvP_initEnv : InvP initEnv := by
  refine ⟨?_, le_rfl, ?_⟩
  · rw [initEnv]
    dsimp only
    rw [List.length_replicate]
  · intro b hb
    rw [initEnv] at hb
    simp at hb

/-- Claim C1 (amended): for instruction lists free of `Switch` and
`repeat`, whenever the signature checker accepts both lists and their
concatenation, the concatenation's signature composes from the parts:
`args = a1 + (a2 - o1)` and `outputs = o2 + (o1 - a2)` (truncated
subtraction playing the role of `max 0 (x - y)`). Proved by a
height-translation simulation between the solo run of the second list and
its run on the first list's final environment. -/
theorem signature_concat_composes (I1 I2 : List Instr) (s1 s2 s12 : Signature)
    (hns1 : noSwitchRepeat I1 = true) (hns2 : noSwitchRepeat I2 = true)
    (h1 : instrsSignature I1 = .ok s1)
    (h2 : instrsSignature I2 = .ok s2)
    (h12 : instrsSignature (I1 ++ I2) = .ok s12) :
    s12 = ⟨s1.args + (s2.args - s1.outputs), s2.outputs + (s1.outputs - s2.args)⟩ := by
  rw [instrsSignature_eq_virtual, instrsSignatureVirtual] at h1 h2 h12
  rw [runInstrs_append] at h12
  cases hr1 : runInstrs I1 initEnv with
  | error e => rw [hr1] at h1; exact Except.noConfusion h1
  | ok E1 =>
    rw [hr1] at h1 h12
    dsimp only at h12
    injection h1 with h1
    subst h1
    cases hr2 : runInstrs I2 initEnv with
    | error e => rw [hr2] at h2; exact Except.noConfusion h2
    | ok Es =>
      rw [hr2] at h2
      injection h2 with h2
      subst h2
      cases hrc : runInstrs I2 E1 with
      | error e => rw [hrc] at h12; exact Except.noConfusion h12
      | ok Ec =>
        rw [hrc] at h12
        injection h12 with h12
        subst h12
        have hI1 : InvP E1 := InvP_run I1 _ _ hns1 hr1 InvP_initEnv
        have hIs : InvP Es := InvP_run I2 _ _ hns2 hr2 InvP_initEnv
        obtain ⟨e1st, e1fs, e1bs, e1m⟩ := E1
        have hR0 : SimRel e1st.length e1m e1fs initEnv
            ⟨e1st, e1fs, e1bs, e1m⟩ := by
          rw [show initEnv =
            (⟨List.replicate startHeight .unknown, [], [], startHeight⟩ : VEnv) from rfl]
          rw [R_mk]
          have hm1 : e1m ≤ e1st.length := hI1.1
          refine ⟨?_, ?_, rfl, [], e1bs, rfl, List.Forall₂.nil⟩
          · rw [List.length_replicate]
            omega
          · omega
        have hRF := SimRel_run I2 hns2 hR0 hr2 hrc
        obtain ⟨sst, ssfs, ssbs, ssm⟩ := Es
        obtain ⟨cst, csfs, csbs, csm⟩ := Ec
        rw [R_mk] at hRF
        obtain ⟨hf1, hf2, _, _⟩ := hRF
        have ha1 : e1m ≤ startHeight := hI1.2.1
        have ha2 : ssm ≤ startHeight := hIs.2.1
        have ha3 : e1m ≤ e1st.length := hI1.1
        have ha4 : ssm ≤ sst.length := hIs.1
        have hA : startHeight - csm =
            (startHeight - e1m) + ((startHeight - ssm) - (e1st.length - e1m)) := by
          omega
        have hO : cst.length - csm =
            (sst.length - ssm) + ((e1st.length - e1m) - (startHeight - ssm)) := by
          omega
        rw [hA, hO]




theorem signature_concat_composes_witness :
    noSwitchRepeat [Instr.Prim .Dup] = true ∧
    noSwitchRepeat [Instr.Prim .Pop] = true ∧
    instrsSignature [Instr.Prim .Dup] = .ok ⟨1, 2⟩ ∧
    instrsSignature [Instr.Prim .Pop] = .ok ⟨1, 0⟩ ∧
    instrsSignature ([Instr.Prim .Dup] ++ [Instr.Prim .Pop]) = .ok ⟨1, 1⟩ ∧
    (⟨1, 1⟩ : Signature) = ⟨1 + (1 - 2), 0 + (2 - 1)⟩ :=
  ⟨rfl, rfl, rfl, rfl, rfl,
    signature_concat_composes [.Prim .Dup] [.Prim .Pop] ⟨1, 2⟩ ⟨1, 0⟩ ⟨1, 1⟩
      rfl rfl rfl rfl rfl⟩


end Check

end Uiua
